import Mathlib

/-! Aggregation reducers of `influxql/call_iterator.go`.

A shallow embedding of the call iterators of InfluxQL: the point model, the
streaming (pairwise) reducers, the buffering (slice) reducers and the drivers
feeding them, followed by theorems about them.

Conventions of the embedding:

* `int64` values are `Int`; arithmetic that can overflow is wrapped by `wrapInt64`.
* `float64` values are rationals (`ℚ`): the properties below concern exact arithmetic.
* A Go pointer that may be `nil` is an `Option`; a Go `nil` slice is the empty list.
* A Go run-time panic (index out of range, negative capacity) is `none`.
-/

namespace Influxql

/-! ## Data model -/

/-- Two's-complement wraparound of an integer into the `int64` range. -/
def wrapInt64 (x : Int) : Int := (x + 2 ^ 63) % 2 ^ 64 - 2 ^ 63

/-- Membership in the `int64` range. -/
def isInt64 (x : Int) : Prop := -(2 ^ 63) ≤ x ∧ x < 2 ^ 63

instance (x : Int) : Decidable (isInt64 x) := by unfold isInt64; infer_instance

/-- Modelled from the spec: the element type of `Aux` (`interface{}` in the source, an
opaque auxiliary value). A string is kept as such; any other value is represented by the
text the `%s` verb of `fmt` renders for it. -/
inductive AuxValue where
  | str (s : String)
  | other (rendered : String)
  deriving DecidableEq, Repr

/-- Modelled from the spec: `IntegerPoint` (its declaration is not in `call_iterator.go`).
`Tags` is the ordered set of key/value pairs; `Aggregated` is the unsigned count of raw
points folded into this point. -/
structure IntegerPoint where
  Name : String := ""
  Tags : List (String × String) := []
  Time : Int := 0
  Value : Int := 0
  Aux : List AuxValue := []
  Aggregated : Nat := 0
  Nil : Bool := false
  deriving DecidableEq, Repr

/-- Modelled from the spec: `FloatPoint`, with the `float64` value taken as a rational. -/
structure FloatPoint where
  Name : String := ""
  Tags : List (String × String) := []
  Time : Int := 0
  Value : ℚ := 0
  Aux : List AuxValue := []
  Aggregated : Nat := 0
  Nil : Bool := false
  deriving DecidableEq

/-- Modelled from the spec: `ReduceOptions`, the window boundaries of one reduction pass. -/
structure ReduceOptions where
  StartTime : Int := 0
  EndTime : Int := 0
  deriving DecidableEq, Repr

/-- Modelled from the spec: `Interval`; `IsZero` reports whether no interval was given. -/
structure Interval where
  Duration : Int := 0
  Offset : Int := 0
  deriving DecidableEq, Repr

/-- Modelled from the spec: `Interval.IsZero`, true when the duration is zero. -/
def Interval.IsZero (i : Interval) : Bool := i.Duration == 0

/-- The result triple `(time, value, aux)` of a pairwise integer reducer. -/
abbrev IntegerResult := Int × Int × List AuxValue

/-- The result triple `(time, value, aux)` of a pairwise reducer emitting floats. -/
abbrev FloatResult := Int × ℚ × List AuxValue

/-! ## Streaming reducers -/

/-- `IntegerCountReduce`: the count of points. -/
def IntegerCountReduce (prev : Option IntegerPoint) (_curr : IntegerPoint)
    (opt : ReduceOptions) : IntegerResult :=
  match prev with
  | none => (opt.StartTime, 1, [])
  | some prev => (prev.Time, wrapInt64 (prev.Value + 1), [])

/-- `IntegerMinReduce`: the minimum value between prev and curr. -/
def IntegerMinReduce (prev : Option IntegerPoint) (curr : IntegerPoint)
    (_opt : ReduceOptions) : IntegerResult :=
  match prev with
  | none => (curr.Time, curr.Value, curr.Aux)
  | some prev =>
    if curr.Value < prev.Value ∨ (curr.Value = prev.Value ∧ curr.Time < prev.Time) then
      (curr.Time, curr.Value, curr.Aux)
    else (prev.Time, prev.Value, prev.Aux)

/-- `IntegerMaxReduce`: the maximum value between prev and curr. -/
def IntegerMaxReduce (prev : Option IntegerPoint) (curr : IntegerPoint)
    (_opt : ReduceOptions) : IntegerResult :=
  match prev with
  | none => (curr.Time, curr.Value, curr.Aux)
  | some prev =>
    if curr.Value > prev.Value ∨ (curr.Value = prev.Value ∧ curr.Time < prev.Time) then
      (curr.Time, curr.Value, curr.Aux)
    else (prev.Time, prev.Value, prev.Aux)

/-- `IntegerSumReduce`: the sum of the prev value and the curr value. -/
def IntegerSumReduce (prev : Option IntegerPoint) (curr : IntegerPoint)
    (_opt : ReduceOptions) : IntegerResult :=
  match prev with
  | none => (curr.Time, curr.Value, [])
  | some prev => (prev.Time, wrapInt64 (prev.Value + curr.Value), [])

/-- `IntegerFirstReduce`: the first point sorted by time. -/
def IntegerFirstReduce (prev : Option IntegerPoint) (curr : IntegerPoint)
    (_opt : ReduceOptions) : IntegerResult :=
  match prev with
  | none => (curr.Time, curr.Value, curr.Aux)
  | some prev =>
    if curr.Time < prev.Time ∨ (curr.Time = prev.Time ∧ curr.Value > prev.Value) then
      (curr.Time, curr.Value, curr.Aux)
    else (prev.Time, prev.Value, prev.Aux)

/-- `IntegerLastReduce`: the last point sorted by time. -/
def IntegerLastReduce (prev : Option IntegerPoint) (curr : IntegerPoint)
    (_opt : ReduceOptions) : IntegerResult :=
  match prev with
  | none => (curr.Time, curr.Value, curr.Aux)
  | some prev =>
    if curr.Time > prev.Time ∨ (curr.Time = prev.Time ∧ curr.Value > prev.Value) then
      (curr.Time, curr.Value, curr.Aux)
    else (prev.Time, prev.Value, prev.Aux)

/-- `IntegerMeanReduce`: the running mean; `prev` is a float accumulator. -/
def IntegerMeanReduce (prev : Option FloatPoint) (curr : IntegerPoint)
    (opt : ReduceOptions) : FloatResult :=
  match prev with
  | none => (opt.StartTime, (curr.Value : ℚ), [])
  | some prev =>
    let value := prev.Value * (prev.Aggregated : ℚ)
    if curr.Aggregated > 1 then
      (prev.Time,
        (value + (curr.Value : ℚ) * (curr.Aggregated : ℚ)) /
          ((prev.Aggregated + curr.Aggregated : Nat) : ℚ),
        prev.Aux)
    else
      (prev.Time, (value + (curr.Value : ℚ)) / ((prev.Aggregated + 1 : Nat) : ℚ), prev.Aux)

/-! ## Drivers of the streaming reducers -/

/-- The accumulator point holding a returned `(time, value, aux)` triple. -/
def IntegerResult.toPoint (r : IntegerResult) : IntegerPoint :=
  { Time := r.1, Value := r.2.1, Aux := r.2.2 }

/-- Modelled from the spec: the protocol of the pairwise reducers (the driver of the
integer reducers, `integerReduceIterator`, is not in `call_iterator.go`). Folding a pairwise
integer reducer over the points of one group: `prev` is `nil` for the first point and
afterwards the point holding the previously returned triple. -/
def foldIntegerReduce (fn : Option IntegerPoint → IntegerPoint → ReduceOptions → IntegerResult)
    (opt : ReduceOptions) (points : List IntegerPoint) : Option IntegerPoint :=
  points.foldl (fun prev curr => some (fn prev curr opt).toPoint) none

/-- One turn of the loop body of `integerReduceFloatIterator.reduce` for the accumulator
`prev = m[id]` of the group of `curr` (the lines from "Pass previous and current points to
reducer" to `prev.Aggregated++`); the result is the new `m[id]`. `zeroTime` is the constant
`ZeroTime` and `tags` is `curr.Tags.Subset(itr.opt.Dimensions)`. -/
def integerReduceFloatStep
    (fn : Option FloatPoint → IntegerPoint → ReduceOptions → FloatResult)
    (zeroTime : Int) (opt : ReduceOptions) (tags : List (String × String))
    (prev : Option FloatPoint) (curr : IntegerPoint) : Option FloatPoint :=
  let r := fn prev curr opt
  if r.1 = zeroTime then prev
  else
    let p : FloatPoint :=
      match prev with
      | none => { Name := curr.Name, Tags := tags }
      | some p => p
    some { p with Time := r.1, Value := r.2.1, Aux := r.2.2, Aggregated := p.Aggregated + 1 }

/-- The accumulator that `integerReduceFloatIterator.reduce` builds for one group of one
window: `Nil` points are skipped, every other point goes through `integerReduceFloatStep`.
All points are taken to have the same group key, whose tag subset is `tags`. -/
def integerReduceFloatGroup
    (fn : Option FloatPoint → IntegerPoint → ReduceOptions → FloatResult)
    (zeroTime : Int) (opt : ReduceOptions) (tags : List (String × String))
    (points : List IntegerPoint) : Option FloatPoint :=
  points.foldl
    (fun prev curr =>
      if curr.Nil then prev else integerReduceFloatStep fn zeroTime opt tags prev curr)
    none

/-- The point `integerReduceFloatIterator.reduce` emits for one group: the accumulator with
its time set to the beginning of the interval. -/
def integerReduceFloatEmit
    (fn : Option FloatPoint → IntegerPoint → ReduceOptions → FloatResult)
    (zeroTime : Int) (opt : ReduceOptions) (tags : List (String × String))
    (points : List IntegerPoint) : Option FloatPoint :=
  (integerReduceFloatGroup fn zeroTime opt tags points).map
    (fun p => { p with Time := opt.StartTime })

/-- The weighted mean of the values of a list of points, each point weighted by its
`Aggregated` count: (sum of w_i * v_i) / (sum of w_i). -/
def weightedMean (points : List IntegerPoint) : ℚ :=
  ((points.map (fun p => (p.Aggregated : ℚ) * (p.Value : ℚ))).sum) /
    ((points.map (fun p => (p.Aggregated : ℚ))).sum)

/-- The arithmetic mean of the values of a list of points: (v_1 + ... + v_n) / n. -/
def arithmeticMean (points : List IntegerPoint) : ℚ :=
  ((points.map (fun p => (p.Value : ℚ))).sum) / (points.length : ℚ)

/-! ## Sorting (Go's package `sort`) -/

/-- The contract of `sort.Sort` for the order `less`: the result is a rearrangement of the
input in which no element is `less` than an element before it. `sort.Sort` is not stable,
so the order among elements that compare equal is left open; a slice reducer that calls
`sort.Sort` takes the sorting function as a parameter meeting this contract. -/
def IsSort {α : Type} (less : α → α → Bool) (sortFn : List α → List α) : Prop :=
  ∀ l, (sortFn l).Perm l ∧ (sortFn l).Pairwise (fun x y => less y x = false)

/-- `sort.Stable` for the order `less`: insertion into place, an element going before the
elements already placed that are not `less` than it. The result of a stable sort is
determined by its input, so this is `sort.Stable` itself; it also meets the contract of
`sort.Sort`. -/
def sortStable {α : Type} (less : α → α → Bool) (l : List α) : List α :=
  l.insertionSort (fun x y => less y x = false)

/-- Modelled from the spec: `floatPointsByValue.Less`, the order of "sort by value". -/
def floatPointsByValueLess (p q : FloatPoint) : Bool := decide (p.Value < q.Value)

/-- Modelled from the spec: `integerPoints.Less`, the order of "sorted by timestamp
ascending". -/
def integerPointsLess (p q : IntegerPoint) : Bool := decide (p.Time < q.Time)

/-! ## Slice reducers -/

/-- `FloatMedianReduceSlice`: the median value within a window. `sortFn` is
`sort.Sort(floatPointsByValue(a))`. -/
def FloatMedianReduceSlice (sortFn : List FloatPoint → List FloatPoint)
    (a : List FloatPoint) (opt : ReduceOptions) : Option (List FloatPoint) :=
  if a.length = 1 then
    (a[0]?).map fun p => [{ Time := opt.StartTime, Value := p.Value }]
  else
    let a := sortFn a
    if a.length % 2 = 0 then
      if a.length / 2 < 1 then none
      else
        match a[a.length / 2 - 1]?, a[a.length / 2]? with
        | some lo, some hi =>
          some [{ Time := opt.StartTime, Value := lo.Value + (hi.Value - lo.Value) / 2 }]
        | _, _ => none
    else
      (a[a.length / 2]?).map fun p => [{ Time := opt.StartTime, Value := p.Value }]

/-- The statistical median by sort-and-index: the middle sorted value for odd length, the
arithmetic mean of the two middle sorted values for even length. -/
def medianReference (values : List ℚ) : ℚ :=
  let s := values.insertionSort (· ≤ ·)
  if s.length % 2 = 1 then s.getD (s.length / 2) 0
  else (s.getD (s.length / 2 - 1) 0 + s.getD (s.length / 2) 0) / 2

/-! ## Heaps (Go's package `container/heap` over `integerPointsByFunc`) -/

/-- Modelled from the spec: `Swap(i, j)` of the heap that `integerPointsSortBy` builds over a
slice (its declaration is not in `call_iterator.go`): exchanges the elements at `i` and `j`.
Both indices are in range wherever the heap operations call it; otherwise the list is
returned unchanged. -/
def heapSwap {α : Type} (h : List α) (i j : Nat) : List α :=
  match h[i]?, h[j]? with
  | some x, some y => (h.set i y).set j x
  | _, _ => h

/-- Modelled from the spec: `Less(i, j)` of the heap that `integerPointsSortBy` builds over a
slice: compares the elements at `i` and `j` with the comparator handed to
`integerPointsSortBy`. Both indices are in range wherever the heap operations call it. -/
def heapLess {α : Type} (less : α → α → Bool) (h : List α) (i j : Nat) : Bool :=
  match h[i]?, h[j]? with
  | some x, some y => less x y
  | _, _ => false

/-- `down(h, i0, n)` of `container/heap`: sifts the element at `i` down within the first `n`
elements. Each turn of the loop moves `i` to a child, so at most `n` turns are taken; `fuel`
bounds them and `none` means the bound was too small. -/
def heapDown {α : Type} (less : α → α → Bool) : Nat → List α → Nat → Nat → Option (List α)
  | fuel, h, i, n =>
    let j1 := 2 * i + 1
    if j1 ≥ n then some h
    else
      match fuel with
      | 0 => none
      | fuel + 1 =>
        let j := if j1 + 1 < n && heapLess less h (j1 + 1) j1 then j1 + 1 else j1
        if !heapLess less h j i then some h
        else heapDown less fuel (heapSwap h i j) j n

/-- The loop of `heap.Init`: `down(h, i, n)` for `i = k - 1, ..., 0`. -/
def heapInitLoop {α : Type} (less : α → α → Bool) (n : Nat) : Nat → List α → Option (List α)
  | 0, h => some h
  | k + 1, h => (heapDown less n h k n).bind (heapInitLoop less n k)

/-- `heap.Init(h)`: establishes the heap ordering, `i` running from `n/2 - 1` down to `0`. -/
def heapInit {α : Type} (less : α → α → Bool) (h : List α) : Option (List α) :=
  heapInitLoop less h.length (h.length / 2) h

/-- `heap.Pop(h)`: swaps the root with the last element, sifts the new root down within the
first `n = h.Len() - 1` elements and removes the last element, which is returned together
with the remaining heap. On an empty heap `h.Swap(0, -1)` panics. -/
def heapPop {α : Type} (less : α → α → Bool) (h : List α) : Option (α × List α) :=
  if h.length = 0 then none
  else
    let n := h.length - 1
    (heapDown less n (heapSwap h 0 n) 0 n).bind fun h =>
      (h[h.length - 1]?).map fun p => (p, h.take (h.length - 1))

/-- The loop `for i := 0; i < size; i++ { points = append(points, heap.Pop(h)) }`. -/
def heapPopN {α : Type} (less : α → α → Bool) : Nat → List α → List α → Option (List α)
  | 0, _, points => some points
  | size + 1, h, points =>
    (heapPop less h).bind fun r => heapPopN less size r.2 (points ++ [r.1])

/-! ## top -/

/-- Modelled from the spec: the text `fmt.Fprintf(keyBuf, "%s", v)` writes for an auxiliary
value `v`. -/
def AuxValue.format : AuxValue → String
  | .str s => s
  | .other rendered => rendered

/-- The key `filterIntegerByUniqueTags` builds for a point: the texts of `p.Aux[index]` for
the indices of `tags`, separated by commas. An index out of range panics. -/
def uniqueTagsKey (tags : List Int) (p : IntegerPoint) : Option String :=
  (tags.mapM fun index =>
      if index < 0 then none else (p.Aux[index.toNat]?).map AuxValue.format).map
    (String.intercalate ",")

/-- `filterIntegerByUniqueTags`: keeps one point per key, replacing the point held for a key
when `cmpFunc cur p` holds. `pointMap` is kept as an association list in order of first
insertion; Go leaves the iteration order of a map unspecified, so the order of the result
stands for one of the orders the source may produce. -/
def filterIntegerByUniqueTags (a : List IntegerPoint) (tags : List Int)
    (cmpFunc : IntegerPoint → IntegerPoint → Bool) : Option (List IntegerPoint) :=
  (a.foldlM
      (fun (pointMap : List (String × IntegerPoint)) p =>
        (uniqueTagsKey tags p).map fun key =>
          match pointMap.lookup key with
          | some cur =>
            if cmpFunc cur p then pointMap.map (fun e => if e.1 = key then (key, p) else e)
            else pointMap
          | none => pointMap ++ [(key, p)])
      []).map
    (fun pointMap => pointMap.map Prod.snd)

/-- The comparison `top` hands to `filterIntegerByUniqueTags`. -/
def topCmpFunc (cur p : IntegerPoint) : Bool :=
  decide (p.Value > cur.Value ∨ (p.Value = cur.Value ∧ p.Time < cur.Time))

/-- The heap order of `top`: higher values first, ties broken by the earliest time. -/
def topLess (a b : IntegerPoint) : Bool :=
  if a.Value ≠ b.Value then decide (a.Value > b.Value) else decide (a.Time < b.Time)

/-- `NewIntegerTopReduceSliceFunc(n, tags, interval)` applied to `a` and `opt`: the top values
within a window. `tags = none` is the `nil` slice. A negative `n` makes
`make([]IntegerPoint, 0, size)` panic. -/
def NewIntegerTopReduceSliceFunc (n : Int) (tags : Option (List Int)) (interval : Interval)
    (a : List IntegerPoint) (opt : ReduceOptions) : Option (List IntegerPoint) :=
  (match tags with
    | none => some a
    | some tags => filterIntegerByUniqueTags a tags topCmpFunc).bind fun a =>
  let size : Int := if n > (a.length : Int) then (a.length : Int) else n
  (heapInit topLess a).bind fun h =>
  if size < 0 then none
  else
    (heapPopN topLess size.toNat h []).map fun (points : List IntegerPoint) =>
      if !interval.IsZero then
        points.map (fun (p : IntegerPoint) => { p with Time := opt.StartTime })
      else sortStable integerPointsLess points

/-- The `(Time, Value)` pair of a point. -/
def IntegerPoint.timeValue (p : IntegerPoint) : Int × Int := (p.Time, p.Value)

/-- The order "greater `Value` first, then earlier `Time` first" on `(Time, Value)` pairs. -/
def topOrder (x y : Int × Int) : Prop := x.2 > y.2 ∨ (x.2 = y.2 ∧ x.1 ≤ y.1)

instance : DecidableRel topOrder := fun x y => by unfold topOrder; infer_instance

/-- The first `k` `(Time, Value)` pairs of `a` under `topOrder`. -/
def topReference (k : Nat) (a : List IntegerPoint) : List (Int × Int) :=
  ((a.map IntegerPoint.timeValue).insertionSort topOrder).take k

/-- The heap ordering of the first `n` elements of `h`, for the nodes whose parent is at `lo`
or after: no element is before its parent in the order of `key`. The parent of node `j` is
node `(j - 1) / 2`; `d` stands in for elements out of range. -/
def HeapFrom {α κ : Type} [LinearOrder κ] (key : α → κ) (d : α) (h : List α) (n lo : Nat) :
    Prop :=
  ∀ j, 0 < j → j < n → lo ≤ (j - 1) / 2 → key (h.getD ((j - 1) / 2) d) ≤ key (h.getD j d)

/-- The key of the heap order of `top`: greater `Value` first, then earlier `Time`. -/
def topKey (p : IntegerPoint) : ℤ ×ₗ ℤ := toLex (-p.Value, p.Time)

/-! ## Slice reducers: spread, percentile, median of integers, distinct -/

/-- Modelled from the spec: `integerPointsByValue.Less`, the order of "sorting ascending by
value". -/
def integerPointsByValueLess (p q : IntegerPoint) : Bool := decide (p.Value < q.Value)

/-- `IntegerSpreadReduceSlice`: the spread value within a window. `a[0]` panics on an empty
slice. -/
def IntegerSpreadReduceSlice (a : List IntegerPoint) (opt : ReduceOptions) :
    Option (List IntegerPoint) :=
  match a with
  | [] => none
  | p :: rest =>
    let mm : Int × Int :=
      rest.foldl
        (fun (mm : Int × Int) (p : IntegerPoint) =>
          (if p.Value < mm.1 then p.Value else mm.1, if p.Value > mm.2 then p.Value else mm.2))
        (p.Value, p.Value)
    some [{ Time := opt.StartTime, Value := wrapInt64 (mm.2 - mm.1) }]

/-- `FloatSpreadReduceSlice`: the spread value within a window, `math.Min` and `math.Max`
being the minimum and maximum of two rationals. `a[0]` panics on an empty slice. -/
def FloatSpreadReduceSlice (a : List FloatPoint) (opt : ReduceOptions) :
    Option (List FloatPoint) :=
  match a with
  | [] => none
  | p :: rest =>
    let mm : ℚ × ℚ :=
      rest.foldl (fun (mm : ℚ × ℚ) (p : FloatPoint) => (min mm.1 p.Value, max mm.2 p.Value))
        (p.Value, p.Value)
    some [{ Time := opt.StartTime, Value := mm.2 - mm.1 }]

/-- The index `int(math.Floor(float64(length)*percentile/100.0+0.5)) - 1` of the percentile
reducers, in exact arithmetic. -/
def percentileIndex (length : Nat) (percentile : ℚ) : Int :=
  ⌊(length : ℚ) * percentile / 100 + 1 / 2⌋ - 1

/-- `NewFloatPercentileReduceSliceFunc(percentile)` applied to `a` and `opt`, with the index
of exact arithmetic (`IEEE754.NewFloatPercentileReduceSliceFunc` has the index as `float64`
arithmetic gives it). `sortFn` is `sort.Sort(floatPointsByValue(a))`. -/
def NewFloatPercentileReduceSliceFunc (sortFn : List FloatPoint → List FloatPoint)
    (percentile : ℚ) (a : List FloatPoint) (opt : ReduceOptions) : Option (List FloatPoint) :=
  let length := a.length
  let i := percentileIndex length percentile
  if i < 0 ∨ i ≥ (length : Int) then some [{ Time := opt.StartTime, Nil := true }]
  else
    ((sortFn a)[i.toNat]?).map fun p => [{ Time := opt.StartTime, Value := p.Value }]

/-- `NewIntegerPercentileReduceSliceFunc(percentile)` applied to `a` and `opt`, with the
index of exact arithmetic (`IEEE754.NewIntegerPercentileReduceSliceFunc` has the index as
`float64` arithmetic gives it). `sortFn` is `sort.Sort(integerPointsByValue(a))`; the `nil`
result is the empty list. -/
def NewIntegerPercentileReduceSliceFunc (sortFn : List IntegerPoint → List IntegerPoint)
    (percentile : ℚ) (a : List IntegerPoint) (opt : ReduceOptions) :
    Option (List IntegerPoint) :=
  let length := a.length
  let i := percentileIndex length percentile
  if i < 0 ∨ i ≥ (length : Int) then some []
  else
    ((sortFn a)[i.toNat]?).map fun p => [{ Time := opt.StartTime, Value := p.Value }]

/-- `IntegerMedianReduceSlice`: the median value within a window. `sortFn` is
`sort.Sort(integerPointsByValue(a))`; `hi.Value-lo.Value` is an `int64` subtraction. -/
def IntegerMedianReduceSlice (sortFn : List IntegerPoint → List IntegerPoint)
    (a : List IntegerPoint) (opt : ReduceOptions) : Option (List FloatPoint) :=
  if a.length = 1 then
    (a[0]?).map fun p => [{ Time := opt.StartTime, Value := (p.Value : ℚ) }]
  else
    let a := sortFn a
    if a.length % 2 = 0 then
      if a.length / 2 < 1 then none
      else
        match a[a.length / 2 - 1]?, a[a.length / 2]? with
        | some lo, some hi =>
          some [{ Time := opt.StartTime,
                  Value := (lo.Value : ℚ) + ((wrapInt64 (hi.Value - lo.Value) : Int) : ℚ) / 2 }]
        | _, _ => none
    else
      (a[a.length / 2]?).map fun p => [{ Time := opt.StartTime, Value := (p.Value : ℚ) }]

/-- The map `m` of `IntegerDistinctReduceSlice` after its first loop, as an association list
in order of first insertion: the first point seen for each value. -/
def distinctMap (a : List IntegerPoint) : List (Int × IntegerPoint) :=
  a.foldl
    (fun (m : List (Int × IntegerPoint)) (p : IntegerPoint) =>
      match m.lookup p.Value with
      | some _ => m
      | none => m ++ [(p.Value, p)])
    []

/-- `IntegerDistinctReduceSlice`: the distinct values within a window. `sortFn` is
`sort.Sort(integerPoints(points))`. Go leaves the iteration order of the map unspecified and
`sort.Sort` is not stable; `sortFn` ranging over all functions that meet the contract of
`sort.Sort` covers every order in which the source may return the points. -/
def IntegerDistinctReduceSlice (sortFn : List IntegerPoint → List IntegerPoint)
    (a : List IntegerPoint) (_opt : ReduceOptions) : List IntegerPoint :=
  let points : List IntegerPoint :=
    (distinctMap a).map fun e => { Time := e.2.Time, Value := e.2.Value }
  sortFn points

/-! ## stddev -/

/-- The first loop of `IntegerStddevReduceSlice`: the pair `(mean, count)` after the points
of `a`, updated by `count++; mean += (float64(p.Value) - mean) / float64(count)`. -/
def integerStddevMean (a : List IntegerPoint) : ℚ × Int :=
  a.foldl
    (fun (s : ℚ × Int) (p : IntegerPoint) =>
      (s.1 + ((p.Value : ℚ) - s.1) / ((s.2 + 1 : Int) : ℚ), s.2 + 1))
    (0, 0)

/-- The second loop of `IntegerStddevReduceSlice`: `variance` after the points of `a`, updated
by `variance += math.Pow(float64(p.Value)-mean, 2)`. -/
def integerStddevVariance (mean : ℚ) (a : List IntegerPoint) : ℚ :=
  a.foldl (fun (variance : ℚ) (p : IntegerPoint) => variance + ((p.Value : ℚ) - mean) ^ 2) 0

/-- `IntegerStddevReduceSlice`: the stddev value within a window. `sqrt` stands for
`math.Sqrt`, whose values are not rational. -/
def IntegerStddevReduceSlice (sqrt : ℚ → ℚ) (a : List IntegerPoint) (opt : ReduceOptions) :
    List FloatPoint :=
  if a.length < 2 then [{ Time := opt.StartTime, Nil := true }]
  else
    let mc := integerStddevMean a
    let variance := integerStddevVariance mc.1 a
    [{ Time := opt.StartTime, Value := sqrt (variance / ((mc.2 - 1 : Int) : ℚ)) }]

/-- The sample variance of x_1..x_n: sum (x_i - m)^2 / (n - 1), where m is the arithmetic
mean of the x_i. The sample standard deviation is its square root. -/
def sampleVariance (xs : List ℚ) : ℚ :=
  (xs.map (fun x => (x - xs.sum / (xs.length : ℚ)) ^ 2)).sum / ((xs.length : ℚ) - 1)

/-- A rational stand-in for `math.Sqrt`: the square root rounded down to nine decimals. -/
def sqrtNineDecimals (q : ℚ) : ℚ :=
  (Nat.sqrt (q.num.toNat * 10 ^ 18 / q.den) : ℚ) / 10 ^ 9

/-- Modelled from the spec: a `float64` value that may be NaN or infinite; finite values
are rationals and the sign of zero is not kept. -/
inductive Float64 where
  | nan
  | inf (negative : Bool)
  | num (q : ℚ)
  deriving DecidableEq

/-- `math.IsNaN`. -/
def Float64.isNaN : Float64 → Bool
  | .nan => true
  | _ => false

/-- Negation of a `float64`. -/
def Float64.neg : Float64 → Float64
  | .nan => .nan
  | .inf negative => .inf (!negative)
  | .num q => .num (-q)

/-- Addition of `float64` values: NaN propagates and opposite infinities give NaN. -/
def Float64.add : Float64 → Float64 → Float64
  | .nan, _ => .nan
  | _, .nan => .nan
  | .inf s, .inf t => if s = t then .inf s else .nan
  | .inf s, .num _ => .inf s
  | .num _, .inf t => .inf t
  | .num a, .num b => .num (a + b)

/-- Subtraction of `float64` values. -/
def Float64.sub (x y : Float64) : Float64 := x.add y.neg

/-- Division of `float64` values: NaN propagates, 0/0 and inf/inf are NaN, and a non-zero
value over zero is an infinity. -/
def Float64.div : Float64 → Float64 → Float64
  | .nan, _ => .nan
  | _, .nan => .nan
  | .inf _, .inf _ => .nan
  | .inf s, .num b => .inf (s != decide (b < 0))
  | .num _, .inf _ => .num 0
  | .num a, .num b =>
    if b = 0 then (if a = 0 then .nan else .inf (decide (a < 0))) else .num (a / b)

/-- `math.Pow(x, 2)`. -/
def Float64.sq : Float64 → Float64
  | .nan => .nan
  | .inf _ => .inf false
  | .num q => .num (q ^ 2)

/-- `math.Sqrt`, `sqrt` giving the root of a non-negative finite value. -/
def Float64.sqrt (sqrt : ℚ → ℚ) : Float64 → Float64
  | .nan => .nan
  | .inf negative => if negative then .nan else .inf false
  | .num q => if q < 0 then .nan else .num (sqrt q)

/-- Modelled from the spec: `FloatPoint` with a value that may be NaN, for the reducers
that test `math.IsNaN`. -/
structure Float64Point where
  Name : String := ""
  Tags : List (String × String) := []
  Time : Int := 0
  Value : Float64 := .num 0
  Aux : List AuxValue := []
  Aggregated : Nat := 0
  Nil : Bool := false
  deriving DecidableEq

/-- The first loop of `FloatStddevReduceSlice`: the pair `(mean, count)` after the points of
`a`, NaN values being skipped. -/
def floatStddevMean (a : List Float64Point) : Float64 × Int :=
  a.foldl
    (fun (s : Float64 × Int) (p : Float64Point) =>
      if p.Value.isNaN then s
      else (s.1.add ((p.Value.sub s.1).div (.num ((s.2 + 1 : Int) : ℚ))), s.2 + 1))
    (.num 0, 0)

/-- The second loop of `FloatStddevReduceSlice`: `variance` after the points of `a`, NaN
values being skipped. -/
def floatStddevVariance (mean : Float64) (a : List Float64Point) : Float64 :=
  a.foldl
    (fun (variance : Float64) (p : Float64Point) =>
      if p.Value.isNaN then variance else variance.add (p.Value.sub mean).sq)
    (.num 0)

/-- `FloatStddevReduceSlice`: the stddev value within a window. -/
def FloatStddevReduceSlice (sqrt : ℚ → ℚ) (a : List Float64Point) (opt : ReduceOptions) :
    List Float64Point :=
  if a.length < 2 then [{ Time := opt.StartTime, Nil := true }]
  else
    let mc := floatStddevMean a
    let variance := floatStddevVariance mc.1 a
    [{ Time := opt.StartTime,
       Value := (variance.div (.num ((mc.2 - 1 : Int) : ℚ))).sqrt sqrt }]

/-- The number of points of `a` whose value is not NaN. -/
def countNotNaN (a : List Float64Point) : Nat := (a.filter (fun p => !p.Value.isNaN)).length

/-! ## bottom -/

/-- The comparison `bottom` hands to `filterIntegerByUniqueTags`. -/
def bottomCmpFunc (cur p : IntegerPoint) : Bool :=
  decide (p.Value < cur.Value ∨ (p.Value = cur.Value ∧ p.Time < cur.Time))

/-- The heap order of `bottom`: lower values first, ties broken by the earliest time. -/
def bottomLess (a b : IntegerPoint) : Bool :=
  if a.Value ≠ b.Value then decide (a.Value < b.Value) else decide (a.Time < b.Time)

/-- `NewIntegerBottomReduceSliceFunc(n, tags, interval)` applied to `a` and `opt`: the bottom
values within a window. `tags = none` is the `nil` slice. A negative `n` makes
`make([]IntegerPoint, 0, size)` panic. -/
def NewIntegerBottomReduceSliceFunc (n : Int) (tags : Option (List Int)) (interval : Interval)
    (a : List IntegerPoint) (opt : ReduceOptions) : Option (List IntegerPoint) :=
  (match tags with
    | none => some a
    | some tags => filterIntegerByUniqueTags a tags bottomCmpFunc).bind fun a =>
  let size : Int := if n > (a.length : Int) then (a.length : Int) else n
  (heapInit bottomLess a).bind fun h =>
  if size < 0 then none
  else
    (heapPopN bottomLess size.toNat h []).map fun (points : List IntegerPoint) =>
      if !interval.IsZero then
        points.map (fun (p : IntegerPoint) => { p with Time := opt.StartTime })
      else sortStable integerPointsLess points

/-- The key of the heap order of `bottom`: smaller `Value` first, then earlier `Time`. -/
def bottomKey (p : IntegerPoint) : ℤ ×ₗ ℤ := toLex (p.Value, p.Time)

/-- The points `top` pops from the heap over `a`, in the order of popping, before they are
stamped or sorted: `heap.Init` followed by `size` calls of `heap.Pop`. -/
def topPopped (size : Nat) (a : List IntegerPoint) : Option (List IntegerPoint) :=
  (heapInit topLess a).bind fun h => heapPopN topLess size h []

/-! ## derivative -/

/-- The state a derivative closure starts with: `prev := IntegerPoint{Time: -1}`. -/
def integerDerivativeFresh : IntegerPoint := { Time := -1 }

/-- The state a float derivative closure starts with: `prev := FloatPoint{Time: -1}`. -/
def floatDerivativeFresh : FloatPoint := { Time := -1 }

/-- The loop `for i := 1; i < len(a); i++` of `NewIntegerDerivativeReduceSliceFunc` over the
points `a[1:]`, from the state `prev`: the output and the state left in `prev`. `diff` and
`elapsed` are `int64` subtractions; the quotient is exact, and a zero `interval.Duration`
gives the value 0, as the floating-point quotient by an infinity does. -/
def integerDerivativeLoop (interval : Interval) (isNonNegative : Bool) :
    IntegerPoint → List IntegerPoint → List FloatPoint × IntegerPoint
  | prev, [] => ([], prev)
  | prev, p :: rest =>
    let diff : Int := wrapInt64 (p.Value - prev.Value)
    let elapsed : Int := wrapInt64 (p.Time - prev.Time)
    let value : ℚ :=
      if elapsed > 0 then (diff : ℚ) / ((elapsed : ℚ) / (interval.Duration : ℚ)) else 0
    let r := integerDerivativeLoop interval isNonNegative p rest
    if isNonNegative && decide (diff < 0) then r
    else ({ Time := p.Time, Value := value } :: r.1, r.2)

/-- `NewIntegerDerivativeReduceSliceFunc(interval, isNonNegative)`: one call of the closure on
`a` in the state `prev`, giving the output and the new state of `prev`. -/
def NewIntegerDerivativeReduceSliceFunc (interval : Interval) (isNonNegative : Bool)
    (prev : IntegerPoint) (a : List IntegerPoint) (_opt : ReduceOptions) :
    List FloatPoint × IntegerPoint :=
  match a with
  | [] => ([], prev)
  | [p] => ([{ Time := p.Time, Nil := true }], prev)
  | p :: rest =>
    integerDerivativeLoop interval isNonNegative (if prev.Time = -1 then p else prev) rest

/-- The loop of `NewFloatDerivativeReduceSliceFunc` over the points `a[1:]`, from the state
`prev`; values are rationals and `elapsed` is an `int64` subtraction. -/
def floatDerivativeLoop (interval : Interval) (isNonNegative : Bool) :
    FloatPoint → List FloatPoint → List FloatPoint × FloatPoint
  | prev, [] => ([], prev)
  | prev, p :: rest =>
    let diff : ℚ := p.Value - prev.Value
    let elapsed : Int := wrapInt64 (p.Time - prev.Time)
    let value : ℚ :=
      if elapsed > 0 then diff / ((elapsed : ℚ) / (interval.Duration : ℚ)) else 0
    let r := floatDerivativeLoop interval isNonNegative p rest
    if isNonNegative && decide (diff < 0) then r
    else ({ Time := p.Time, Value := value } :: r.1, r.2)

/-- `NewFloatDerivativeReduceSliceFunc(interval, isNonNegative)`: one call of the closure on
`a` in the state `prev`, giving the output and the new state of `prev`. -/
def NewFloatDerivativeReduceSliceFunc (interval : Interval) (isNonNegative : Bool)
    (prev : FloatPoint) (a : List FloatPoint) (_opt : ReduceOptions) :
    List FloatPoint × FloatPoint :=
  match a with
  | [] => ([], prev)
  | [p] => ([{ Time := p.Time, Nil := true }], prev)
  | p :: rest =>
    floatDerivativeLoop interval isNonNegative (if prev.Time = -1 then p else prev) rest

/-- The raw differences `p.Value - prev.Value` (an `int64` subtraction) between the
consecutive points of `a`, one for each point after the first. -/
def integerRawDifferences (a : List IntegerPoint) : List Int :=
  (a.zip a.tail).map fun pc => wrapInt64 (pc.2.Value - pc.1.Value)

/-- The raw differences `p.Value - prev.Value` between the consecutive points of `a`. -/
def floatRawDifferences (a : List FloatPoint) : List ℚ :=
  (a.zip a.tail).map fun pc => pc.2.Value - pc.1.Value

/-- The derivative between two consecutive points, in exact arithmetic: the difference of
the values over the elapsed time normalised to the interval, and 0 when no time elapsed. -/
def derivativeReference (interval : Interval) (prev curr : IntegerPoint) : FloatPoint :=
  { Time := curr.Time,
    Value :=
      if curr.Time > prev.Time then
        ((curr.Value - prev.Value : Int) : ℚ) /
          (((curr.Time - prev.Time : Int) : ℚ) / (interval.Duration : ℚ))
      else 0 }

/-! ## The engine of the streaming reducers -/

/-- The body of the loop of `integerReduceFloatIterator.reduce` for the point `curr`, on the
map `m` from group ids to accumulators (an association list in order of first insertion).
`subset` is `Tags.Subset(itr.opt.Dimensions)` and `tagsID` is `Tags.ID`, neither of them in
`call_iterator.go`. -/
def integerReduceFloatMapStep
    (fn : Option FloatPoint → IntegerPoint → ReduceOptions → FloatResult)
    (zeroTime : Int) (opt : ReduceOptions)
    (subset : List (String × String) → List (String × String))
    (tagsID : List (String × String) → String)
    (m : List (String × FloatPoint)) (curr : IntegerPoint) : List (String × FloatPoint) :=
  if curr.Nil then m
  else
    let tags := subset curr.Tags
    let id := curr.Name ++ "\x00" ++ tagsID tags
    match integerReduceFloatStep fn zeroTime opt tags (m.lookup id) curr with
    | none => m
    | some acc =>
      match m.lookup id with
      | some _ => m.map (fun e => if e.1 = id then (id, acc) else e)
      | none => m ++ [(id, acc)]

/-- `integerReduceFloatIterator.reduce` on the points `NextInWindow` hands out for the window
`[opt.StartTime, opt.EndTime)`: the accumulators of the groups, in reverse order of their
ids, with the time set to the beginning of the interval. The ids being distinct,
`sort.Sort(sort.Reverse(sort.StringSlice(keys)))` has one result whatever order the map is
iterated in. -/
def integerReduceFloatIterator.reduce
    (fn : Option FloatPoint → IntegerPoint → ReduceOptions → FloatResult)
    (zeroTime : Int) (opt : ReduceOptions)
    (subset : List (String × String) → List (String × String))
    (tagsID : List (String × String) → String)
    (points : List IntegerPoint) : List FloatPoint :=
  let m := points.foldl (integerReduceFloatMapStep fn zeroTime opt subset tagsID) []
  let keys := sortStable (fun (x y : String) => decide (y < x)) (m.map Prod.fst)
  let a := keys.filterMap fun k => m.lookup k
  a.map fun (p : FloatPoint) => { p with Time := opt.StartTime }

/-- The group id of a point: `curr.Name + "\x00" + tags.ID()` for
`tags = curr.Tags.Subset(itr.opt.Dimensions)`. -/
def groupID (subset : List (String × String) → List (String × String))
    (tagsID : List (String × String) → String) (p : IntegerPoint) : String :=
  p.Name ++ "\x00" ++ tagsID (subset p.Tags)

/-- The body of the loop of `filterIntegerByUniqueTags` for the point `p`, on the map
`pointMap`; `none` is the panic of an index out of range. -/
def filterIntegerStep (tags : List Int) (cmpFunc : IntegerPoint → IntegerPoint → Bool)
    (pointMap : List (String × IntegerPoint)) (p : IntegerPoint) :
    Option (List (String × IntegerPoint)) :=
  (uniqueTagsKey tags p).map fun key =>
    match pointMap.lookup key with
    | some cur =>
      if cmpFunc cur p then pointMap.map (fun e => if e.1 = key then (key, p) else e)
      else pointMap
    | none => pointMap ++ [(key, p)]

/-- The tuple `(Aux[i] for i in tags)` of a point; `none` when an index is out of range. -/
def uniqueTagsTuple (tags : List Int) (p : IntegerPoint) : Option (List AuxValue) :=
  tags.mapM fun index => if index < 0 then none else p.Aux[index.toNat]?

/-! ## The constructors of the call iterators -/

/-- Modelled from the spec: the input `Iterator` handed to a constructor, by the concrete
type the type switch `input.(type)` tests: a `FloatIterator`, an `IntegerIterator`, a
`StringIterator` or a `BooleanIterator` with the points still unread (the values stand for
the points of the two types the reducers here do not use), or any other value (`nil`
included), given by the name `%T` prints. The four interfaces differ in the type of `Next`,
so no input is of two of them. -/
inductive Iterator where
  | FloatIterator (unread : List FloatPoint)
  | IntegerIterator (unread : List IntegerPoint)
  | StringIterator (unread : List String)
  | BooleanIterator (unread : List Bool)
  | other (typeName : String)
  deriving DecidableEq

/-- The iterator a constructor returns: the struct it builds, with the reducer `fn` given
by its name in the source and the input it wraps (`newBufFloatIterator(input)` and its
siblings, which are not in `call_iterator.go`, wrap the input as it is). -/
structure CallIterator where
  kind : String
  fn : String
  input : Iterator
  deriving DecidableEq

/-- The errors of the constructors: `fmt.Errorf("unsupported function call: %s", name)` and
`fmt.Errorf("unsupported <function> iterator type: %T", input)`. -/
inductive CallError where
  | unsupportedFunctionCall (name : String)
  | unsupportedIteratorType (function : String) (input : Iterator)
  deriving DecidableEq

/-- `newCountIterator`. -/
def newCountIterator (input : Iterator) : Except CallError CallIterator :=
  match input with
  | .FloatIterator _ => .ok { kind := "floatReduceIterator", fn := "FloatCountReduce", input := input }
  | .IntegerIterator _ =>
    .ok { kind := "integerReduceIterator", fn := "IntegerCountReduce", input := input }
  | _ => .error (.unsupportedIteratorType "count" input)

/-- `newMinIterator`. -/
def newMinIterator (input : Iterator) : Except CallError CallIterator :=
  match input with
  | .FloatIterator _ => .ok { kind := "floatReduceIterator", fn := "FloatMinReduce", input := input }
  | .IntegerIterator _ =>
    .ok { kind := "integerReduceIterator", fn := "IntegerMinReduce", input := input }
  | _ => .error (.unsupportedIteratorType "min" input)

/-- `newMaxIterator`. -/
def newMaxIterator (input : Iterator) : Except CallError CallIterator :=
  match input with
  | .FloatIterator _ => .ok { kind := "floatReduceIterator", fn := "FloatMaxReduce", input := input }
  | .IntegerIterator _ =>
    .ok { kind := "integerReduceIterator", fn := "IntegerMaxReduce", input := input }
  | _ => .error (.unsupportedIteratorType "max" input)

/-- `newSumIterator`. -/
def newSumIterator (input : Iterator) : Except CallError CallIterator :=
  match input with
  | .FloatIterator _ => .ok { kind := "floatReduceIterator", fn := "FloatSumReduce", input := input }
  | .IntegerIterator _ =>
    .ok { kind := "integerReduceIterator", fn := "IntegerSumReduce", input := input }
  | _ => .error (.unsupportedIteratorType "sum" input)

/-- `newFirstIterator`. -/
def newFirstIterator (input : Iterator) : Except CallError CallIterator :=
  match input with
  | .FloatIterator _ => .ok { kind := "floatReduceIterator", fn := "FloatFirstReduce", input := input }
  | .IntegerIterator _ =>
    .ok { kind := "integerReduceIterator", fn := "IntegerFirstReduce", input := input }
  | _ => .error (.unsupportedIteratorType "first" input)

/-- `newLastIterator`. -/
def newLastIterator (input : Iterator) : Except CallError CallIterator :=
  match input with
  | .FloatIterator _ => .ok { kind := "floatReduceIterator", fn := "FloatLastReduce", input := input }
  | .IntegerIterator _ =>
    .ok { kind := "integerReduceIterator", fn := "IntegerLastReduce", input := input }
  | _ => .error (.unsupportedIteratorType "last" input)

/-- `newMeanIterator`. -/
def newMeanIterator (input : Iterator) : Except CallError CallIterator :=
  match input with
  | .FloatIterator _ => .ok { kind := "floatReduceIterator", fn := "FloatMeanReduce", input := input }
  | .IntegerIterator _ =>
    .ok { kind := "integerReduceFloatIterator", fn := "IntegerMeanReduce", input := input }
  | _ => .error (.unsupportedIteratorType "mean" input)

/-- `NewCallIterator`, for the name `opt.Expr.(*Call).Name` of the call. -/
def NewCallIterator (name : String) (input : Iterator) : Except CallError CallIterator :=
  if name = "count" then newCountIterator input
  else if name = "min" then newMinIterator input
  else if name = "max" then newMaxIterator input
  else if name = "sum" then newSumIterator input
  else if name = "first" then newFirstIterator input
  else if name = "last" then newLastIterator input
  else if name = "mean" then newMeanIterator input
  else .error (.unsupportedFunctionCall name)

/-- `NewDistinctIterator`. -/
def NewDistinctIterator (input : Iterator) : Except CallError CallIterator :=
  match input with
  | .FloatIterator _ =>
    .ok { kind := "floatReduceSliceIterator", fn := "FloatDistinctReduceSlice", input := input }
  | .IntegerIterator _ =>
    .ok { kind := "integerReduceSliceIterator", fn := "IntegerDistinctReduceSlice",
          input := input }
  | .StringIterator _ =>
    .ok { kind := "stringReduceSliceIterator", fn := "StringDistinctReduceSlice",
          input := input }
  | _ => .error (.unsupportedIteratorType "distinct" input)

/-- `newMedianIterator`. -/
def newMedianIterator (input : Iterator) : Except CallError CallIterator :=
  match input with
  | .FloatIterator _ =>
    .ok { kind := "floatReduceSliceIterator", fn := "FloatMedianReduceSlice", input := input }
  | .IntegerIterator _ =>
    .ok { kind := "integerReduceSliceFloatIterator", fn := "IntegerMedianReduceSlice",
          input := input }
  | _ => .error (.unsupportedIteratorType "median" input)

/-- `newStddevIterator`. -/
def newStddevIterator (input : Iterator) : Except CallError CallIterator :=
  match input with
  | .FloatIterator _ =>
    .ok { kind := "floatReduceSliceIterator", fn := "FloatStddevReduceSlice", input := input }
  | .IntegerIterator _ =>
    .ok { kind := "integerReduceSliceFloatIterator", fn := "IntegerStddevReduceSlice",
          input := input }
  | .StringIterator _ =>
    .ok { kind := "stringReduceSliceIterator", fn := "StringStddevReduceSlice", input := input }
  | _ => .error (.unsupportedIteratorType "stddev" input)

/-- `newSpreadIterator`. -/
def newSpreadIterator (input : Iterator) : Except CallError CallIterator :=
  match input with
  | .FloatIterator _ =>
    .ok { kind := "floatReduceSliceIterator", fn := "FloatSpreadReduceSlice", input := input }
  | .IntegerIterator _ =>
    .ok { kind := "integerReduceSliceIterator", fn := "IntegerSpreadReduceSlice",
          input := input }
  | _ => .error (.unsupportedIteratorType "spread" input)

/-- `newTopIterator`; the reducer is `NewFloatTopReduceSliceFunc(int(n.Val), tags,
opt.Interval)` or its integer sibling, whatever `n` and `tags`. -/
def newTopIterator (input : Iterator) (_n : Int) (_tags : Option (List Int)) :
    Except CallError CallIterator :=
  match input with
  | .FloatIterator _ =>
    .ok { kind := "floatReduceSliceIterator", fn := "NewFloatTopReduceSliceFunc",
          input := input }
  | .IntegerIterator _ =>
    .ok { kind := "integerReduceSliceIterator", fn := "NewIntegerTopReduceSliceFunc",
          input := input }
  | _ => .error (.unsupportedIteratorType "top" input)

/-- `newBottomIterator`. -/
def newBottomIterator (input : Iterator) (_n : Int) (_tags : Option (List Int)) :
    Except CallError CallIterator :=
  match input with
  | .FloatIterator _ =>
    .ok { kind := "floatReduceSliceIterator", fn := "NewFloatBottomReduceSliceFunc",
          input := input }
  | .IntegerIterator _ =>
    .ok { kind := "integerReduceSliceIterator", fn := "NewIntegerBottomReduceSliceFunc",
          input := input }
  | _ => .error (.unsupportedIteratorType "bottom" input)

/-- `newPercentileIterator`. -/
def newPercentileIterator (input : Iterator) (_percentile : ℚ) :
    Except CallError CallIterator :=
  match input with
  | .FloatIterator _ =>
    .ok { kind := "floatReduceSliceIterator", fn := "NewFloatPercentileReduceSliceFunc",
          input := input }
  | .IntegerIterator _ =>
    .ok { kind := "integerReduceSliceIterator", fn := "NewIntegerPercentileReduceSliceFunc",
          input := input }
  | _ => .error (.unsupportedIteratorType "percentile" input)

/-- `newDerivativeIterator`. -/
def newDerivativeIterator (input : Iterator) (_interval : Interval) (_isNonNegative : Bool) :
    Except CallError CallIterator :=
  match input with
  | .FloatIterator _ =>
    .ok { kind := "floatReduceSliceIterator", fn := "NewFloatDerivativeReduceSliceFunc",
          input := input }
  | .IntegerIterator _ =>
    .ok { kind := "integerReduceSliceFloatIterator",
          fn := "NewIntegerDerivativeReduceSliceFunc", input := input }
  | _ => .error (.unsupportedIteratorType "derivative" input)

/-- Whether an input is a `FloatIterator` or an `IntegerIterator`. -/
def Iterator.isNumeric : Iterator → Bool
  | .FloatIterator _ => true
  | .IntegerIterator _ => true
  | _ => false

/-- Whether an input is a `FloatIterator`, an `IntegerIterator` or a `StringIterator`. -/
def Iterator.isNumericOrString : Iterator → Bool
  | .FloatIterator _ => true
  | .IntegerIterator _ => true
  | .StringIterator _ => true
  | _ => false

/-- Whether a constructor returned an iterator and a nil error. -/
def isIterator (r : Except CallError CallIterator) : Bool :=
  match r with
  | .ok _ => true
  | .error _ => false

/-! ## The buffered input, `Next`, and the engine of the slice reducers -/

/-- Modelled from the spec: `bufIntegerIterator.peekTime`, the timestamp of the next unread
point, which is not consumed, or the sentinel `ZeroTime` when the input is exhausted. The
buffered iterator is the list of its unread points. -/
def bufIntegerIterator.peekTime (zeroTime : Int) (input : List IntegerPoint) : Int :=
  match input with
  | [] => zeroTime
  | p :: _ => p.Time

/-- Modelled from the spec: `bufIntegerIterator.NextInWindow(startTime, endTime)` consumes
and returns the next point only if its timestamp falls in `[startTime, endTime)`; otherwise
the point is not consumed and `nil` is returned. The result is the point and the input
left. -/
def bufIntegerIterator.NextInWindow (input : List IntegerPoint) (startTime endTime : Int) :
    Option IntegerPoint × List IntegerPoint :=
  match input with
  | [] => (none, [])
  | p :: rest =>
    if startTime ≤ p.Time ∧ p.Time < endTime then (some p, rest) else (none, p :: rest)

/-- The points read by the loop `for { curr := itr.input.NextInWindow(startTime, endTime);
if curr == nil { break } ... }` of the two `reduce` methods, and the input left: the points
from the front of the input up to the first one `NextInWindow` does not hand out. -/
def readWindow (startTime endTime : Int) : List IntegerPoint →
    List IntegerPoint × List IntegerPoint
  | [] => ([], [])
  | p :: rest =>
    if startTime ≤ p.Time ∧ p.Time < endTime then
      ((p :: (readWindow startTime endTime rest).1), (readWindow startTime endTime rest).2)
    else ([], p :: rest)

/-- The state of `integerReduceFloatIterator` and of `integerReduceSliceFloatIterator`: the
unread points of `input` and the stack `points`; `fn` and `opt` do not change and are
parameters of the methods. -/
structure ReduceIterator where
  input : List IntegerPoint
  points : List FloatPoint
  deriving DecidableEq

/-- The method `Next` of `integerReduceFloatIterator` and of
`integerReduceSliceFloatIterator`, which differ in `reduce` only: when the stack is empty
the next window is reduced, and `nil` is returned if that gives no points; otherwise the
last point is popped off the stack. `reduce` returns the points and the input left. -/
def ReduceIterator.Next (reduce : List IntegerPoint → List FloatPoint × List IntegerPoint)
    (itr : ReduceIterator) : Option FloatPoint × ReduceIterator :=
  let itr1 : ReduceIterator :=
    if itr.points.length = 0 then { input := (reduce itr.input).2, points := (reduce itr.input).1 }
    else itr
  if itr1.points.length = 0 then (none, itr1)
  else (itr1.points.getLast?, { itr1 with points := itr1.points.dropLast })

/-- The method `reduce` of `integerReduceFloatIterator` on the unread input: the window is
`itr.opt.Window(itr.input.peekTime())`, the points of the window are read and reduced.
`window` is `itr.opt.Window`, which is not in `call_iterator.go`. -/
def integerReduceFloatIterator.reduceNextWindow
    (fn : Option FloatPoint → IntegerPoint → ReduceOptions → FloatResult)
    (zeroTime : Int) (window : Int → Int × Int)
    (subset : List (String × String) → List (String × String))
    (tagsID : List (String × String) → String)
    (input : List IntegerPoint) : List FloatPoint × List IntegerPoint :=
  let w := window (bufIntegerIterator.peekTime zeroTime input)
  let r := readWindow w.1 w.2 input
  (integerReduceFloatIterator.reduce fn zeroTime { StartTime := w.1, EndTime := w.2 } subset
    tagsID r.1, r.2)

/-- `integerReduceFloatIterator.Next`. -/
def integerReduceFloatIterator.Next
    (fn : Option FloatPoint → IntegerPoint → ReduceOptions → FloatResult)
    (zeroTime : Int) (window : Int → Int × Int)
    (subset : List (String × String) → List (String × String))
    (tagsID : List (String × String) → String)
    (itr : ReduceIterator) : Option FloatPoint × ReduceIterator :=
  itr.Next (integerReduceFloatIterator.reduceNextWindow fn zeroTime window subset tagsID)

/-- The results of `n` successive calls of a `Next` method, and the state they leave. -/
def nextN (next : ReduceIterator → Option FloatPoint × ReduceIterator) :
    Nat → ReduceIterator → List (Option FloatPoint) × ReduceIterator
  | 0, itr => ([], itr)
  | n + 1, itr =>
    ((next itr).1 :: (nextN next n (next itr).2).1, (nextN next n (next itr).2).2)

/-- Draining an iterator: the points `Next` returns until it first returns `nil`, in at
most `fuel` calls. -/
def drain (next : ReduceIterator → Option FloatPoint × ReduceIterator) :
    Nat → ReduceIterator → List FloatPoint
  | 0, _ => []
  | fuel + 1, itr =>
    match next itr with
    | (none, _) => []
    | (some p, itr1) => p :: drain next fuel itr1

/-- The value of the map `groups` of `integerReduceSliceFloatIterator.reduce`: the struct
`{name, tags, points}`. -/
structure SliceGroup where
  name : String := ""
  tags : List (String × String) := []
  points : List IntegerPoint := []
  deriving DecidableEq

/-- The body of the first loop of `integerReduceSliceFloatIterator.reduce` for the point
`p`, on the map `groups` (an association list in order of first insertion): the point is
appended to the group of `id := tags.ID()`, whose name and tags are set from the point. -/
def integerReduceSliceFloatGroupStep
    (subset : List (String × String) → List (String × String))
    (tagsID : List (String × String) → String)
    (groups : List (String × SliceGroup)) (p : IntegerPoint) : List (String × SliceGroup) :=
  let tags := subset p.Tags
  let id := tagsID tags
  match groups.lookup id with
  | some g =>
    groups.map (fun e =>
      if e.1 = id then (id, { name := p.Name, tags := tags, points := g.points ++ [p] }) else e)
  | none => groups ++ [(id, { name := p.Name, tags := tags, points := [p] })]

/-- The map `groups` of `integerReduceSliceFloatIterator.reduce` for the points
`NextInWindow` hands out for one window. -/
def integerReduceSliceFloatIterator.groups
    (subset : List (String × String) → List (String × String))
    (tagsID : List (String × String) → String)
    (points : List IntegerPoint) : List (String × SliceGroup) :=
  points.foldl (integerReduceSliceFloatGroupStep subset tagsID) []

/-- The slices `integerReduceSliceFloatIterator.reduce` passes to `fn`, one call
`itr.fn(g.points, &reduceOptions)` for each group. -/
def integerReduceSliceFloatIterator.slices
    (subset : List (String × String) → List (String × String))
    (tagsID : List (String × String) → String)
    (points : List IntegerPoint) : List (List IntegerPoint) :=
  (integerReduceSliceFloatIterator.groups subset tagsID points).map fun e => e.2.points

/-- The map `results` of `integerReduceSliceFloatIterator.reduce`: for each group with a
non-empty result of `fn`, the result with name and tags set to those of the group. `fn` is
taken as a function of the slice and the options. -/
def integerReduceSliceFloatIterator.results
    (fn : List IntegerPoint → ReduceOptions → List FloatPoint) (opt : ReduceOptions)
    (groups : List (String × SliceGroup)) : List (String × List FloatPoint) :=
  groups.filterMap fun e =>
    let a := fn e.2.points opt
    if a.length = 0 then none
    else some (e.1, a.map fun (q : FloatPoint) => { q with Name := e.2.name, Tags := e.2.tags })

/-- `integerReduceSliceFloatIterator.reduce` on the points `NextInWindow` hands out for the
window `[opt.StartTime, opt.EndTime)`: the keys of `results` in reverse order, the points
of each key in reverse order. The keys being distinct, the sort has one result whatever
order the map is iterated in. -/
def integerReduceSliceFloatIterator.reduce
    (fn : List IntegerPoint → ReduceOptions → List FloatPoint) (opt : ReduceOptions)
    (subset : List (String × String) → List (String × String))
    (tagsID : List (String × String) → String)
    (points : List IntegerPoint) : List FloatPoint :=
  let results := integerReduceSliceFloatIterator.results fn opt
    (integerReduceSliceFloatIterator.groups subset tagsID points)
  let keys := sortStable (fun (x y : String) => decide (y < x)) (results.map Prod.fst)
  keys.flatMap fun k => ((results.lookup k).getD []).reverse

/-- The method `reduce` of `integerReduceSliceFloatIterator` on the unread input. -/
def integerReduceSliceFloatIterator.reduceNextWindow
    (fn : List IntegerPoint → ReduceOptions → List FloatPoint)
    (zeroTime : Int) (window : Int → Int × Int)
    (subset : List (String × String) → List (String × String))
    (tagsID : List (String × String) → String)
    (input : List IntegerPoint) : List FloatPoint × List IntegerPoint :=
  let w := window (bufIntegerIterator.peekTime zeroTime input)
  let r := readWindow w.1 w.2 input
  (integerReduceSliceFloatIterator.reduce fn { StartTime := w.1, EndTime := w.2 } subset tagsID
    r.1, r.2)

/-- `integerReduceSliceFloatIterator.Next`. -/
def integerReduceSliceFloatIterator.Next
    (fn : List IntegerPoint → ReduceOptions → List FloatPoint)
    (zeroTime : Int) (window : Int → Int × Int)
    (subset : List (String × String) → List (String × String))
    (tagsID : List (String × String) → String)
    (itr : ReduceIterator) : Option FloatPoint × ReduceIterator :=
  itr.Next (integerReduceSliceFloatIterator.reduceNextWindow fn zeroTime window subset tagsID)

/-- The group id of a point in `integerReduceSliceFloatIterator.reduce`: `tags.ID()` for
`tags = p.Tags.Subset(itr.opt.Dimensions)`. -/
def sliceGroupID (subset : List (String × String) → List (String × String))
    (tagsID : List (String × String) → String) (p : IntegerPoint) : String :=
  tagsID (subset p.Tags)

/-- The `Aggregated` count of the accumulator the map `m` of
`integerReduceFloatIterator.reduce` holds for the group `id`; 0 when there is none yet. -/
def groupAggregated (m : List (String × FloatPoint)) (id : String) : Nat :=
  match m.lookup id with
  | some acc => acc.Aggregated
  | none => 0

/-- The group key `Name + "\x00" + Tags.ID()` of an emitted point. -/
def floatGroupKey (tagsID : List (String × String) → String) (p : FloatPoint) : String :=
  p.Name ++ "\x00" ++ tagsID p.Tags

/-- The result of the group with the id `k`, said with the points of the window: `fn` applied
to the points with this id, in their arrival order, each returned point with the name and
the tag subset of the group, which are those of the last point of the group. -/
def sliceGroupResult (fn : List IntegerPoint → ReduceOptions → List FloatPoint)
    (opt : ReduceOptions) (subset : List (String × String) → List (String × String))
    (tagsID : List (String × String) → String) (points : List IntegerPoint) (k : String) :
    List FloatPoint :=
  match (points.filter fun p => decide (sliceGroupID subset tagsID p = k)).getLast? with
  | none => []
  | some last =>
    (fn (points.filter fun p => decide (sliceGroupID subset tagsID p = k)) opt).map
      fun (q : FloatPoint) => { q with Name := last.Name, Tags := subset last.Tags }

/-- The sequence of points the claim about `Next` of `integerReduceSliceFloatIterator`
describes: over the distinct group ids of the window with a non-empty result, in ascending
order, the results of the groups one after the other. -/
def sliceNextReference (fn : List IntegerPoint → ReduceOptions → List FloatPoint)
    (opt : ReduceOptions) (subset : List (String × String) → List (String × String))
    (tagsID : List (String × String) → String) (points : List IntegerPoint) :
    List FloatPoint :=
  ((((points.map (sliceGroupID subset tagsID)).dedup).insertionSort (fun x y => x ≤ y)).filter
      fun k => decide (sliceGroupResult fn opt subset tagsID points k ≠ [])).flatMap
    (sliceGroupResult fn opt subset tagsID points)

/-! ## The percentile index in `float64` arithmetic -/

/-- Rounding a rational to the nearest integer, a tie going to the even one. -/
def roundHalfEven (q : ℚ) : Int :=
  if q - ⌊q⌋ < 1 / 2 then ⌊q⌋
  else if 1 / 2 < q - ⌊q⌋ then ⌊q⌋ + 1
  else if ⌊q⌋ % 2 = 0 then ⌊q⌋ else ⌊q⌋ + 1

/-- The `float64` nearest to the rational `x` (IEEE 754 binary64, round to nearest, ties to
even), as a rational; `none` when the result overflows to an infinity. For `x` in the binade
`2^e ≤ |x| < 2^(e+1)` the values of the format are the multiples of `2^(e-52)`; below
`2^-1022` (subnormal numbers) they are the multiples of `2^-1074`. The sign of a zero is not
kept. -/
def float64Round (x : ℚ) : Option ℚ :=
  if x = 0 then some 0
  else
    let e : Int := max (Int.log 2 |x|) (-1022)
    let y : ℚ := (roundHalfEven (x / 2 ^ (e - 52)) : ℚ) * 2 ^ (e - 52)
    if |y| < 2 ^ 1024 then some y else none

/-- The index `int(math.Floor(float64(length)*percentile/100.0+0.5)) - 1` as the percentile
reducers evaluate it: the conversion of `length`, the product, the quotient and the sum are
each rounded to `float64`, in this order, and none of them can be fused with another;
`math.Floor` is exact; `int` is 64 bits wide, the conversion to `int` is that of a value
within `int64`, and `- 1` is an `int64` subtraction. `none` stands for the cases the
language leaves open (an infinite intermediate, a floor outside `int64`). `percentile` is a
finite `float64`; `percentileIndex` is the same expression without the roundings. -/
def IEEE754.percentileIndex (length : Nat) (percentile : ℚ) : Option Int :=
  (float64Round (length : ℚ)).bind fun n =>
    (float64Round (n * percentile)).bind fun m =>
      (float64Round (m / 100)).bind fun d =>
        (float64Round (d + 1 / 2)).bind fun s =>
          if isInt64 ⌊s⌋ then some (wrapInt64 (⌊s⌋ - 1)) else none

/-- `NewFloatPercentileReduceSliceFunc(percentile)` applied to `a` and `opt`, with the index
evaluated in `float64` arithmetic. `sortFn` is `sort.Sort(floatPointsByValue(a))`. -/
def IEEE754.NewFloatPercentileReduceSliceFunc (sortFn : List FloatPoint → List FloatPoint)
    (percentile : ℚ) (a : List FloatPoint) (opt : ReduceOptions) : Option (List FloatPoint) :=
  let length := a.length
  (IEEE754.percentileIndex length percentile).bind fun i =>
    if i < 0 ∨ i ≥ (length : Int) then some [{ Time := opt.StartTime, Nil := true }]
    else
      ((sortFn a)[i.toNat]?).map fun p => [{ Time := opt.StartTime, Value := p.Value }]

/-- `NewIntegerPercentileReduceSliceFunc(percentile)` applied to `a` and `opt`, with the
index evaluated in `float64` arithmetic. `sortFn` is `sort.Sort(integerPointsByValue(a))`;
the `nil` result is the empty list. -/
def IEEE754.NewIntegerPercentileReduceSliceFunc
    (sortFn : List IntegerPoint → List IntegerPoint)
    (percentile : ℚ) (a : List IntegerPoint) (opt : ReduceOptions) :
    Option (List IntegerPoint) :=
  let length := a.length
  (IEEE754.percentileIndex length percentile).bind fun i =>
    if i < 0 ∨ i ≥ (length : Int) then some []
    else
      ((sortFn a)[i.toNat]?).map fun p => [{ Time := opt.StartTime, Value := p.Value }]

/-! # Theorems -/

/-! ## Arithmetic of `int64` -/

theorem wrapInt64_of_isInt64 {x : Int} (h : isInt64 x) : wrapInt64 x = x := by
  unfold isInt64 at h
  unfold wrapInt64
  omega

theorem wrapInt64_add_left (a b : Int) : wrapInt64 (wrapInt64 a + b) = wrapInt64 (a + b) := by
  unfold wrapInt64
  omega

/-! ## Folding a pairwise reducer -/

theorem foldIntegerReduce_nil
    (fn : Option IntegerPoint → IntegerPoint → ReduceOptions → IntegerResult)
    (opt : ReduceOptions) : foldIntegerReduce fn opt [] = none := rfl

theorem foldIntegerReduce_concat
    (fn : Option IntegerPoint → IntegerPoint → ReduceOptions → IntegerResult)
    (opt : ReduceOptions) (l : List IntegerPoint) (x : IntegerPoint) :
    foldIntegerReduce fn opt (l ++ [x]) =
      some (fn (foldIntegerReduce fn opt l) x opt).toPoint := by
  simp [foldIntegerReduce, List.foldl_append]

/-- A reducer that keeps `curr` exactly when it beats `prev` under `better`, a relation on
`(time, value)` pairs, ends the fold on a point of the list that no point of the list beats. -/
theorem foldIntegerReduce_selector
    (fn : Option IntegerPoint → IntegerPoint → ReduceOptions → IntegerResult)
    (better : Int → Int → Int → Int → Prop) [∀ a b c d, Decidable (better a b c d)]
    (hnone : ∀ c opt, fn none c opt = (c.Time, c.Value, c.Aux))
    (hsome : ∀ p c opt, fn (some p) c opt =
      if better c.Time c.Value p.Time p.Value then (c.Time, c.Value, c.Aux)
      else (p.Time, p.Value, p.Aux))
    (hirr : ∀ t v, ¬ better t v t v)
    (htrans : ∀ t₁ v₁ t₂ v₂ t₃ v₃,
      ¬ better t₁ v₁ t₂ v₂ → better t₃ v₃ t₂ v₂ → ¬ better t₁ v₁ t₃ v₃)
    (opt : ReduceOptions) (l : List IntegerPoint) (hl : l ≠ []) :
    ∃ acc, foldIntegerReduce fn opt l = some acc ∧
      (∃ p ∈ l, p.Time = acc.Time ∧ p.Value = acc.Value) ∧
      ∀ q ∈ l, ¬ better q.Time q.Value acc.Time acc.Value := by
  induction l using List.reverseRecOn with
  | nil => exact absurd rfl hl
  | append_singleton l x ih =>
    rw [foldIntegerReduce_concat]
    by_cases hnil : l = []
    · subst hnil
      refine ⟨_, rfl, ⟨x, by simp, ?_, ?_⟩, ?_⟩
      · simp [foldIntegerReduce_nil, hnone, IntegerResult.toPoint]
      · simp [foldIntegerReduce_nil, hnone, IntegerResult.toPoint]
      · intro q hq
        have hqx : q = x := by simpa using hq
        subst hqx
        simpa [foldIntegerReduce_nil, hnone, IntegerResult.toPoint] using hirr q.Time q.Value
    · obtain ⟨acc, hacc, ⟨p, hp, hpt, hpv⟩, hall⟩ := ih hnil
      rw [hacc, hsome]
      by_cases hb : better x.Time x.Value acc.Time acc.Value
      · refine ⟨_, rfl, ⟨x, by simp, ?_, ?_⟩, ?_⟩
        · simp [hb, IntegerResult.toPoint]
        · simp [hb, IntegerResult.toPoint]
        · intro q hq
          simp only [hb, if_true, IntegerResult.toPoint]
          rcases List.mem_append.mp hq with hq | hq
          · exact htrans _ _ _ _ _ _ (hall q hq) hb
          · have hqx : q = x := by simpa using hq
            subst hqx
            exact hirr _ _
      · refine ⟨_, rfl, ⟨p, by simp [hp], ?_, ?_⟩, ?_⟩
        · simp [hb, IntegerResult.toPoint, hpt]
        · simp [hb, IntegerResult.toPoint, hpv]
        · intro q hq
          simp only [hb, if_false, IntegerResult.toPoint]
          rcases List.mem_append.mp hq with hq | hq
          · exact hall q hq
          · have hqx : q = x := by simpa using hq
            subst hqx
            exact hb

/-! ## min, max, first, last -/

/-- The point the `max` fold ends on: a point of the list that no point beats. -/
theorem foldIntegerMaxReduce_spec (opt : ReduceOptions) (l : List IntegerPoint) (hl : l ≠ []) :
    ∃ acc, foldIntegerReduce IntegerMaxReduce opt l = some acc ∧
      (∃ p ∈ l, p.Time = acc.Time ∧ p.Value = acc.Value) ∧
      ∀ q ∈ l, ¬ (q.Value > acc.Value ∨ (q.Value = acc.Value ∧ q.Time < acc.Time)) :=
  foldIntegerReduce_selector IntegerMaxReduce
    (fun tc vc tp vp => vc > vp ∨ (vc = vp ∧ tc < tp))
    (fun _ _ => rfl) (fun _ _ _ => rfl)
    (fun t v => by omega) (fun t₁ v₁ t₂ v₂ t₃ v₃ h₁ h₂ => by omega) opt l hl

/-- C5: folding `IntegerMaxReduce` over a non-empty list and over any permutation of it
(prev = nil for the first point, afterwards the previously returned time/value/aux) yields
a result in both cases, with the same `(time, value)` pair. -/
theorem integerMaxReduce_fold_perm (opt : ReduceOptions) (l l' : List IntegerPoint)
    (hl : l ≠ []) (hperm : l.Perm l') :
    ∃ acc acc', foldIntegerReduce IntegerMaxReduce opt l = some acc ∧
      foldIntegerReduce IntegerMaxReduce opt l' = some acc' ∧
      (acc.Time, acc.Value) = (acc'.Time, acc'.Value) := by
  have hl' : l' ≠ [] := fun h => hl (List.Perm.eq_nil (h ▸ hperm))
  obtain ⟨acc, hacc, ⟨p, hp, hpt, hpv⟩, hall⟩ := foldIntegerMaxReduce_spec opt l hl
  obtain ⟨acc', hacc', ⟨p', hp', hpt', hpv'⟩, hall'⟩ := foldIntegerMaxReduce_spec opt l' hl'
  refine ⟨acc, acc', hacc, hacc', ?_⟩
  have h₁ := hall p' (hperm.mem_iff.mpr hp')
  have h₂ := hall' p (hperm.mem_iff.mp hp)
  rw [hpt', hpv'] at h₁
  rw [hpt, hpv] at h₂
  have ht : acc.Time = acc'.Time := by omega
  have hv : acc.Value = acc'.Value := by omega
  rw [ht, hv]

/-- C6: folding `IntegerMinReduce` over a non-empty list (prev = nil first) returns as value
the minimum of the input values and as time the earliest `Time` among the input points that
have that minimum value. -/
theorem integerMinReduce_fold_min (opt : ReduceOptions) (l : List IntegerPoint) (hl : l ≠ []) :
    ∃ acc, foldIntegerReduce IntegerMinReduce opt l = some acc ∧
      (∀ q ∈ l, acc.Value ≤ q.Value) ∧
      (∃ p ∈ l, p.Value = acc.Value ∧ p.Time = acc.Time) ∧
      (∀ q ∈ l, q.Value = acc.Value → acc.Time ≤ q.Time) := by
  obtain ⟨acc, hacc, ⟨p, hp, hpt, hpv⟩, hall⟩ :=
    foldIntegerReduce_selector IntegerMinReduce
      (fun tc vc tp vp => vc < vp ∨ (vc = vp ∧ tc < tp))
      (fun _ _ => rfl) (fun _ _ _ => rfl)
      (fun t v => by omega) (fun t₁ v₁ t₂ v₂ t₃ v₃ h₁ h₂ => by omega) opt l hl
  refine ⟨acc, hacc, ?_, ⟨p, hp, hpv, hpt⟩, ?_⟩
  · intro q hq
    have := hall q hq
    omega
  · intro q hq hv
    have := hall q hq
    omega

/-- C9: folding `IntegerFirstReduce` over a non-empty list in any order (prev = nil first)
returns as time the smallest `Time` in the list and as value the largest `Value` among the
points having that smallest `Time`. -/
theorem integerFirstReduce_fold_first (opt : ReduceOptions) (l : List IntegerPoint)
    (hl : l ≠ []) :
    ∃ acc, foldIntegerReduce IntegerFirstReduce opt l = some acc ∧
      (∀ q ∈ l, acc.Time ≤ q.Time) ∧
      (∃ p ∈ l, p.Time = acc.Time ∧ p.Value = acc.Value) ∧
      (∀ q ∈ l, q.Time = acc.Time → q.Value ≤ acc.Value) := by
  obtain ⟨acc, hacc, ⟨p, hp, hpt, hpv⟩, hall⟩ :=
    foldIntegerReduce_selector IntegerFirstReduce
      (fun tc vc tp vp => tc < tp ∨ (tc = tp ∧ vc > vp))
      (fun _ _ => rfl) (fun _ _ _ => rfl)
      (fun t v => by omega) (fun t₁ v₁ t₂ v₂ t₃ v₃ h₁ h₂ => by omega) opt l hl
  refine ⟨acc, hacc, ?_, ⟨p, hp, hpt, hpv⟩, ?_⟩
  · intro q hq
    have := hall q hq
    omega
  · intro q hq hv
    have := hall q hq
    omega

/-- C10: folding `IntegerLastReduce` over a non-empty list in any order (prev = nil first)
returns as time the largest `Time` in the list and as value the largest `Value` among the
points having that largest `Time`. -/
theorem integerLastReduce_fold_last (opt : ReduceOptions) (l : List IntegerPoint)
    (hl : l ≠ []) :
    ∃ acc, foldIntegerReduce IntegerLastReduce opt l = some acc ∧
      (∀ q ∈ l, q.Time ≤ acc.Time) ∧
      (∃ p ∈ l, p.Time = acc.Time ∧ p.Value = acc.Value) ∧
      (∀ q ∈ l, q.Time = acc.Time → q.Value ≤ acc.Value) := by
  obtain ⟨acc, hacc, ⟨p, hp, hpt, hpv⟩, hall⟩ :=
    foldIntegerReduce_selector IntegerLastReduce
      (fun tc vc tp vp => tc > tp ∨ (tc = tp ∧ vc > vp))
      (fun _ _ => rfl) (fun _ _ _ => rfl)
      (fun t v => by omega) (fun t₁ v₁ t₂ v₂ t₃ v₃ h₁ h₂ => by omega) opt l hl
  refine ⟨acc, hacc, ?_, ⟨p, hp, hpt, hpv⟩, ?_⟩
  · intro q hq
    have := hall q hq
    omega
  · intro q hq hv
    have := hall q hq
    omega

/-! ## count and sum -/

/-- C7: folding `IntegerCountReduce` over a list of n >= 1 points (prev = nil for the first
point, afterwards the accumulator holding the previous result) yields value n, time
`opt.StartTime` and nil aux, whatever the points are (n is below 2^63, as a count held in
an `int64` is). -/
theorem integerCountReduce_fold_count (opt : ReduceOptions) (l : List IntegerPoint)
    (hl : l ≠ []) (hlen : (l.length : Int) < 2 ^ 63) :
    foldIntegerReduce IntegerCountReduce opt l =
      some { Time := opt.StartTime, Value := (l.length : Int), Aux := [] } := by
  induction l using List.reverseRecOn with
  | nil => exact absurd rfl hl
  | append_singleton l x ih =>
    rw [foldIntegerReduce_concat]
    by_cases hnil : l = []
    · subst hnil
      simp [foldIntegerReduce_nil, IntegerCountReduce, IntegerResult.toPoint]
    · have hlen' : (l.length : Int) < 2 ^ 63 := by
        simp only [List.length_append, List.length_singleton] at hlen
        push_cast at hlen
        omega
      rw [ih hnil hlen']
      have hw : wrapInt64 ((l.length : Int) + 1) = (l.length : Int) + 1 := by
        apply wrapInt64_of_isInt64
        simp only [List.length_append, List.length_singleton] at hlen
        push_cast at hlen
        unfold isInt64
        omega
      simp [IntegerCountReduce, IntegerResult.toPoint, hw]

/-- C8: folding `IntegerSumReduce` over a non-empty list `p :: rest` of points with `int64`
values (prev = nil first) yields as value the sum of all input values in `int64` wraparound
arithmetic, as time the first point's `Time`, and nil aux. -/
theorem integerSumReduce_fold_sum (opt : ReduceOptions) (p : IntegerPoint)
    (rest : List IntegerPoint) (hrange : ∀ q ∈ p :: rest, isInt64 q.Value) :
    foldIntegerReduce IntegerSumReduce opt (p :: rest) =
      some { Time := p.Time, Value := wrapInt64 (((p :: rest).map (·.Value)).sum), Aux := [] } := by
  induction rest using List.reverseRecOn with
  | nil =>
    have hp := wrapInt64_of_isInt64 (hrange p (by simp))
    simp [foldIntegerReduce, IntegerSumReduce, IntegerResult.toPoint, hp]
  | append_singleton l x ih =>
    have hrange' : ∀ q ∈ p :: l, isInt64 q.Value := by
      intro q hq
      apply hrange
      simp only [List.mem_cons, List.mem_append] at hq ⊢
      tauto
    rw [← List.cons_append, foldIntegerReduce_concat, ih hrange']
    simp only [IntegerSumReduce, IntegerResult.toPoint, List.map_cons, List.sum_cons,
      List.map_append, List.sum_append, List.map_nil, List.sum_nil, add_zero]
    rw [wrapInt64_add_left, add_assoc]

/-! ## Concrete instances -/

theorem integerMaxReduce_fold_perm_witness :
    ([{ Time := 10, Value := 7 }, { Time := 5, Value := 7 }, { Time := 1, Value := 3 }] :
        List IntegerPoint) ≠ [] ∧
      ∃ acc acc',
        foldIntegerReduce IntegerMaxReduce {}
            [{ Time := 10, Value := 7 }, { Time := 5, Value := 7 }, { Time := 1, Value := 3 }] =
          some acc ∧
        foldIntegerReduce IntegerMaxReduce {}
            [{ Time := 5, Value := 7 }, { Time := 10, Value := 7 }, { Time := 1, Value := 3 }] =
          some acc' ∧
        (acc.Time, acc.Value) = (acc'.Time, acc'.Value) :=
  ⟨by simp, integerMaxReduce_fold_perm {} _ _ (by simp) (List.Perm.swap _ _ _)⟩

theorem integerMinReduce_fold_min_witness :
    ∃ acc, foldIntegerReduce IntegerMinReduce {}
        [{ Time := 10, Value := 3 }, { Time := 5, Value := 3 }, { Time := 1, Value := 8 }] =
          some acc ∧
      (∀ q ∈ ([{ Time := 10, Value := 3 }, { Time := 5, Value := 3 }, { Time := 1, Value := 8 }] :
          List IntegerPoint), acc.Value ≤ q.Value) ∧
      (∃ p ∈ ([{ Time := 10, Value := 3 }, { Time := 5, Value := 3 }, { Time := 1, Value := 8 }] :
          List IntegerPoint), p.Value = acc.Value ∧ p.Time = acc.Time) ∧
      (∀ q ∈ ([{ Time := 10, Value := 3 }, { Time := 5, Value := 3 }, { Time := 1, Value := 8 }] :
          List IntegerPoint), q.Value = acc.Value → acc.Time ≤ q.Time) :=
  integerMinReduce_fold_min {} _ (by simp)

theorem integerFirstReduce_fold_first_witness :
    ∃ acc, foldIntegerReduce IntegerFirstReduce {}
        [{ Time := 5, Value := 3 }, { Time := 1, Value := 2 }, { Time := 1, Value := 8 }] =
          some acc ∧
      (∀ q ∈ ([{ Time := 5, Value := 3 }, { Time := 1, Value := 2 }, { Time := 1, Value := 8 }] :
          List IntegerPoint), acc.Time ≤ q.Time) ∧
      (∃ p ∈ ([{ Time := 5, Value := 3 }, { Time := 1, Value := 2 }, { Time := 1, Value := 8 }] :
          List IntegerPoint), p.Time = acc.Time ∧ p.Value = acc.Value) ∧
      (∀ q ∈ ([{ Time := 5, Value := 3 }, { Time := 1, Value := 2 }, { Time := 1, Value := 8 }] :
          List IntegerPoint), q.Time = acc.Time → q.Value ≤ acc.Value) :=
  integerFirstReduce_fold_first {} _ (by simp)

theorem integerLastReduce_fold_last_witness :
    ∃ acc, foldIntegerReduce IntegerLastReduce {}
        [{ Time := 5, Value := 3 }, { Time := 9, Value := 2 }, { Time := 9, Value := 8 }] =
          some acc ∧
      (∀ q ∈ ([{ Time := 5, Value := 3 }, { Time := 9, Value := 2 }, { Time := 9, Value := 8 }] :
          List IntegerPoint), q.Time ≤ acc.Time) ∧
      (∃ p ∈ ([{ Time := 5, Value := 3 }, { Time := 9, Value := 2 }, { Time := 9, Value := 8 }] :
          List IntegerPoint), p.Time = acc.Time ∧ p.Value = acc.Value) ∧
      (∀ q ∈ ([{ Time := 5, Value := 3 }, { Time := 9, Value := 2 }, { Time := 9, Value := 8 }] :
          List IntegerPoint), q.Time = acc.Time → q.Value ≤ acc.Value) :=
  integerLastReduce_fold_last {} _ (by simp)

theorem integerCountReduce_fold_count_witness :
    foldIntegerReduce IntegerCountReduce { StartTime := 100, EndTime := 200 }
        [{ Time := 110, Value := 42 }, { Time := 120, Value := -7 }, { Time := 130, Value := 0 }] =
      some { Time := 100, Value := 3, Aux := [] } :=
  integerCountReduce_fold_count { StartTime := 100, EndTime := 200 }
    [{ Time := 110, Value := 42 }, { Time := 120, Value := -7 }, { Time := 130, Value := 0 }]
    (by simp) (by norm_num)

theorem integerSumReduce_fold_sum_witness :
    foldIntegerReduce IntegerSumReduce {}
        [{ Time := 7, Value := 9223372036854775807 }, { Time := 8, Value := 1 }] =
      some { Time := 7, Value := wrapInt64 (9223372036854775807 + (1 + 0)), Aux := [] } :=
  integerSumReduce_fold_sum {} { Time := 7, Value := 9223372036854775807 }
    [{ Time := 8, Value := 1 }] (by
      intro q hq
      simp only [List.mem_cons, List.mem_singleton, List.not_mem_nil, or_false] at hq
      rcases hq with rfl | rfl <;> simp [isInt64])

/-! ## mean -/

theorem integerReduceFloatGroup_concat
    (fn : Option FloatPoint → IntegerPoint → ReduceOptions → FloatResult)
    (zeroTime : Int) (opt : ReduceOptions) (tags : List (String × String))
    (l : List IntegerPoint) (x : IntegerPoint) :
    integerReduceFloatGroup fn zeroTime opt tags (l ++ [x]) =
      if x.Nil then integerReduceFloatGroup fn zeroTime opt tags l
      else integerReduceFloatStep fn zeroTime opt tags
        (integerReduceFloatGroup fn zeroTime opt tags l) x := by
  simp [integerReduceFloatGroup, List.foldl_append]

/-- The accumulator of the mean after a non-empty run of points with `Aggregated <= 1`. -/
theorem integerMeanReduce_group (zeroTime : Int) (opt : ReduceOptions)
    (tags : List (String × String)) (l : List IntegerPoint) (hl : l ≠ [])
    (hz : opt.StartTime ≠ zeroTime) (hnil : ∀ p ∈ l, p.Nil = false)
    (hagg : ∀ p ∈ l, p.Aggregated ≤ 1) :
    ∃ acc, integerReduceFloatGroup IntegerMeanReduce zeroTime opt tags l = some acc ∧
      acc.Time = opt.StartTime ∧ acc.Aggregated = l.length ∧
      acc.Value = arithmeticMean l := by
  induction l using List.reverseRecOn with
  | nil => exact absurd rfl hl
  | append_singleton l x ih =>
    have hx : x.Nil = false := hnil x (by simp)
    have hxa : ¬ x.Aggregated > 1 := by
      have := hagg x (by simp)
      omega
    rw [integerReduceFloatGroup_concat]
    simp only [hx, Bool.false_eq_true, if_false]
    by_cases hnil' : l = []
    · subst hnil'
      simp only [integerReduceFloatGroup, List.foldl_nil, integerReduceFloatStep,
        IntegerMeanReduce, hz, if_false]
      refine ⟨_, rfl, rfl, ?_, ?_⟩
      · simp
      · simp [arithmeticMean]
    · obtain ⟨acc, hacc, ht, hn, hv⟩ := ih hnil'
        (fun p hp => hnil p (by simp [hp])) (fun p hp => hagg p (by simp [hp]))
      have hz' : ¬ acc.Time = zeroTime := by rw [ht]; exact hz
      rw [hacc]
      simp only [integerReduceFloatStep, IntegerMeanReduce, hxa, if_false, hz']
      refine ⟨_, rfl, ht, ?_, ?_⟩
      · simp [hn]
      · have hlen : (l.length : ℚ) ≠ 0 := by
          have : l.length ≠ 0 := fun h => hnil' (List.length_eq_zero.mp h)
          exact_mod_cast this
        simp only [hv, hn, arithmeticMean, List.map_append, List.sum_append, List.map_cons,
          List.map_nil, List.sum_cons, List.sum_nil, add_zero, List.length_append,
          List.length_singleton]
        rw [div_mul_cancel₀ _ hlen]

/-- C4: for a non-empty sequence of n integer points of one group in one window, every
point having `Aggregated <= 1`, folding `IntegerMeanReduce` the way
`integerReduceFloatIterator.reduce` does (prev = nil for the first point, the accumulator's
`Aggregated` incremented by one after each point) emits a point whose value is the
arithmetic mean (v_1 + ... + v_n) / n over the rationals. The window start is not the
reserved skip sentinel `ZeroTime`, and the points are the non-`Nil` points the loop folds. -/
theorem integerMeanReduce_fold_mean (zeroTime : Int) (opt : ReduceOptions)
    (tags : List (String × String)) (l : List IntegerPoint) (hl : l ≠ [])
    (hz : opt.StartTime ≠ zeroTime) (hnil : ∀ p ∈ l, p.Nil = false)
    (hagg : ∀ p ∈ l, p.Aggregated ≤ 1) :
    ∃ out, integerReduceFloatEmit IntegerMeanReduce zeroTime opt tags l = some out ∧
      out.Value = arithmeticMean l ∧ out.Aggregated = l.length ∧
      out.Time = opt.StartTime := by
  obtain ⟨acc, hacc, _, hn, hv⟩ := integerMeanReduce_group zeroTime opt tags l hl hz hnil hagg
  rw [integerReduceFloatEmit, hacc]
  exact ⟨_, rfl, hv, hn, rfl⟩

theorem integerMeanReduce_fold_mean_witness :
    (∃ out, integerReduceFloatEmit IntegerMeanReduce (-6795364578871345152) {} []
        [{ Time := 1, Value := 10, Aggregated := 1 }, { Time := 2, Value := 20, Aggregated := 1 }] =
          some out ∧
      out.Value = arithmeticMean
        [{ Time := 1, Value := 10, Aggregated := 1 }, { Time := 2, Value := 20, Aggregated := 1 }] ∧
      out.Aggregated = 2 ∧ out.Time = 0) ∧
    arithmeticMean
      [{ Time := 1, Value := 10, Aggregated := 1 }, { Time := 2, Value := 20, Aggregated := 1 }] =
        15 :=
  ⟨integerMeanReduce_fold_mean (-6795364578871345152) {} []
      [{ Time := 1, Value := 10, Aggregated := 1 }, { Time := 2, Value := 20, Aggregated := 1 }]
      (by simp) (by decide)
      (by intro p hp; simp at hp; rcases hp with rfl | rfl <;> rfl)
      (by intro p hp; simp at hp; rcases hp with rfl | rfl <;> simp),
    by norm_num [arithmeticMean]⟩

/-- C3, evaluated at a failing input: for the points (v = 10, Aggregated = 3) and
(v = 20, Aggregated = 1) of one group, `integerReduceFloatIterator.reduce` driving
`IntegerMeanReduce` emits the value 15, whereas the weighted mean
(3 * 10 + 1 * 20) / (3 + 1) is 25/2. -/
theorem integerMeanReduce_not_weighted :
    (integerReduceFloatEmit IntegerMeanReduce (-6795364578871345152) {} []
        [{ Time := 1, Value := 10, Aggregated := 3 },
         { Time := 2, Value := 20, Aggregated := 1 }]).map (·.Value) = some 15 ∧
      weightedMean
        [{ Time := 1, Value := 10, Aggregated := 3 },
         { Time := 2, Value := 20, Aggregated := 1 }] = 25 / 2 ∧
      (15 : ℚ) ≠ 25 / 2 := by
  refine ⟨?_, ?_, by norm_num⟩
  · simp only [integerReduceFloatEmit, integerReduceFloatGroup, List.foldl_cons, List.foldl_nil,
      integerReduceFloatStep, IntegerMeanReduce]
    norm_num
  · norm_num [weightedMean]

/-! ## Sorting -/

/-- An order given by a key into a linear order makes `sortStable` meet the contract of
`sort.Sort`. -/
theorem isSort_sortStable {α κ : Type} [LinearOrder κ] (less : α → α → Bool) (key : α → κ)
    (hless : ∀ x y, less x y = true ↔ key x < key y) : IsSort less (sortStable less) := by
  have hr : ∀ x y, less y x = false ↔ key x ≤ key y := by
    intro x y
    rw [← not_lt, ← hless, Bool.not_eq_true]
  intro l
  refine ⟨List.perm_insertionSort _ l, ?_⟩
  have htot : IsTotal α (fun x y => less y x = false) :=
    ⟨fun x y => by simp only [hr]; exact le_total _ _⟩
  have htr : IsTrans α (fun x y => less y x = false) :=
    ⟨fun x y z => by simp only [hr]; exact le_trans⟩
  exact List.sorted_insertionSort _ l

theorem floatPointsByValueLess_iff (p q : FloatPoint) :
    floatPointsByValueLess p q = true ↔ p.Value < q.Value := by
  simp [floatPointsByValueLess]

/-- The values of a slice sorted by value are the sorted values of the slice. -/
theorem map_value_of_isSort (sortFn : List FloatPoint → List FloatPoint)
    (hsort : IsSort floatPointsByValueLess sortFn) (a : List FloatPoint) :
    (sortFn a).map (·.Value) = (a.map (·.Value)).insertionSort (· ≤ ·) := by
  obtain ⟨hperm, hsorted⟩ := hsort a
  apply List.eq_of_perm_of_sorted (r := (· ≤ ·))
  · exact (hperm.map _).trans (List.perm_insertionSort _ _).symm
  · rw [List.Sorted, List.pairwise_map]
    refine hsorted.imp ?_
    intro x y h
    have : ¬ (y.Value < x.Value) := by
      intro hlt
      rw [(floatPointsByValueLess_iff y x).mpr hlt] at h
      exact Bool.noConfusion h
    exact not_lt.mp this
  · exact List.sorted_insertionSort _ _

/-! ## median -/

/-- C2: for every non-empty sequence of float points (values are rationals, so there is no
NaN), `FloatMedianReduceSlice` returns exactly one point, with `Time = opt.StartTime` and
with `Value` the statistical median of the values by the sort-and-index reference: the
middle sorted value for odd length, the arithmetic mean of the two middle sorted values
for even length. This holds for every sorting function meeting the contract of
`sort.Sort`. -/
theorem floatMedianReduceSlice_eq_median (sortFn : List FloatPoint → List FloatPoint)
    (hsort : IsSort floatPointsByValueLess sortFn) (a : List FloatPoint)
    (opt : ReduceOptions) (ha : a ≠ []) :
    FloatMedianReduceSlice sortFn a opt =
      some [{ Time := opt.StartTime, Value := medianReference (a.map (·.Value)) }] := by
  have hvals := map_value_of_isSort sortFn hsort a
  have hlen : (sortFn a).length = a.length := (hsort a).1.length_eq
  have hslen : ((a.map (·.Value)).insertionSort (· ≤ ·)).length = a.length := by
    rw [List.length_insertionSort, List.length_map]
  have hpos : 0 < a.length := List.length_pos.mpr ha
  have hget : ∀ i : Nat, ((a.map (·.Value)).insertionSort (· ≤ ·))[i]? =
      ((sortFn a)[i]?).map (fun p : FloatPoint => p.Value) := by
    intro i
    rw [← hvals, List.getElem?_map]
  unfold FloatMedianReduceSlice medianReference
  by_cases h1 : a.length = 1
  · obtain ⟨p, rfl⟩ := List.length_eq_one.mp h1
    simp
  · simp only [h1, if_false, hlen, hslen]
    by_cases hev : a.length % 2 = 0
    · have h2 : ¬ a.length / 2 < 1 := by omega
      have hlo : a.length / 2 - 1 < (sortFn a).length := by omega
      have hhi : a.length / 2 < (sortFn a).length := by omega
      have hodd : ¬ a.length % 2 = 1 := by omega
      have h01 : ¬ (0 : ℕ) = 1 := by decide
      simp only [hev, h2, if_true, if_false, h01, List.getD_eq_getElem?_getD, hget,
        List.getElem?_eq_getElem hlo, List.getElem?_eq_getElem hhi, Option.map_some',
        Option.getD_some]
      congr 3
      ring
    · have hmid : a.length / 2 < (sortFn a).length := by omega
      have hodd : a.length % 2 = 1 := by omega
      have h10 : ¬ (1 : ℕ) = 0 := by decide
      simp only [hodd, h10, if_false, if_true, List.getD_eq_getElem?_getD, hget,
        List.getElem?_eq_getElem hmid, Option.map_some', Option.getD_some]

theorem floatMedianReduceSlice_eq_median_witness :
    IsSort floatPointsByValueLess (sortStable floatPointsByValueLess) ∧
      FloatMedianReduceSlice (sortStable floatPointsByValueLess)
          [{ Time := 0, Value := 5 }, { Time := 10, Value := 1 }, { Time := 20, Value := 9 },
           { Time := 30, Value := 3 }] { StartTime := 0, EndTime := 40 } =
        some [{ Time := 0, Value := medianReference [5, 1, 9, 3] }] ∧
      medianReference [5, 1, 9, 3] = 4 :=
  ⟨isSort_sortStable _ (·.Value) floatPointsByValueLess_iff,
    floatMedianReduceSlice_eq_median (sortStable floatPointsByValueLess)
      (isSort_sortStable _ (·.Value) floatPointsByValueLess_iff)
      [{ Time := 0, Value := 5 }, { Time := 10, Value := 1 }, { Time := 20, Value := 9 },
       { Time := 30, Value := 3 }] { StartTime := 0, EndTime := 40 } (by simp),
    by norm_num [medianReference, List.insertionSort, List.orderedInsert]⟩

/-! ## Heaps -/

theorem set_perm_cons_eraseIdx {α : Type} (l : List α) (i : Nat) (y : α) (hi : i < l.length) :
    (l.set i y).Perm (y :: l.eraseIdx i) := by
  induction l generalizing i with
  | nil => simp at hi
  | cons a t ih =>
    cases i with
    | zero => simp
    | succ i =>
      simp only [List.set_cons_succ, List.eraseIdx_cons_succ]
      have := ih i (by simpa using hi)
      exact (this.cons a).trans (List.Perm.swap _ _ _)

theorem set_eq_self_of_getElem? {α : Type} (h : List α) (i : Nat) (x : α)
    (hx : h[i]? = some x) : h.set i x = h := by
  apply List.ext_getElem?
  intro k
  rw [List.getElem?_set]
  by_cases hik : i = k
  · subst hik
    have hi := (List.getElem?_eq_some.mp hx).1
    simp [hi, hx]
  · simp [hik]

theorem heapSwap_perm {α : Type} (h : List α) (i j : Nat) : (heapSwap h i j).Perm h := by
  unfold heapSwap
  split
  · rename_i x y hx hy
    obtain ⟨hi, hxi⟩ := List.getElem?_eq_some.mp hx
    obtain ⟨hj, hyj⟩ := List.getElem?_eq_some.mp hy
    by_cases hij : i = j
    · subst hij
      have : x = y := by rw [← hxi, ← hyj]
      subst this
      rw [List.set_set, set_eq_self_of_getElem? h i x hx]
    · have hj' : j < (h.set i y).length := by simpa using hj
      have h1 := set_perm_cons_eraseIdx (h.set i y) j x hj'
      have h2 := set_perm_cons_eraseIdx (h.set i y) j y hj'
      have h3 : (h.set i y).set j y = h.set i y := by
        apply List.ext_getElem? 
        intro k
        simp only [List.getElem?_set]
        by_cases hjk : j = k
        · subst hjk
          simp [hij, hj, hy]
        · simp [hjk]
      rw [h3] at h2
      have h4 := set_perm_cons_eraseIdx h i y hi
      have h5 : ((h.set i y).eraseIdx j).Perm (h.eraseIdx i) :=
        List.Perm.cons_inv (h2.symm.trans h4)
      have h6 := set_perm_cons_eraseIdx h i x hi
      have h7 : h.set i x = h := set_eq_self_of_getElem? h i x hx
      rw [h7] at h6
      exact h1.trans ((h5.cons x).trans h6.symm)
  · exact List.Perm.refl _

theorem length_heapSwap {α : Type} (h : List α) (i j : Nat) :
    (heapSwap h i j).length = h.length := (heapSwap_perm h i j).length_eq

theorem getD_heapSwap {α : Type} (h : List α) (i j k : Nat) (d : α)
    (hi : i < h.length) (hj : j < h.length) :
    (heapSwap h i j).getD k d =
      if k = j then h.getD i d else if k = i then h.getD j d else h.getD k d := by
  unfold heapSwap
  rw [List.getElem?_eq_getElem hi, List.getElem?_eq_getElem hj]
  simp only [List.getD_eq_getElem?_getD, List.getElem?_set, List.length_set]
  by_cases hkj : k = j
  · subst hkj
    simp [hj, hi]
  · by_cases hki : k = i
    · subst hki
      simp [hi, hj, Ne.symm hkj, hkj]
    · simp [hkj, hki, Ne.symm hkj, Ne.symm hki]

theorem heapLess_eq {α : Type} (less : α → α → Bool) (h : List α) (i j : Nat) (d : α)
    (hi : i < h.length) (hj : j < h.length) :
    heapLess less h i j = less (h.getD i d) (h.getD j d) := by
  unfold heapLess
  rw [List.getElem?_eq_getElem hi, List.getElem?_eq_getElem hj]
  simp [List.getD_eq_getElem?_getD, List.getElem?_eq_getElem hi, List.getElem?_eq_getElem hj]

theorem heapDown_spec {α κ : Type} [LinearOrder κ] (less : α → α → Bool) (key : α → κ)
    (hless : ∀ x y, less x y = true ↔ key x < key y) (d : α) (fuel : Nat) :
    ∀ (h : List α) (i n i0 : Nat), n ≤ h.length → n ≤ fuel + i → i0 ≤ i →
      (∀ j, 0 < j → j < n → i0 ≤ (j - 1) / 2 → (j - 1) / 2 ≠ i →
        key (h.getD ((j - 1) / 2) d) ≤ key (h.getD j d)) →
      (0 < i → i0 ≤ (i - 1) / 2 → ∀ j, 0 < j → j < n → (j - 1) / 2 = i →
        key (h.getD ((i - 1) / 2) d) ≤ key (h.getD j d)) →
      ∃ h', heapDown less fuel h i n = some h' ∧ h'.Perm h ∧ HeapFrom key d h' n i0 ∧
        ∀ k, n ≤ k → h'.getD k d = h.getD k d := by
  induction fuel with
  | zero =>
    intro h i n i0 hn hfuel hi0 hP1 hP2
    have hge : 2 * i + 1 ≥ n := by omega
    refine ⟨h, ?_, List.Perm.refl _, ?_, fun _ _ => rfl⟩
    · unfold heapDown
      simp [hge]
    · intro j hj0 hjn hlo
      exact hP1 j hj0 hjn hlo (by omega)
  | succ fuel ih =>
    intro h i n i0 hn hfuel hi0 hP1 hP2
    by_cases hge : 2 * i + 1 ≥ n
    · refine ⟨h, ?_, List.Perm.refl _, ?_, fun _ _ => rfl⟩
      · unfold heapDown
        simp [hge]
      · intro j hj0 hjn hlo
        exact hP1 j hj0 hjn hlo (by omega)
    · have hc1 : 2 * i + 1 < n := by omega
      -- the child chosen by the loop
      obtain ⟨j, hjdef, hjn, hji, hjpar, hjmin⟩ :
          ∃ j, (if 2 * i + 1 + 1 < n && heapLess less h (2 * i + 1 + 1) (2 * i + 1)
                then 2 * i + 1 + 1 else 2 * i + 1) = j ∧ j < n ∧ i < j ∧ (j - 1) / 2 = i ∧
            ∀ c, 0 < c → c < n → (c - 1) / 2 = i → key (h.getD j d) ≤ key (h.getD c d) := by
        by_cases hc : (decide (2 * i + 1 + 1 < n) && heapLess less h (2 * i + 1 + 1) (2 * i + 1)) = true
        · refine ⟨2 * i + 1 + 1, by simp only [hc, if_true], ?_, by omega, by omega, ?_⟩
          · simp only [Bool.and_eq_true, decide_eq_true_eq] at hc
            exact hc.1
          · simp only [Bool.and_eq_true, decide_eq_true_eq] at hc
            intro c hc0 hcn hcp
            have hcc : c = 2 * i + 1 ∨ c = 2 * i + 1 + 1 := by omega
            rcases hcc with rfl | rfl
            · have := hc.2
              rw [heapLess_eq less h _ _ d (by omega) (by omega), hless] at this
              exact le_of_lt this
            · exact le_refl _
        · refine ⟨2 * i + 1, by simp only [hc, Bool.false_eq_true, if_false], hc1, by omega,
            by omega, ?_⟩
          intro c hc0 hcn hcp
          have hcc : c = 2 * i + 1 ∨ c = 2 * i + 1 + 1 := by omega
          rcases hcc with rfl | rfl
          · exact le_refl _
          · simp only [Bool.and_eq_true, decide_eq_true_eq, not_and, Bool.not_eq_true] at hc
            have := hc hcn
            have hnot : ¬ (less (h.getD (2 * i + 1 + 1) d) (h.getD (2 * i + 1) d) = true) := by
              rw [← heapLess_eq less h _ _ d (by omega) (by omega), this]
              exact Bool.false_ne_true
            rw [hless] at hnot
            exact not_lt.mp hnot
      by_cases hlt : heapLess less h j i = true
      · -- swap and continue from `j`
        have hkey : key (h.getD j d) < key (h.getD i d) := by
          rw [heapLess_eq less h _ _ d (by omega) (by omega), hless] at hlt
          exact hlt
        have hsw : ∀ k, (heapSwap h i j).getD k d =
            if k = j then h.getD i d else if k = i then h.getD j d else h.getD k d :=
          fun k => getD_heapSwap h i j k d (by omega) (by omega)
        obtain ⟨h', hres, hperm, hheap, hrest⟩ := ih (heapSwap h i j) j n i0
          (by rw [length_heapSwap]; exact hn) (by omega) (by omega)
          (by
            intro k hk0 hkn hklo hkne
            by_cases hpi : (k - 1) / 2 = i
            · have hA : (heapSwap h i j).getD ((k - 1) / 2) d = h.getD j d := by
                rw [hsw, if_neg hkne, if_pos hpi]
              by_cases hkj : k = j
              · have hB : (heapSwap h i j).getD k d = h.getD i d := by rw [hsw, if_pos hkj]
                rw [hA, hB]
                exact le_of_lt hkey
              · have hki : k ≠ i := by omega
                have hB : (heapSwap h i j).getD k d = h.getD k d := by
                  rw [hsw, if_neg hkj, if_neg hki]
                rw [hA, hB]
                exact hjmin k hk0 hkn hpi
            · have hA : (heapSwap h i j).getD ((k - 1) / 2) d = h.getD ((k - 1) / 2) d := by
                rw [hsw, if_neg hkne, if_neg hpi]
              have hkj : k ≠ j := by
                intro hkj
                rw [hkj] at hpi
                exact hpi hjpar
              by_cases hki : k = i
              · have hB : (heapSwap h i j).getD k d = h.getD j d := by
                  rw [hsw, if_neg hkj, if_pos hki]
                rw [hA, hB]
                have := hP2 (by omega) (by omega) j (by omega) hjn hjpar
                rw [← hki] at this
                exact this
              · have hB : (heapSwap h i j).getD k d = h.getD k d := by
                  rw [hsw, if_neg hkj, if_neg hki]
                rw [hA, hB]
                exact hP1 k hk0 hkn hklo hpi)
          (by
            intro hj0 hjlo k hk0 hkn hkp
            have h1 : (j - 1) / 2 ≠ j := by omega
            have h2 : k ≠ j := by omega
            have h3 : k ≠ i := by omega
            have hA : (heapSwap h i j).getD ((j - 1) / 2) d = h.getD j d := by
              rw [hsw, if_neg h1, if_pos hjpar]
            have hB : (heapSwap h i j).getD k d = h.getD k d := by
              rw [hsw, if_neg h2, if_neg h3]
            rw [hA, hB]
            have := hP1 k hk0 hkn (by omega) (by omega)
            rw [hkp] at this
            exact this)
        refine ⟨h', ?_, hperm.trans (heapSwap_perm h i j), hheap, ?_⟩
        · rw [heapDown]
          simp only [hge, if_false, hjdef, hlt, Bool.not_true, Bool.false_eq_true]
          exact hres
        · intro k hk
          rw [hrest k hk, hsw]
          have h2 : k ≠ j := by omega
          have h3 : k ≠ i := by omega
          simp only [h2, h3, if_false]
      · -- the loop stops here
        have hkey : key (h.getD i d) ≤ key (h.getD j d) := by
          rw [heapLess_eq less h _ _ d (by omega) (by omega), hless] at hlt
          exact not_lt.mp hlt
        refine ⟨h, ?_, List.Perm.refl _, ?_, fun _ _ => rfl⟩
        · rw [heapDown]
          simp only [hge, if_false, hjdef, hlt, Bool.not_false, if_true]
        · intro k hk0 hkn hklo
          by_cases hpi : (k - 1) / 2 = i
          · rw [hpi]
            exact le_trans hkey (hjmin k hk0 hkn hpi)
          · exact hP1 k hk0 hkn hklo hpi

theorem heapInitLoop_spec {α κ : Type} [LinearOrder κ] (less : α → α → Bool) (key : α → κ)
    (hless : ∀ x y, less x y = true ↔ key x < key y) (d : α) (n : Nat) :
    ∀ (k : Nat) (h : List α), n ≤ h.length → HeapFrom key d h n k →
      ∃ h', heapInitLoop less n k h = some h' ∧ h'.Perm h ∧ HeapFrom key d h' n 0 := by
  intro k
  induction k with
  | zero =>
    intro h _ hheap
    exact ⟨h, rfl, List.Perm.refl _, hheap⟩
  | succ k ih =>
    intro h hn hheap
    obtain ⟨h1, hres, hperm, hheap1, _⟩ := heapDown_spec less key hless d n h k n k hn
      (by omega) (le_refl _)
      (fun j hj0 hjn hlo hne => hheap j hj0 hjn (by omega))
      (fun hk0 hlo => by omega)
    obtain ⟨h2, hres2, hperm2, hheap2⟩ := ih h1 (by rw [hperm.length_eq]; exact hn) hheap1
    refine ⟨h2, ?_, hperm2.trans hperm, hheap2⟩
    rw [heapInitLoop, hres]
    exact hres2

theorem heapInit_spec {α κ : Type} [LinearOrder κ] (less : α → α → Bool) (key : α → κ)
    (hless : ∀ x y, less x y = true ↔ key x < key y) (d : α) (h : List α) :
    ∃ h', heapInit less h = some h' ∧ h'.Perm h ∧ HeapFrom key d h' h'.length 0 := by
  obtain ⟨h', hres, hperm, hheap⟩ := heapInitLoop_spec less key hless d h.length
    (h.length / 2) h (le_refl _) (fun j hj0 hjn hlo => by omega)
  refine ⟨h', hres, hperm, ?_⟩
  rw [hperm.length_eq]
  exact hheap

/-- The root of a heap is a least element. -/
theorem heapFrom_root_le {α κ : Type} [LinearOrder κ] (key : α → κ) (d : α) (h : List α)
    (n : Nat) (hheap : HeapFrom key d h n 0) :
    ∀ j, j < n → key (h.getD 0 d) ≤ key (h.getD j d) := by
  intro j
  induction j using Nat.strong_induction_on with
  | _ j ih =>
    intro hjn
    by_cases hj0 : j = 0
    · rw [hj0]
    · exact le_trans (ih ((j - 1) / 2) (by omega) (by omega))
        (hheap j (by omega) hjn (Nat.zero_le _))

theorem heapPop_spec {α κ : Type} [LinearOrder κ] (less : α → α → Bool) (key : α → κ)
    (hless : ∀ x y, less x y = true ↔ key x < key y) (d : α) (h : List α)
    (hne : h ≠ []) (hheap : HeapFrom key d h h.length 0) :
    ∃ p rest, heapPop less h = some (p, rest) ∧ (p :: rest).Perm h ∧
      HeapFrom key d rest rest.length 0 ∧ ∀ y ∈ h, key p ≤ key y := by
  have hpos : 0 < h.length := List.length_pos.mpr hne
  have hsw : ∀ k, (heapSwap h 0 (h.length - 1)).getD k d =
      if k = h.length - 1 then h.getD 0 d else if k = 0 then h.getD (h.length - 1) d
      else h.getD k d :=
    fun k => getD_heapSwap h 0 (h.length - 1) k d hpos (by omega)
  obtain ⟨h2, hres, hperm, hheap2, hrest⟩ := heapDown_spec less key hless d (h.length - 1)
    (heapSwap h 0 (h.length - 1)) 0 (h.length - 1) 0
    (by rw [length_heapSwap]; omega) (by omega) (le_refl _)
    (by
      intro j hj0 hjn _ hpar
      have h1 : (j - 1) / 2 ≠ h.length - 1 := by omega
      have h2 : j ≠ h.length - 1 := by omega
      have h3 : j ≠ 0 := by omega
      rw [hsw, hsw, if_neg h1, if_neg hpar, if_neg h2, if_neg h3]
      exact hheap j hj0 (by omega) (Nat.zero_le _))
    (fun h0 => absurd h0 (lt_irrefl 0))
  have hperm2 : h2.Perm h := hperm.trans (heapSwap_perm h 0 (h.length - 1))
  have hlen2 : h2.length = h.length := hperm2.length_eq
  have hlast : h2.getD (h.length - 1) d = h.getD 0 d := by
    rw [hrest _ (le_refl _), hsw, if_pos rfl]
  have hlt : h.length - 1 < h2.length := by omega
  have hget : h2[h.length - 1]? = some (h.getD 0 d) := by
    rw [List.getElem?_eq_getElem hlt]
    rw [List.getD_eq_getElem?_getD, List.getElem?_eq_getElem hlt] at hlast
    simpa using hlast
  refine ⟨h.getD 0 d, h2.take (h.length - 1), ?_, ?_, ?_, ?_⟩
  · unfold heapPop
    have hz : ¬ h.length = 0 := by omega
    simp only [hz, if_false, hres]
    show Option.map (fun p => (p, List.take (h2.length - 1) h2)) h2[h2.length - 1]? = _
    rw [hlen2, hget]
    rfl
  · have hsplit : h2 = h2.take (h.length - 1) ++ [h.getD 0 d] := by
      have hd : h2.drop (h.length - 1) = [h.getD 0 d] := by
        rw [List.drop_eq_getElem_cons hlt]
        have : h2.drop (h.length - 1 + 1) = [] := by
          apply List.drop_of_length_le
          omega
        rw [this]
        rw [List.getElem?_eq_getElem hlt] at hget
        simpa using hget
      conv_lhs => rw [← List.take_append_drop (h.length - 1) h2, hd]
    have : (h.getD 0 d :: h2.take (h.length - 1)).Perm h2 := by
      conv_rhs => rw [hsplit]
      exact (List.perm_append_singleton _ _).symm
    exact this.trans hperm2
  · have hlenr : (h2.take (h.length - 1)).length = h.length - 1 := by
      rw [List.length_take]
      omega
    have hgetr : ∀ k, k < h.length - 1 → (h2.take (h.length - 1)).getD k d = h2.getD k d := by
      intro k hk
      rw [List.getD_eq_getElem?_getD, List.getD_eq_getElem?_getD, List.getElem?_take, if_pos hk]
    rw [hlenr]
    intro j hj0 hjn hlo
    rw [hgetr _ (by omega), hgetr _ hjn]
    exact hheap2 j hj0 hjn hlo
  · intro y hy
    obtain ⟨j, hj, rfl⟩ := List.getElem_of_mem hy
    have := heapFrom_root_le key d h h.length hheap j hj
    rw [List.getD_eq_getElem?_getD h j, List.getElem?_eq_getElem hj] at this
    simpa using this
theorem heapPopN_spec {α κ : Type} [LinearOrder κ] (less : α → α → Bool) (key : α → κ)
    (hless : ∀ x y, less x y = true ↔ key x < key y) (d : α) :
    ∀ (k : Nat) (h acc : List α), k ≤ h.length → HeapFrom key d h h.length 0 →
      ∃ ps rest, heapPopN less k h acc = some (acc ++ ps) ∧ ps.length = k ∧
        (ps ++ rest).Perm h ∧ ps.Pairwise (fun x y => key x ≤ key y) ∧
        ∀ x ∈ ps, ∀ y ∈ rest, key x ≤ key y := by
  intro k
  induction k with
  | zero =>
    intro h acc _ _
    exact ⟨[], h, by simp [heapPopN], rfl, by simp, List.Pairwise.nil, by simp⟩
  | succ k ih =>
    intro h acc hk hheap
    have hne : h ≠ [] := by
      intro h0
      rw [h0] at hk
      simp at hk
    obtain ⟨p, rest1, hpop, hperm1, hheap1, hmin⟩ := heapPop_spec less key hless d h hne hheap
    have hlen1 : rest1.length + 1 = h.length := by
      rw [← hperm1.length_eq, List.length_cons]
    obtain ⟨ps, rest, hres, hlen, hperm, hsorted, hcross⟩ :=
      ih rest1 (acc ++ [p]) (by omega) hheap1
    have hmem1 : ∀ y ∈ rest1, key p ≤ key y := fun y hy =>
      hmin y (hperm1.subset (List.mem_cons_of_mem _ hy))
    refine ⟨p :: ps, rest, ?_, by simp [hlen], ?_, ?_, ?_⟩
    · rw [heapPopN, hpop]
      simpa using hres
    · exact ((hperm.cons p).trans hperm1)
    · refine List.Pairwise.cons ?_ hsorted
      intro y hy
      exact hmem1 y (hperm.subset (List.mem_append_left _ hy))
    · intro x hx y hy
      rcases List.mem_cons.mp hx with rfl | hx
      · exact hmem1 y (hperm.subset (List.mem_append_right _ hy))
      · exact hcross x hx y hy

/-! ## top -/

theorem topLess_iff (x y : IntegerPoint) : topLess x y = true ↔ topKey x < topKey y := by
  unfold topLess topKey
  rw [Prod.Lex.lt_iff]
  by_cases hv : x.Value = y.Value
  · simp [hv]
  · simp only [ne_eq, hv, not_false_eq_true, if_true, decide_eq_true_eq]
    constructor
    · intro h
      left
      omega
    · rintro (h | ⟨h, _⟩)
      · omega
      · exact absurd (by omega) hv

theorem topKey_le_iff (x y : IntegerPoint) :
    topKey x ≤ topKey y ↔ topOrder x.timeValue y.timeValue := by
  unfold topKey topOrder IntegerPoint.timeValue
  rw [Prod.Lex.le_iff]
  constructor
  · rintro (h | ⟨h, h'⟩)
    · left
      simp only at h ⊢
      omega
    · right
      simp only at h h' ⊢
      exact ⟨by omega, h'⟩
  · rintro (h | ⟨h, h'⟩)
    · left
      simp only at h ⊢
      omega
    · right
      simp only at h h' ⊢
      exact ⟨by omega, h'⟩

theorem topOrder_isTotal : IsTotal (Int × Int) topOrder :=
  ⟨fun x y => by unfold topOrder; omega⟩

theorem topOrder_isTrans : IsTrans (Int × Int) topOrder :=
  ⟨fun x y z => by unfold topOrder; omega⟩

theorem topOrder_isAntisymm : IsAntisymm (Int × Int) topOrder :=
  ⟨fun x y h₁ h₂ => by
    unfold topOrder at h₁ h₂
    exact Prod.ext (by omega) (by omega)⟩

theorem integerPointsLess_iff (p q : IntegerPoint) :
    integerPointsLess p q = true ↔ p.Time < q.Time := by
  simp [integerPointsLess]

/-- The points popped first from a heap over `a`, in the order of popping, are the first
points of `a` under `topOrder`. -/
theorem map_timeValue_eq_topReference (a ps rest : List IntegerPoint)
    (hperm : (ps ++ rest).Perm a)
    (hsorted : ps.Pairwise (fun x y => topKey x ≤ topKey y))
    (hcross : ∀ x ∈ ps, ∀ y ∈ rest, topKey x ≤ topKey y) :
    ps.map IntegerPoint.timeValue = topReference ps.length a := by
  haveI := topOrder_isTotal
  haveI := topOrder_isTrans
  haveI := topOrder_isAntisymm
  have hs : (ps.map IntegerPoint.timeValue ++
      (rest.map IntegerPoint.timeValue).insertionSort topOrder).Sorted topOrder := by
    rw [List.Sorted, List.pairwise_append]
    refine ⟨?_, List.sorted_insertionSort _ _, ?_⟩
    · rw [List.pairwise_map]
      exact hsorted.imp (fun h => (topKey_le_iff _ _).mp h)
    · intro x hx y hy
      obtain ⟨p, hp, rfl⟩ := List.mem_map.mp hx
      have hy' : y ∈ rest.map IntegerPoint.timeValue :=
        (List.perm_insertionSort _ _).subset hy
      obtain ⟨q, hq, rfl⟩ := List.mem_map.mp hy'
      exact (topKey_le_iff _ _).mp (hcross p hp q hq)
  have hp : (ps.map IntegerPoint.timeValue ++
      (rest.map IntegerPoint.timeValue).insertionSort topOrder).Perm
      ((a.map IntegerPoint.timeValue).insertionSort topOrder) := by
    refine (List.Perm.append_left _ (List.perm_insertionSort _ _)).trans ?_
    rw [← List.map_append]
    exact (hperm.map _).trans (List.perm_insertionSort _ _).symm
  have heq := List.eq_of_perm_of_sorted hp hs (List.sorted_insertionSort _ _)
  unfold topReference
  rw [← heq]
  exact (List.take_left' (by simp)).symm

/-- C1: for `tags = nil`, a zero interval, every n >= 0 and every slice `a` of integer
points, the function returned by `NewIntegerTopReduceSliceFunc(n, nil, interval)` returns
min(n, len a) points, each of them a point of `a` (so with its original timestamp), sorted
by `Time` ascending, whose multiset of `(Time, Value)` pairs is that of the first
min(n, len a) elements of `a` under the order "greater `Value` first, then earlier `Time`
first". -/
theorem newIntegerTopReduceSliceFunc_zero_interval (n : Int) (interval : Interval)
    (a : List IntegerPoint) (opt : ReduceOptions) (hn : 0 ≤ n)
    (hzero : interval.IsZero = true) :
    ∃ out, NewIntegerTopReduceSliceFunc n none interval a opt = some out ∧
      out.length = min n.toNat a.length ∧
      out.Subperm a ∧
      out.Pairwise (fun p q => p.Time ≤ q.Time) ∧
      (out.map IntegerPoint.timeValue).Perm (topReference (min n.toNat a.length) a) := by
  obtain ⟨h0, hinit, hperm0, hheap0⟩ := heapInit_spec topLess topKey topLess_iff {} a
  have hlen0 : h0.length = a.length := hperm0.length_eq
  have hsize : (if n > (a.length : Int) then (a.length : Int) else n).toNat =
      min n.toNat a.length := by
    by_cases hgt : n > (a.length : Int)
    · simp only [hgt, if_true, Int.toNat_ofNat]
      omega
    · simp only [hgt, if_false]
      omega
  have hsize0 : ¬ (if n > (a.length : Int) then (a.length : Int) else n) < 0 := by
    by_cases hgt : n > (a.length : Int)
    · simp only [hgt, if_true]
      omega
    · simp only [hgt, if_false]
      omega
  obtain ⟨ps, rest, hpop, hlen, hperm, hsorted, hcross⟩ :=
    heapPopN_spec topLess topKey topLess_iff {} (min n.toNat a.length) h0 []
      (by rw [hlen0]; exact min_le_right _ _) hheap0
  have hsort := isSort_sortStable integerPointsLess (·.Time) integerPointsLess_iff ps
  refine ⟨sortStable integerPointsLess ps, ?_, ?_, ?_, ?_, ?_⟩
  · unfold NewIntegerTopReduceSliceFunc
    simp only [Option.some_bind, hinit, hsize0, if_false, hsize, hpop, List.nil_append,
      Option.map_some', hzero, Bool.not_true, Bool.false_eq_true]
  · rw [hsort.1.length_eq, hlen]
  · exact hsort.1.subperm.trans
      ((List.sublist_append_left ps rest).subperm.trans (hperm.trans hperm0).subperm)
  · refine hsort.2.imp ?_
    intro p q h
    have : ¬ (q.Time < p.Time) := by
      intro hlt
      rw [(integerPointsLess_iff q p).mpr hlt] at h
      exact Bool.noConfusion h
    exact not_lt.mp this
  · rw [← hlen]
    rw [← map_timeValue_eq_topReference a ps rest (hperm.trans hperm0) hsorted hcross]
    exact hsort.1.map _

theorem newIntegerTopReduceSliceFunc_zero_interval_witness :
    (0 : Int) ≤ 2 ∧ (Interval.IsZero {} = true) ∧
      NewIntegerTopReduceSliceFunc 2 none {}
          [{ Time := 0, Value := 5 }, { Time := 10, Value := 1 }, { Time := 20, Value := 9 },
           { Time := 30, Value := 3 }] { StartTime := 0, EndTime := 40 } =
        some [{ Time := 0, Value := 5 }, { Time := 20, Value := 9 }] ∧
      ∃ out, NewIntegerTopReduceSliceFunc 2 none {}
          [{ Time := 0, Value := 5 }, { Time := 10, Value := 1 }, { Time := 20, Value := 9 },
           { Time := 30, Value := 3 }] { StartTime := 0, EndTime := 40 } = some out ∧
        out.length = min (2 : Int).toNat
          ([{ Time := 0, Value := 5 }, { Time := 10, Value := 1 }, { Time := 20, Value := 9 },
            { Time := 30, Value := 3 }] : List IntegerPoint).length ∧
        out.Subperm
          [{ Time := 0, Value := 5 }, { Time := 10, Value := 1 }, { Time := 20, Value := 9 },
           { Time := 30, Value := 3 }] ∧
        out.Pairwise (fun p q => p.Time ≤ q.Time) ∧
        (out.map IntegerPoint.timeValue).Perm
          (topReference
            (min (2 : Int).toNat
              ([{ Time := 0, Value := 5 }, { Time := 10, Value := 1 },
                { Time := 20, Value := 9 }, { Time := 30, Value := 3 }] :
                List IntegerPoint).length)
            [{ Time := 0, Value := 5 }, { Time := 10, Value := 1 }, { Time := 20, Value := 9 },
             { Time := 30, Value := 3 }]) :=
  ⟨by decide, by decide, by decide,
    newIntegerTopReduceSliceFunc_zero_interval 2 {} _ { StartTime := 0, EndTime := 40 }
      (by decide) (by decide)⟩

/-! ## spread -/

/-- The loop of `IntegerSpreadReduceSlice`, started from `(lo, hi)`: the first component ends
as the least of `lo` and the values seen, the second as the greatest of `hi` and them. -/
theorem integerSpread_fold (rest : List IntegerPoint) :
    ∀ (lo hi : Int) (r : Int × Int),
      rest.foldl
          (fun (mm : Int × Int) (p : IntegerPoint) =>
            (if p.Value < mm.1 then p.Value else mm.1, if p.Value > mm.2 then p.Value else mm.2))
          (lo, hi) = r →
      (r.1 ≤ lo ∧ (r.1 = lo ∨ r.1 ∈ rest.map (·.Value)) ∧ ∀ v ∈ rest.map (·.Value), r.1 ≤ v) ∧
      (hi ≤ r.2 ∧ (r.2 = hi ∨ r.2 ∈ rest.map (·.Value)) ∧ ∀ v ∈ rest.map (·.Value), v ≤ r.2) := by
  induction rest with
  | nil =>
    intro lo hi r h
    simp only [List.foldl_nil] at h
    subst h
    simp
  | cons x t ih =>
    intro lo hi r h
    simp only [List.foldl_cons] at h
    obtain ⟨⟨h1, h2, h3⟩, ⟨h4, h5, h6⟩⟩ := ih _ _ r h
    simp only [List.map_cons, List.mem_cons]
    refine ⟨⟨?_, ?_, ?_⟩, ⟨?_, ?_, ?_⟩⟩
    · split at h1 <;> omega
    · rcases h2 with h2 | h2
      · split at h2
        · right; left; exact h2
        · left; exact h2
      · right; right; exact h2
    · intro v hv
      rcases hv with rfl | hv
      · split at h1 <;> omega
      · exact h3 v hv
    · split at h4 <;> omega
    · rcases h5 with h5 | h5
      · split at h5
        · right; left; exact h5
        · left; exact h5
      · right; right; exact h5
    · intro v hv
      rcases hv with rfl | hv
      · split at h4 <;> omega
      · exact h6 v hv

/-- C19: for every non-empty slice of integer points, `IntegerSpreadReduceSlice` returns
exactly one point, with `Time = opt.StartTime` and with `Value` the difference of the
maximum and the minimum input value in `int64` wraparound arithmetic; whenever the
mathematical difference fits in `int64`, the `Value` equals it and is non-negative. -/
theorem integerSpreadReduceSlice_spec (a : List IntegerPoint) (opt : ReduceOptions)
    (ha : a ≠ []) :
    ∃ mn mx : Int,
      (mn ∈ a.map (·.Value) ∧ ∀ v ∈ a.map (·.Value), mn ≤ v) ∧
      (mx ∈ a.map (·.Value) ∧ ∀ v ∈ a.map (·.Value), v ≤ mx) ∧
      IntegerSpreadReduceSlice a opt =
        some [{ Time := opt.StartTime, Value := wrapInt64 (mx - mn) }] ∧
      (isInt64 (mx - mn) → wrapInt64 (mx - mn) = mx - mn ∧ 0 ≤ wrapInt64 (mx - mn)) := by
  cases a with
  | nil => exact absurd rfl ha
  | cons p rest =>
    obtain ⟨⟨h1, h2, h3⟩, ⟨h4, h5, h6⟩⟩ := integerSpread_fold rest p.Value p.Value _ rfl
    refine ⟨_, _, ⟨?_, ?_⟩, ⟨?_, ?_⟩, rfl, ?_⟩
    · simp only [List.map_cons, List.mem_cons]
      exact h2
    · intro v hv
      simp only [List.map_cons, List.mem_cons] at hv
      rcases hv with rfl | hv
      · exact h1
      · exact h3 v hv
    · simp only [List.map_cons, List.mem_cons]
      exact h5
    · intro v hv
      simp only [List.map_cons, List.mem_cons] at hv
      rcases hv with rfl | hv
      · exact h4
      · exact h6 v hv
    · intro hfit
      rw [wrapInt64_of_isInt64 hfit]
      exact ⟨rfl, by omega⟩

theorem integerSpreadReduceSlice_spec_witness :
    ∃ mn mx : Int,
      (mn ∈ ([{ Time := 1, Value := 4 }, { Time := 2, Value := -3 }, { Time := 3, Value := 9 }] :
          List IntegerPoint).map (·.Value) ∧
        ∀ v ∈ ([{ Time := 1, Value := 4 }, { Time := 2, Value := -3 }, { Time := 3, Value := 9 }] :
          List IntegerPoint).map (·.Value), mn ≤ v) ∧
      (mx ∈ ([{ Time := 1, Value := 4 }, { Time := 2, Value := -3 }, { Time := 3, Value := 9 }] :
          List IntegerPoint).map (·.Value) ∧
        ∀ v ∈ ([{ Time := 1, Value := 4 }, { Time := 2, Value := -3 }, { Time := 3, Value := 9 }] :
          List IntegerPoint).map (·.Value), v ≤ mx) ∧
      IntegerSpreadReduceSlice
          [{ Time := 1, Value := 4 }, { Time := 2, Value := -3 }, { Time := 3, Value := 9 }]
          { StartTime := 0, EndTime := 10 } =
        some [{ Time := 0, Value := wrapInt64 (mx - mn) }] ∧
      (isInt64 (mx - mn) → wrapInt64 (mx - mn) = mx - mn ∧ 0 ≤ wrapInt64 (mx - mn)) :=
  integerSpreadReduceSlice_spec _ { StartTime := 0, EndTime := 10 } (by simp)

/-- C20: `IntegerSpreadReduceSlice` and `FloatSpreadReduceSlice` fail on the empty slice (the
index `a[0]` is out of range) and return a result, one point, on every non-empty slice. -/
theorem spreadReduceSlice_fails_iff_empty (ai : List IntegerPoint) (af : List FloatPoint)
    (opt : ReduceOptions) :
    IntegerSpreadReduceSlice [] opt = none ∧ FloatSpreadReduceSlice [] opt = none ∧
      (ai ≠ [] → ∃ p, IntegerSpreadReduceSlice ai opt = some [p]) ∧
      (af ≠ [] → ∃ p, FloatSpreadReduceSlice af opt = some [p]) := by
  refine ⟨rfl, rfl, ?_, ?_⟩
  · intro h
    cases ai with
    | nil => exact absurd rfl h
    | cons p rest => exact ⟨_, rfl⟩
  · intro h
    cases af with
    | nil => exact absurd rfl h
    | cons p rest => exact ⟨_, rfl⟩

/-! ## percentile -/

/-- The keys of a slice sorted by `sort.Sort` are the sorted keys of the slice, whatever the
sorting function does with elements that compare equal. -/
theorem map_key_of_isSort {α κ : Type} [LinearOrder κ] (less : α → α → Bool) (key : α → κ)
    (hless : ∀ x y, less x y = true ↔ key x < key y) (sortFn : List α → List α)
    (hsort : IsSort less sortFn) (a : List α) :
    (sortFn a).map key = (a.map key).insertionSort (· ≤ ·) := by
  obtain ⟨hperm, hsorted⟩ := hsort a
  apply List.eq_of_perm_of_sorted (r := (· ≤ ·))
  · exact (hperm.map _).trans (List.perm_insertionSort _ _).symm
  · rw [List.Sorted, List.pairwise_map]
    refine hsorted.imp ?_
    intro x y h
    have : ¬ (key y < key x) := by
      intro hlt
      rw [(hless y x).mpr hlt] at h
      exact Bool.noConfusion h
    exact not_lt.mp this
  · exact List.sorted_insertionSort _ _

theorem integerPointsByValueLess_iff (p q : IntegerPoint) :
    integerPointsByValueLess p q = true ↔ p.Value < q.Value := by
  simp [integerPointsByValueLess]

/-- The index of the 50th percentile of an odd number n of points is n / 2. -/
theorem percentileIndex_fifty_of_odd (n : Nat) (hodd : n % 2 = 1) :
    percentileIndex n 50 = ((n / 2 : Nat) : Int) := by
  unfold percentileIndex
  obtain ⟨k, rfl⟩ : ∃ k, n = 2 * k + 1 := ⟨n / 2, by omega⟩
  have h : ((2 * k + 1 : ℕ) : ℚ) * 50 / 100 + 1 / 2 = ((k + 1 : ℤ) : ℚ) := by
    push_cast
    ring
  rw [h, Int.floor_intCast]
  omega

/-- On a slice of odd length the median is the value at the middle of the sorted slice. -/
theorem floatMedianReduceSlice_odd (sortFn : List FloatPoint → List FloatPoint)
    (hsort : IsSort floatPointsByValueLess sortFn) (a : List FloatPoint) (opt : ReduceOptions)
    (hodd : a.length % 2 = 1) :
    FloatMedianReduceSlice sortFn a opt =
      ((sortFn a)[a.length / 2]?).map
        fun p => [({ Time := opt.StartTime, Value := p.Value } : FloatPoint)] := by
  have hlen : (sortFn a).length = a.length := (hsort a).1.length_eq
  unfold FloatMedianReduceSlice
  by_cases h1 : a.length = 1
  · obtain ⟨p, rfl⟩ := List.length_eq_one.mp h1
    have hs : sortFn [p] = [p] := List.perm_singleton.mp (hsort [p]).1
    simp [hs]
  · have hev : ¬ a.length % 2 = 0 := by omega
    simp only [h1, if_false, hlen, hev]

/-- C15: for every float sequence of odd length (values are rationals, so there is no NaN;
the values need not even be distinct), the function returned by
`NewFloatPercentileReduceSliceFunc(50)` and `FloatMedianReduceSlice` return the same single
point on it, so the same `Value`, under the same `ReduceOptions`. Each of the two may use
any sorting function meeting the contract of `sort.Sort`. -/
theorem floatPercentile_fifty_eq_median (sortM sortP : List FloatPoint → List FloatPoint)
    (hM : IsSort floatPointsByValueLess sortM) (hP : IsSort floatPointsByValueLess sortP)
    (a : List FloatPoint) (opt : ReduceOptions) (hodd : a.length % 2 = 1) :
    ∃ v, FloatMedianReduceSlice sortM a opt = some [{ Time := opt.StartTime, Value := v }] ∧
      NewFloatPercentileReduceSliceFunc sortP 50 a opt =
        some [{ Time := opt.StartTime, Value := v }] := by
  have hlenM : (sortM a).length = a.length := (hM a).1.length_eq
  have hlenP : (sortP a).length = a.length := (hP a).1.length_eq
  have hkM : a.length / 2 < (sortM a).length := by omega
  have hkP : a.length / 2 < (sortP a).length := by omega
  have hvals : ((sortM a)[a.length / 2]).Value = ((sortP a)[a.length / 2]).Value := by
    have h1 := map_key_of_isSort floatPointsByValueLess (·.Value) floatPointsByValueLess_iff
      sortM hM a
    have h2 := map_key_of_isSort floatPointsByValueLess (·.Value) floatPointsByValueLess_iff
      sortP hP a
    have h3 : ((sortM a).map (·.Value))[a.length / 2]? =
        ((sortP a).map (·.Value))[a.length / 2]? := by rw [h1, h2]
    rw [List.getElem?_map, List.getElem?_map, List.getElem?_eq_getElem hkM,
      List.getElem?_eq_getElem hkP] at h3
    simpa using h3
  refine ⟨((sortM a)[a.length / 2]).Value, ?_, ?_⟩
  · rw [floatMedianReduceSlice_odd sortM hM a opt hodd, List.getElem?_eq_getElem hkM]
    rfl
  · unfold NewFloatPercentileReduceSliceFunc
    have hidx := percentileIndex_fifty_of_odd a.length hodd
    have hcond : ¬ (((a.length / 2 : Nat) : Int) < 0 ∨
        ((a.length / 2 : Nat) : Int) ≥ (a.length : Int)) := by omega
    simp only [hidx, hcond, if_false, Int.toNat_ofNat, List.getElem?_eq_getElem hkP,
      Option.map_some', hvals]

theorem floatPercentile_fifty_eq_median_witness :
    ∃ v, FloatMedianReduceSlice (sortStable floatPointsByValueLess)
          [{ Time := 1, Value := 7 }, { Time := 2, Value := 1 }, { Time := 3, Value := 4 }]
          { StartTime := 0, EndTime := 10 } = some [{ Time := 0, Value := v }] ∧
      NewFloatPercentileReduceSliceFunc (sortStable floatPointsByValueLess) 50
          [{ Time := 1, Value := 7 }, { Time := 2, Value := 1 }, { Time := 3, Value := 4 }]
          { StartTime := 0, EndTime := 10 } = some [{ Time := 0, Value := v }] :=
  floatPercentile_fifty_eq_median (sortStable floatPointsByValueLess)
    (sortStable floatPointsByValueLess)
    (isSort_sortStable _ (·.Value) floatPointsByValueLess_iff)
    (isSort_sortStable _ (·.Value) floatPointsByValueLess_iff)
    [{ Time := 1, Value := 7 }, { Time := 2, Value := 1 }, { Time := 3, Value := 4 }]
    { StartTime := 0, EndTime := 10 } (by decide)

/-! ## distinct -/

theorem distinctMap_concat (l : List IntegerPoint) (x : IntegerPoint) :
    distinctMap (l ++ [x]) =
      match (distinctMap l).lookup x.Value with
      | some _ => distinctMap l
      | none => distinctMap l ++ [(x.Value, x)] := by
  simp [distinctMap, List.foldl_append]

theorem lookup_eq_none_iff_not_mem_keys (m : List (Int × IntegerPoint)) (v : Int) :
    m.lookup v = none ↔ v ∉ m.map Prod.fst := by
  rw [List.lookup_eq_none_iff]
  constructor
  · intro h hv
    obtain ⟨e, he, hev⟩ := List.mem_map.mp hv
    have := h e he
    rw [hev] at this
    simp at this
  · intro h e he
    have : v ≠ e.1 := fun hv => h (List.mem_map.mpr ⟨e, he, hv.symm⟩)
    simpa using this

/-- The map built by the first loop of `IntegerDistinctReduceSlice`: its keys are the values
of the slice, each once, and the point held for a value is the first point of the slice
with that value. -/
theorem distinctMap_spec (a : List IntegerPoint) :
    ((distinctMap a).map Prod.fst).Nodup ∧
      (∀ v, v ∈ (distinctMap a).map Prod.fst ↔ v ∈ a.map (·.Value)) ∧
      ∀ e ∈ distinctMap a, a.find? (fun q => decide (q.Value = e.1)) = some e.2 := by
  induction a using List.reverseRecOn with
  | nil => simp [distinctMap]
  | append_singleton l x ih =>
    obtain ⟨hnd, hmem, hfirst⟩ := ih
    rw [distinctMap_concat]
    cases hlk : (distinctMap l).lookup x.Value with
    | none =>
      have hx : x.Value ∉ (distinctMap l).map Prod.fst :=
        (lookup_eq_none_iff_not_mem_keys _ _).mp hlk
      have hxl : x.Value ∉ l.map (·.Value) := fun h => hx ((hmem _).mpr h)
      refine ⟨?_, ?_, ?_⟩
      · simp only [List.map_append, List.map_cons, List.map_nil]
        rw [List.nodup_append]
        refine ⟨hnd, List.nodup_singleton _, ?_⟩
        intro v hv hv'
        have : v = x.Value := by simpa using hv'
        rw [this] at hv
        exact hx hv
      · intro v
        simp only [List.map_append, List.map_cons, List.map_nil, List.mem_append,
          List.mem_singleton]
        rw [hmem v]
      · intro e he
        rw [List.find?_append]
        rcases List.mem_append.mp he with he | he
        · rw [hfirst e he]
          rfl
        · have hee : e = (x.Value, x) := by simpa using he
          subst hee
          have hnone : l.find? (fun q => decide (q.Value = x.Value)) = none := by
            rw [List.find?_eq_none]
            intro q hq hqv
            have hqv' : q.Value = x.Value := by simpa using hqv
            exact hxl (List.mem_map.mpr ⟨q, hq, hqv'⟩)
          rw [hnone]
          simp
    | some p =>
      have hx : x.Value ∈ (distinctMap l).map Prod.fst := by
        by_contra hcon
        rw [(lookup_eq_none_iff_not_mem_keys _ _).mpr hcon] at hlk
        exact Option.noConfusion hlk
      refine ⟨hnd, ?_, ?_⟩
      · intro v
        simp only [List.map_append, List.map_cons, List.map_nil, List.mem_append,
          List.mem_singleton]
        rw [hmem v]
        constructor
        · exact Or.inl
        · rintro (h | h)
          · exact h
          · rw [h]
            exact (hmem _).mp hx
      · intro e he
        rw [List.find?_append, hfirst e he]
        rfl

theorem distinctMap_value (a : List IntegerPoint) (e : Int × IntegerPoint)
    (he : e ∈ distinctMap a) : e.2.Value = e.1 := by
  have h := List.find?_some ((distinctMap_spec a).2.2 e he)
  simpa using h

/-- C16: for every slice of integer points, `IntegerDistinctReduceSlice` returns exactly one
point per distinct input value and no other values (no duplicates, nothing lost), and each
returned point has the `Time` of the first input point (in slice order) that carries its
value. This holds for every sorting function meeting the contract of `sort.Sort`, so in
every order the source may return the points in. -/
theorem integerDistinctReduceSlice_spec (sortFn : List IntegerPoint → List IntegerPoint)
    (hsort : IsSort integerPointsLess sortFn) (a : List IntegerPoint) (opt : ReduceOptions) :
    ((IntegerDistinctReduceSlice sortFn a opt).map (·.Value)).Nodup ∧
      (∀ v, v ∈ (IntegerDistinctReduceSlice sortFn a opt).map (·.Value) ↔
        v ∈ a.map (·.Value)) ∧
      ∀ q ∈ IntegerDistinctReduceSlice sortFn a opt,
        ∃ p, a.find? (fun x => decide (x.Value = q.Value)) = some p ∧ q.Time = p.Time := by
  obtain ⟨hnd, hmem, hfirst⟩ := distinctMap_spec a
  have hperm := (hsort ((distinctMap a).map
    fun e => ({ Time := e.2.Time, Value := e.2.Value } : IntegerPoint))).1
  have hkeys : ((distinctMap a).map
      fun e => ({ Time := e.2.Time, Value := e.2.Value } : IntegerPoint)).map (·.Value) =
      (distinctMap a).map Prod.fst := by
    rw [List.map_map]
    apply List.map_congr_left
    intro e he
    exact distinctMap_value a e he
  have hpv := hperm.map (fun p : IntegerPoint => p.Value)
  rw [hkeys] at hpv
  refine ⟨?_, ?_, ?_⟩
  · exact hpv.nodup_iff.mpr hnd
  · intro v
    rw [← hmem v]
    exact hpv.mem_iff
  · intro q hq
    have hq' := hperm.subset hq
    obtain ⟨e, he, rfl⟩ := List.mem_map.mp hq'
    refine ⟨e.2, ?_, rfl⟩
    have := hfirst e he
    rw [← distinctMap_value a e he] at this
    exact this

theorem integerDistinctReduceSlice_spec_witness :
    IsSort integerPointsLess (sortStable integerPointsLess) ∧
      IntegerDistinctReduceSlice (sortStable integerPointsLess)
          [{ Time := 1, Value := 9 }, { Time := 2, Value := 3 }, { Time := 3, Value := 9 }] {} =
        [{ Time := 1, Value := 9 }, { Time := 2, Value := 3 }] ∧
      ((IntegerDistinctReduceSlice (sortStable integerPointsLess)
          [{ Time := 1, Value := 9 }, { Time := 2, Value := 3 }, { Time := 3, Value := 9 }]
          {}).map (·.Value)).Nodup ∧
      (∀ v, v ∈ (IntegerDistinctReduceSlice (sortStable integerPointsLess)
            [{ Time := 1, Value := 9 }, { Time := 2, Value := 3 }, { Time := 3, Value := 9 }]
            {}).map (·.Value) ↔
        v ∈ ([{ Time := 1, Value := 9 }, { Time := 2, Value := 3 }, { Time := 3, Value := 9 }] :
          List IntegerPoint).map (·.Value)) ∧
      ∀ q ∈ IntegerDistinctReduceSlice (sortStable integerPointsLess)
          [{ Time := 1, Value := 9 }, { Time := 2, Value := 3 }, { Time := 3, Value := 9 }] {},
        ∃ p, ([{ Time := 1, Value := 9 }, { Time := 2, Value := 3 }, { Time := 3, Value := 9 }] :
            List IntegerPoint).find? (fun x => decide (x.Value = q.Value)) = some p ∧
          q.Time = p.Time :=
  ⟨isSort_sortStable _ (·.Time) integerPointsLess_iff, by decide,
    integerDistinctReduceSlice_spec (sortStable integerPointsLess)
      (isSort_sortStable _ (·.Time) integerPointsLess_iff)
      [{ Time := 1, Value := 9 }, { Time := 2, Value := 3 }, { Time := 3, Value := 9 }] {}⟩

/-- C17, refuted as stated: on the points (Time 1, Value 9), (Time 2, Value 3)
`IntegerDistinctReduceSlice` returns them in this order, which is not ascending in `Value`. -/
theorem integerDistinctReduceSlice_not_sorted_by_value :
    IntegerDistinctReduceSlice (sortStable integerPointsLess)
        [{ Time := 1, Value := 9 }, { Time := 2, Value := 3 }] {} =
      [{ Time := 1, Value := 9 }, { Time := 2, Value := 3 }] ∧
    ¬ (IntegerDistinctReduceSlice (sortStable integerPointsLess)
        [{ Time := 1, Value := 9 }, { Time := 2, Value := 3 }] {}).Pairwise
      (fun p q => p.Value ≤ q.Value) := by
  decide

/-- C17, amended: for every slice of integer points, the points returned by
`IntegerDistinctReduceSlice` are sorted by `Time` in ascending order, the order of
`integerPoints`. This holds for every sorting function meeting the contract of `sort.Sort`. -/
theorem integerDistinctReduceSlice_sorted_by_time
    (sortFn : List IntegerPoint → List IntegerPoint)
    (hsort : IsSort integerPointsLess sortFn) (a : List IntegerPoint) (opt : ReduceOptions) :
    (IntegerDistinctReduceSlice sortFn a opt).Pairwise (fun p q => p.Time ≤ q.Time) := by
  unfold IntegerDistinctReduceSlice
  refine (hsort _).2.imp ?_
  intro p q h
  have : ¬ (q.Time < p.Time) := by
    intro hlt
    rw [(integerPointsLess_iff q p).mpr hlt] at h
    exact Bool.noConfusion h
  exact not_lt.mp this

theorem integerDistinctReduceSlice_sorted_by_time_witness :
    (IntegerDistinctReduceSlice (sortStable integerPointsLess)
        [{ Time := 5, Value := 1 }, { Time := 2, Value := 3 }, { Time := 7, Value := 1 }]
        {}).Pairwise (fun p q => p.Time ≤ q.Time) :=
  integerDistinctReduceSlice_sorted_by_time (sortStable integerPointsLess)
    (isSort_sortStable _ (·.Time) integerPointsLess_iff)
    [{ Time := 5, Value := 1 }, { Time := 2, Value := 3 }, { Time := 7, Value := 1 }] {}

/-! ## median of integers -/

/-- On a slice of even length whose two middle values differ by an amount that fits in
`int64`, `IntegerMedianReduceSlice` returns the arithmetic mean of the two middle values. -/
theorem integerMedianReduceSlice_even_of_fits
    (sortFn : List IntegerPoint → List IntegerPoint)
    (hsort : IsSort integerPointsByValueLess sortFn) (a : List IntegerPoint)
    (opt : ReduceOptions) (hev : a.length % 2 = 0) (hpos : 2 ≤ a.length) (lo hi : Int)
    (hlo : ((a.map (·.Value)).insertionSort (· ≤ ·))[a.length / 2 - 1]? = some lo)
    (hhi : ((a.map (·.Value)).insertionSort (· ≤ ·))[a.length / 2]? = some hi)
    (hfit : isInt64 (hi - lo)) :
    IntegerMedianReduceSlice sortFn a opt =
      some [{ Time := opt.StartTime, Value := ((lo : ℚ) + (hi : ℚ)) / 2 }] := by
  have hvals := map_key_of_isSort integerPointsByValueLess (·.Value)
    integerPointsByValueLess_iff sortFn hsort a
  have hlen : (sortFn a).length = a.length := (hsort a).1.length_eq
  have h1 : ¬ a.length = 1 := by omega
  have h2 : ¬ a.length / 2 < 1 := by omega
  have hklo : a.length / 2 - 1 < (sortFn a).length := by omega
  have hkhi : a.length / 2 < (sortFn a).length := by omega
  rw [← hvals, List.getElem?_map, List.getElem?_eq_getElem hklo] at hlo
  rw [← hvals, List.getElem?_map, List.getElem?_eq_getElem hkhi] at hhi
  have hlo' : ((sortFn a)[a.length / 2 - 1]).Value = lo := by simpa using hlo
  have hhi' : ((sortFn a)[a.length / 2]).Value = hi := by simpa using hhi
  unfold IntegerMedianReduceSlice
  simp only [h1, if_false, hlen, hev, if_true, h2, List.getElem?_eq_getElem hklo,
    List.getElem?_eq_getElem hkhi, hlo', hhi', wrapInt64_of_isInt64 hfit]
  congr 3
  push_cast
  ring

/-- C18, evaluated at a failing input: on the two points with values -2^63 and 2^63 - 1 the
`int64` subtraction `hi.Value-lo.Value` wraps to -1, and `IntegerMedianReduceSlice` returns
-2^63 - 1/2, whereas the arithmetic mean of the two middle values is -1/2. -/
theorem integerMedianReduceSlice_overflow :
    IntegerMedianReduceSlice (sortStable integerPointsByValueLess)
        [{ Time := 1, Value := -9223372036854775808 },
         { Time := 2, Value := 9223372036854775807 }] { StartTime := 0, EndTime := 10 } =
      some [{ Time := 0, Value := -9223372036854775808 - 1 / 2 }] ∧
    (((-9223372036854775808 : Int) : ℚ) + ((9223372036854775807 : Int) : ℚ)) / 2 = -1 / 2 ∧
    (-9223372036854775808 - 1 / 2 : ℚ) ≠ -1 / 2 := by
  refine ⟨?_, by norm_num, by norm_num⟩
  have hs : sortStable integerPointsByValueLess
      [{ Time := 1, Value := -9223372036854775808 },
       { Time := 2, Value := 9223372036854775807 }] =
      [{ Time := 1, Value := -9223372036854775808 },
       { Time := 2, Value := 9223372036854775807 }] := by decide
  have hw : wrapInt64 18446744073709551615 = -1 := by decide
  unfold IntegerMedianReduceSlice
  simp only [hs, List.length_cons, List.length_nil]
  norm_num [hw]

/-! ## stddev -/

theorem integerStddevMean_concat (l : List IntegerPoint) (x : IntegerPoint) :
    integerStddevMean (l ++ [x]) =
      ((integerStddevMean l).1 +
          ((x.Value : ℚ) - (integerStddevMean l).1) / (((integerStddevMean l).2 + 1 : Int) : ℚ),
        (integerStddevMean l).2 + 1) := by
  simp [integerStddevMean, List.foldl_append]

/-- The incrementally updated mean of the first loop is the arithmetic mean, and the count is
the number of points. -/
theorem integerStddevMean_eq (a : List IntegerPoint) :
    integerStddevMean a = (arithmeticMean a, (a.length : Int)) := by
  induction a using List.reverseRecOn with
  | nil => simp [integerStddevMean, arithmeticMean]
  | append_singleton l x ih =>
    rw [integerStddevMean_concat, ih]
    refine Prod.ext ?_ ?_
    · simp only [arithmeticMean, List.map_append, List.sum_append, List.map_cons, List.map_nil,
        List.sum_cons, List.sum_nil, add_zero, List.length_append, List.length_singleton]
      push_cast
      by_cases hl : l = []
      · subst hl
        simp
      · have hlen : (l.length : ℚ) ≠ 0 := by
          have : l.length ≠ 0 := fun h => hl (List.length_eq_zero.mp h)
          exact_mod_cast this
        have hlen1 : (l.length : ℚ) + 1 ≠ 0 := by positivity
        field_simp
        ring
    · simp

theorem integerStddevVariance_fold (mean : ℚ) (l : List IntegerPoint) :
    ∀ acc : ℚ,
      l.foldl (fun (variance : ℚ) (p : IntegerPoint) => variance + ((p.Value : ℚ) - mean) ^ 2)
          acc =
        acc + (l.map (fun p => ((p.Value : ℚ) - mean) ^ 2)).sum := by
  induction l with
  | nil => intro acc; simp
  | cons x t ih =>
    intro acc
    simp only [List.foldl_cons, List.map_cons, List.sum_cons]
    rw [ih]
    ring

theorem integerStddevVariance_eq (mean : ℚ) (a : List IntegerPoint) :
    integerStddevVariance mean a = (a.map (fun p => ((p.Value : ℚ) - mean) ^ 2)).sum := by
  unfold integerStddevVariance
  rw [integerStddevVariance_fold]
  ring

/-- C11: for every slice of n >= 2 integer points with values x_1..x_n,
`IntegerStddevReduceSlice` returns exactly one non-Nil point, with `Time = opt.StartTime` and
with `Value` the sample standard deviation sqrt(sum (x_i - m)^2 / (n - 1)), m being the
arithmetic mean of the x_i; in particular the incrementally updated mean computed by the
first loop equals the arithmetic mean. The arithmetic is exact and `sqrt` stands for
`math.Sqrt`. -/
theorem integerStddevReduceSlice_spec (sqrt : ℚ → ℚ) (a : List IntegerPoint)
    (opt : ReduceOptions) (hlen : 2 ≤ a.length) :
    (integerStddevMean a).1 = arithmeticMean a ∧
      IntegerStddevReduceSlice sqrt a opt =
        [{ Time := opt.StartTime,
           Value := sqrt (sampleVariance (a.map (fun p => (p.Value : ℚ)))),
           Nil := false }] := by
  refine ⟨by rw [integerStddevMean_eq], ?_⟩
  have h2 : ¬ a.length < 2 := by omega
  unfold IntegerStddevReduceSlice
  simp only [h2, if_false, integerStddevMean_eq, integerStddevVariance_eq]
  congr 3
  unfold sampleVariance arithmeticMean
  rw [List.map_map, List.length_map]
  push_cast
  rfl

theorem integerStddevReduceSlice_spec_witness :
    ((integerStddevMean
        [{ Value := 2 }, { Value := 4 }, { Value := 4 }, { Value := 4 }, { Value := 5 },
         { Value := 5 }, { Value := 7 }, { Value := 9 }]).1 =
        arithmeticMean
          [{ Value := 2 }, { Value := 4 }, { Value := 4 }, { Value := 4 }, { Value := 5 },
           { Value := 5 }, { Value := 7 }, { Value := 9 }] ∧
      IntegerStddevReduceSlice sqrtNineDecimals
          [{ Value := 2 }, { Value := 4 }, { Value := 4 }, { Value := 4 }, { Value := 5 },
           { Value := 5 }, { Value := 7 }, { Value := 9 }] { StartTime := 0, EndTime := 10 } =
        [{ Time := 0,
           Value := sqrtNineDecimals (sampleVariance
             (([{ Value := 2 }, { Value := 4 }, { Value := 4 }, { Value := 4 }, { Value := 5 },
                { Value := 5 }, { Value := 7 }, { Value := 9 }] : List IntegerPoint).map
               (fun p => (p.Value : ℚ)))),
           Nil := false }]) ∧
    sampleVariance [2, 4, 4, 4, 5, 5, 7, 9] = 32 / 7 ∧
    sqrtNineDecimals (32 / 7) = 2138089935 / 1000000000 ∧
    ((2138089935 / 1000000000 : ℚ) ^ 2 ≤ 32 / 7 ∧
      (32 / 7 : ℚ) < (2138089936 / 1000000000) ^ 2) :=
  ⟨integerStddevReduceSlice_spec sqrtNineDecimals
      [{ Value := 2 }, { Value := 4 }, { Value := 4 }, { Value := 4 }, { Value := 5 },
       { Value := 5 }, { Value := 7 }, { Value := 9 }] { StartTime := 0, EndTime := 10 }
      (by decide),
    by norm_num [sampleVariance],
    by
      have hq : ((32 / 7 : ℚ).num.toNat * 10 ^ 18 / (32 / 7 : ℚ).den) =
          4571428571428571428 := by
        have hnum : (32 / 7 : ℚ).num = 32 := by norm_num
        have hden : (32 / 7 : ℚ).den = 7 := by norm_num
        have ht : Int.toNat 32 = 32 := rfl
        rw [hnum, hden, ht]
        norm_num
      have hs : Nat.sqrt 4571428571428571428 = 2138089935 :=
        (Nat.eq_sqrt.mpr ⟨by norm_num, by norm_num⟩).symm
      unfold sqrtNineDecimals
      rw [hq, hs]
      norm_num,
    by norm_num⟩

/-- The `Nil` flag of the point `FloatStddevReduceSlice` returns depends on the length of the
slice alone: it is set exactly for slices of fewer than two points, NaN or not. -/
theorem floatStddevReduceSlice_nil (sqrt : ℚ → ℚ) (a : List Float64Point)
    (opt : ReduceOptions) :
    (a.length < 2 →
      FloatStddevReduceSlice sqrt a opt = [{ Time := opt.StartTime, Nil := true }]) ∧
    (2 ≤ a.length →
      ∃ v, FloatStddevReduceSlice sqrt a opt =
        [{ Time := opt.StartTime, Value := v, Nil := false }]) := by
  constructor
  · intro h
    unfold FloatStddevReduceSlice
    simp only [h, if_true]
  · intro h
    have h2 : ¬ a.length < 2 := by omega
    unfold FloatStddevReduceSlice
    simp only [h2, if_false]
    exact ⟨_, rfl⟩

/-- C12, evaluated at a failing input: the slice (NaN, 5) has one non-NaN value, fewer than
two, yet `FloatStddevReduceSlice` returns a point without `Nil`; its divisor
`float64(count-1)` is zero and the value is the NaN of 0/0. -/
theorem floatStddevReduceSlice_nan_not_nil (sqrt : ℚ → ℚ) :
    countNotNaN [{ Time := 1, Value := .nan }, { Time := 2, Value := .num 5 }] = 1 ∧
      (floatStddevMean [{ Time := 1, Value := .nan }, { Time := 2, Value := .num 5 }]).2 - 1 =
        0 ∧
      FloatStddevReduceSlice sqrt
          [{ Time := 1, Value := .nan }, { Time := 2, Value := .num 5 }]
          { StartTime := 0, EndTime := 10 } =
        [{ Time := 0, Value := .nan, Nil := false }] := by
  refine ⟨by decide, ?_, ?_⟩
  · simp [floatStddevMean, Float64.isNaN]
  · simp [FloatStddevReduceSlice, floatStddevMean, floatStddevVariance, Float64.isNaN,
      Float64.add, Float64.sub, Float64.neg, Float64.div, Float64.sq, Float64.sqrt]

theorem spreadReduceSlice_fails_iff_empty_witness :
    IntegerSpreadReduceSlice [] {} = none ∧ FloatSpreadReduceSlice [] {} = none ∧
      (∃ p, IntegerSpreadReduceSlice [{ Time := 1, Value := 4 }, { Time := 2, Value := 9 }] {} =
        some [p]) ∧
      (∃ p, FloatSpreadReduceSlice [{ Time := 1, Value := 4 }, { Time := 2, Value := 9 }] {} =
        some [p]) :=
  have h := spreadReduceSlice_fails_iff_empty
    [{ Time := 1, Value := 4 }, { Time := 2, Value := 9 }]
    [{ Time := 1, Value := 4 }, { Time := 2, Value := 9 }] {}
  ⟨h.1, h.2.1, h.2.2.1 (by simp), h.2.2.2 (by simp)⟩

/-! ## bottom -/

/-- Points popped in the order of a key, each before all that remain, are the first of the
sorted keys. -/
theorem map_eq_take_insertionSort {α β : Type} [LinearOrder β] (f : α → β)
    (a ps rest : List α) (hperm : (ps ++ rest).Perm a)
    (hsorted : ps.Pairwise (fun x y => f x ≤ f y))
    (hcross : ∀ x ∈ ps, ∀ y ∈ rest, f x ≤ f y) :
    ps.map f = ((a.map f).insertionSort (· ≤ ·)).take ps.length := by
  have hs : (ps.map f ++ (rest.map f).insertionSort (· ≤ ·)).Sorted (· ≤ ·) := by
    rw [List.Sorted, List.pairwise_append]
    refine ⟨?_, List.sorted_insertionSort _ _, ?_⟩
    · rw [List.pairwise_map]
      exact hsorted
    · intro x hx y hy
      obtain ⟨p, hp, rfl⟩ := List.mem_map.mp hx
      have hy' : y ∈ rest.map f := (List.perm_insertionSort _ _).subset hy
      obtain ⟨q, hq, rfl⟩ := List.mem_map.mp hy'
      exact hcross p hp q hq
  have hp : (ps.map f ++ (rest.map f).insertionSort (· ≤ ·)).Perm
      ((a.map f).insertionSort (· ≤ ·)) := by
    refine (List.Perm.append_left _ (List.perm_insertionSort _ _)).trans ?_
    rw [← List.map_append]
    exact (hperm.map _).trans (List.perm_insertionSort _ _).symm
  have heq := List.eq_of_perm_of_sorted hp hs (List.sorted_insertionSort _ _)
  rw [← heq]
  exact (List.take_left' (by simp)).symm

theorem bottomLess_iff (x y : IntegerPoint) :
    bottomLess x y = true ↔ bottomKey x < bottomKey y := by
  unfold bottomLess bottomKey
  rw [Prod.Lex.lt_iff]
  by_cases hv : x.Value = y.Value
  · simp [hv]
  · simp only [ne_eq, hv, not_false_eq_true, if_true, decide_eq_true_eq]
    constructor
    · intro h
      exact Or.inl h
    · rintro (h | ⟨h, _⟩)
      · exact h
      · exact h.elim

theorem value_le_of_bottomKey_le (x y : IntegerPoint) (h : bottomKey x ≤ bottomKey y) :
    x.Value ≤ y.Value := by
  unfold bottomKey at h
  rw [Prod.Lex.le_iff] at h
  rcases h with h | ⟨h, _⟩
  · exact le_of_lt h
  · exact le_of_eq h

/-- C21: for `tags = nil`, a non-zero interval, every n >= 0 and every slice `a` of integer
points, the function returned by `NewIntegerBottomReduceSliceFunc` returns min(n, len a)
points whose `Value`s are the min(n, len a) smallest values of `a` listed in non-decreasing
order, and every returned point has `Time = opt.StartTime`. -/
theorem newIntegerBottomReduceSliceFunc_nonzero_interval (n : Int) (interval : Interval)
    (a : List IntegerPoint) (opt : ReduceOptions) (hn : 0 ≤ n)
    (hnz : interval.IsZero = false) :
    ∃ out, NewIntegerBottomReduceSliceFunc n none interval a opt = some out ∧
      out.length = min n.toNat a.length ∧
      out.map (·.Value) =
        ((a.map (·.Value)).insertionSort (· ≤ ·)).take (min n.toNat a.length) ∧
      ∀ p ∈ out, p.Time = opt.StartTime := by
  obtain ⟨h0, hinit, hperm0, hheap0⟩ := heapInit_spec bottomLess bottomKey bottomLess_iff {} a
  have hlen0 : h0.length = a.length := hperm0.length_eq
  have hsize : (if n > (a.length : Int) then (a.length : Int) else n).toNat =
      min n.toNat a.length := by
    by_cases hgt : n > (a.length : Int)
    · simp only [hgt, if_true, Int.toNat_ofNat]
      omega
    · simp only [hgt, if_false]
      omega
  have hsize0 : ¬ (if n > (a.length : Int) then (a.length : Int) else n) < 0 := by
    by_cases hgt : n > (a.length : Int)
    · simp only [hgt, if_true]
      omega
    · simp only [hgt, if_false]
      omega
  obtain ⟨ps, rest, hpop, hlen, hperm, hsorted, hcross⟩ :=
    heapPopN_spec bottomLess bottomKey bottomLess_iff {} (min n.toNat a.length) h0 []
      (by rw [hlen0]; exact min_le_right _ _) hheap0
  refine ⟨ps.map (fun (p : IntegerPoint) => { p with Time := opt.StartTime }), ?_, ?_, ?_, ?_⟩
  · unfold NewIntegerBottomReduceSliceFunc
    simp only [Option.some_bind, hinit, hsize0, if_false, hsize, hpop, List.nil_append,
      Option.map_some', hnz, Bool.not_false, if_true]
  · rw [List.length_map, hlen]
  · rw [List.map_map]
    have hvals := map_eq_take_insertionSort (fun p : IntegerPoint => p.Value) a ps rest
      (hperm.trans hperm0)
      (hsorted.imp (fun {x y} h => value_le_of_bottomKey_le x y h))
      (fun x hx y hy => value_le_of_bottomKey_le x y (hcross x hx y hy))
    rw [hlen] at hvals
    rw [← hvals]
    rfl
  · intro p hp
    obtain ⟨q, _, rfl⟩ := List.mem_map.mp hp
    rfl

theorem newIntegerBottomReduceSliceFunc_nonzero_interval_witness :
    NewIntegerBottomReduceSliceFunc 2 none { Duration := 10 }
        [{ Time := 0, Value := 5 }, { Time := 10, Value := 1 }, { Time := 20, Value := 9 },
         { Time := 30, Value := 3 }] { StartTime := 0, EndTime := 40 } =
      some [{ Time := 0, Value := 1 }, { Time := 0, Value := 3 }] ∧
    ∃ out, NewIntegerBottomReduceSliceFunc 2 none { Duration := 10 }
        [{ Time := 0, Value := 5 }, { Time := 10, Value := 1 }, { Time := 20, Value := 9 },
         { Time := 30, Value := 3 }] { StartTime := 0, EndTime := 40 } = some out ∧
      out.length = min (2 : Int).toNat
        ([{ Time := 0, Value := 5 }, { Time := 10, Value := 1 }, { Time := 20, Value := 9 },
          { Time := 30, Value := 3 }] : List IntegerPoint).length ∧
      out.map (·.Value) =
        ((([{ Time := 0, Value := 5 }, { Time := 10, Value := 1 }, { Time := 20, Value := 9 },
            { Time := 30, Value := 3 }] : List IntegerPoint).map (·.Value)).insertionSort
          (· ≤ ·)).take
          (min (2 : Int).toNat
            ([{ Time := 0, Value := 5 }, { Time := 10, Value := 1 },
              { Time := 20, Value := 9 }, { Time := 30, Value := 3 }] :
              List IntegerPoint).length) ∧
      ∀ p ∈ out, p.Time = 0 :=
  ⟨by decide,
    newIntegerBottomReduceSliceFunc_nonzero_interval 2 { Duration := 10 } _
      { StartTime := 0, EndTime := 40 } (by decide) (by decide)⟩

/-! ## top, applied again and with ties -/

/-- One run of the top reducer with `tags = nil`: the points popped from the heap, and the
result made from them. -/
theorem newIntegerTopReduceSliceFunc_run (n : Int) (interval : Interval)
    (a : List IntegerPoint) (opt : ReduceOptions) (hn : 0 ≤ n) :
    ∃ ps rest, topPopped (min n.toNat a.length) a = some ps ∧
      ps.length = min n.toNat a.length ∧ (ps ++ rest).Perm a ∧
      ps.Pairwise (fun x y => topKey x ≤ topKey y) ∧
      (∀ x ∈ ps, ∀ y ∈ rest, topKey x ≤ topKey y) ∧
      NewIntegerTopReduceSliceFunc n none interval a opt =
        some (if !interval.IsZero then
            ps.map (fun (p : IntegerPoint) => { p with Time := opt.StartTime })
          else sortStable integerPointsLess ps) := by
  obtain ⟨h0, hinit, hperm0, hheap0⟩ := heapInit_spec topLess topKey topLess_iff {} a
  have hlen0 : h0.length = a.length := hperm0.length_eq
  have hsize : (if n > (a.length : Int) then (a.length : Int) else n).toNat =
      min n.toNat a.length := by
    by_cases hgt : n > (a.length : Int)
    · simp only [hgt, if_true, Int.toNat_ofNat]
      omega
    · simp only [hgt, if_false]
      omega
  have hsize0 : ¬ (if n > (a.length : Int) then (a.length : Int) else n) < 0 := by
    by_cases hgt : n > (a.length : Int)
    · simp only [hgt, if_true]
      omega
    · simp only [hgt, if_false]
      omega
  obtain ⟨ps, rest, hpop, hlen, hperm, hsorted, hcross⟩ :=
    heapPopN_spec topLess topKey topLess_iff {} (min n.toNat a.length) h0 []
      (by rw [hlen0]; exact min_le_right _ _) hheap0
  refine ⟨ps, rest, ?_, hlen, hperm.trans hperm0, hsorted, hcross, ?_⟩
  · unfold topPopped
    simp only [hinit, Option.some_bind, hpop, List.nil_append]
  · unfold NewIntegerTopReduceSliceFunc
    simp only [Option.some_bind, hinit, hsize0, if_false, hsize, hpop, List.nil_append,
      Option.map_some']

/-- C23: for `tags = nil` and a zero interval, the points of the output of the top reducer
that share a `Time` are, in the same order, the points with that `Time` among the points
popped from the heap; so among output points sharing a timestamp one with a greater `Value`
never comes after one with a smaller `Value`. -/
theorem newIntegerTopReduceSliceFunc_stable (n : Int) (interval : Interval)
    (a : List IntegerPoint) (opt : ReduceOptions) (hn : 0 ≤ n)
    (hzero : interval.IsZero = true) :
    ∃ ps out, topPopped (min n.toNat a.length) a = some ps ∧
      NewIntegerTopReduceSliceFunc n none interval a opt = some out ∧
      (∀ t : Int, out.filter (fun p => decide (p.Time = t)) =
        ps.filter (fun p => decide (p.Time = t))) ∧
      out.Pairwise (fun p q => p.Time = q.Time → q.Value ≤ p.Value) := by
  obtain ⟨ps, rest, hpopped, _, _, hsorted, _, hres⟩ :=
    newIntegerTopReduceSliceFunc_run n interval a opt hn
  simp only [hzero, Bool.not_true, Bool.false_eq_true, if_false] at hres
  have hperm : (sortStable integerPointsLess ps).Perm ps := List.perm_insertionSort _ _
  have hfilter : ∀ t : Int,
      (sortStable integerPointsLess ps).filter (fun p => decide (p.Time = t)) =
        ps.filter (fun p => decide (p.Time = t)) := by
    intro t
    have hsub : List.Sublist (ps.filter (fun p => decide (p.Time = t)))
        (sortStable integerPointsLess ps) := by
      apply List.sublist_insertionSort
      · rw [List.pairwise_filter]
        refine List.pairwise_of_forall ?_
        intro x y hx hy
        have : ¬ (y.Time < x.Time) := by omega
        simpa [integerPointsLess] using this
      · exact List.filter_sublist ps
    have hsub' := hsub.filter (fun p => decide (p.Time = t))
    rw [List.filter_filter] at hsub'
    simp only [Bool.and_self] at hsub'
    exact (hsub'.eq_of_length ((hperm.filter _).length_eq).symm).symm
  refine ⟨ps, sortStable integerPointsLess ps, hpopped, hres, hfilter, ?_⟩
  rw [List.pairwise_iff_forall_sublist]
  intro p q hpq ht
  have h1 := hpq.filter (fun x => decide (x.Time = p.Time))
  rw [hfilter p.Time] at h1
  have h2 : [p, q].filter (fun x => decide (x.Time = p.Time)) = [p, q] := by
    simp [ht.symm]
  rw [h2] at h1
  have h3 : List.Sublist [p, q] ps := h1.trans (List.filter_sublist ps)
  have h4 := List.pairwise_iff_forall_sublist.mp hsorted h3
  have h5 := (topKey_le_iff p q).mp h4
  unfold topOrder IntegerPoint.timeValue at h5
  simp only at h5
  omega

theorem newIntegerTopReduceSliceFunc_stable_witness :
    NewIntegerTopReduceSliceFunc 3 none {}
        [{ Time := 7, Value := 5 }, { Time := 2, Value := 4 }, { Time := 7, Value := 8 }] {} =
      some [{ Time := 2, Value := 4 }, { Time := 7, Value := 8 }, { Time := 7, Value := 5 }] ∧
    ∃ ps out,
      topPopped
          (min (3 : Int).toNat
            ([{ Time := 7, Value := 5 }, { Time := 2, Value := 4 }, { Time := 7, Value := 8 }] :
              List IntegerPoint).length)
          [{ Time := 7, Value := 5 }, { Time := 2, Value := 4 }, { Time := 7, Value := 8 }] =
        some ps ∧
      NewIntegerTopReduceSliceFunc 3 none {}
          [{ Time := 7, Value := 5 }, { Time := 2, Value := 4 }, { Time := 7, Value := 8 }] {} =
        some out ∧
      (∀ t : Int, out.filter (fun p => decide (p.Time = t)) =
        ps.filter (fun p => decide (p.Time = t))) ∧
      out.Pairwise (fun p q => p.Time = q.Time → q.Value ≤ p.Value) :=
  ⟨by decide,
    newIntegerTopReduceSliceFunc_stable 3 {}
      [{ Time := 7, Value := 5 }, { Time := 2, Value := 4 }, { Time := 7, Value := 8 }] {}
      (by decide) (by decide)⟩

theorem sorted_map_timeValue (ps : List IntegerPoint)
    (hsorted : ps.Pairwise (fun x y => topKey x ≤ topKey y)) :
    (ps.map IntegerPoint.timeValue).Sorted topOrder := by
  rw [List.Sorted, List.pairwise_map]
  exact hsorted.imp (fun h => (topKey_le_iff _ _).mp h)

/-- Sorting points by time acts on their `(Time, Value)` pairs alone. -/
theorem map_timeValue_sortStable (l : List IntegerPoint) :
    (sortStable integerPointsLess l).map IntegerPoint.timeValue =
      (l.map IntegerPoint.timeValue).insertionSort (fun x y : Int × Int => x.1 ≤ y.1) := by
  unfold sortStable
  apply List.map_insertionSort
  intro x _ y _
  simp [integerPointsLess, IntegerPoint.timeValue]

/-- C22: for `tags = nil`, every n >= 0, every interval setting and every slice `a` of
integer points, the function returned by `NewIntegerTopReduceSliceFunc(n, nil, interval)`
returns a result on `a` and on that result (with the same `ReduceOptions`), and the second
result has the same sequence of `(Time, Value)` pairs as the first. -/
theorem newIntegerTopReduceSliceFunc_idempotent (n : Int) (interval : Interval)
    (a : List IntegerPoint) (opt : ReduceOptions) (hn : 0 ≤ n) :
    ∃ out1 out2, NewIntegerTopReduceSliceFunc n none interval a opt = some out1 ∧
      NewIntegerTopReduceSliceFunc n none interval out1 opt = some out2 ∧
      out2.map IntegerPoint.timeValue = out1.map IntegerPoint.timeValue := by
  haveI := topOrder_isAntisymm
  obtain ⟨ps1, rest1, _, hlen1, _, hsorted1, _, hres1⟩ :=
    newIntegerTopReduceSliceFunc_run n interval a opt hn
  by_cases hz : interval.IsZero = true
  · -- the popped points are sorted by time
    simp only [hz, Bool.not_true, Bool.false_eq_true, if_false] at hres1
    obtain ⟨ps2, rest2, _, hlen2, hperm2, hsorted2, _, hres2⟩ :=
      newIntegerTopReduceSliceFunc_run n interval (sortStable integerPointsLess ps1) opt hn
    simp only [hz, Bool.not_true, Bool.false_eq_true, if_false] at hres2
    have hp1 : (sortStable integerPointsLess ps1).Perm ps1 := List.perm_insertionSort _ _
    have hrest : rest2 = [] := by
      have h := hperm2.length_eq
      rw [List.length_append, hlen2, hp1.length_eq, hlen1] at h
      apply List.length_eq_zero.mp
      omega
    rw [hrest, List.append_nil] at hperm2
    have heq : ps2.map IntegerPoint.timeValue = ps1.map IntegerPoint.timeValue :=
      List.eq_of_perm_of_sorted ((hperm2.trans hp1).map _) (sorted_map_timeValue ps2 hsorted2)
        (sorted_map_timeValue ps1 hsorted1)
    refine ⟨_, _, hres1, hres2, ?_⟩
    rw [map_timeValue_sortStable, map_timeValue_sortStable, heq]
  · -- the popped points are stamped with the window start
    have hz' : interval.IsZero = false := by simpa using hz
    simp only [hz', Bool.not_false, if_true] at hres1
    obtain ⟨ps2, rest2, _, hlen2, hperm2, hsorted2, _, hres2⟩ :=
      newIntegerTopReduceSliceFunc_run n interval
        (ps1.map (fun (p : IntegerPoint) => { p with Time := opt.StartTime })) opt hn
    simp only [hz', Bool.not_false, if_true] at hres2
    have hrest : rest2 = [] := by
      have h := hperm2.length_eq
      rw [List.length_append, hlen2, List.length_map, hlen1] at h
      apply List.length_eq_zero.mp
      omega
    rw [hrest, List.append_nil] at hperm2
    have hs1 : ((ps1.map (fun (p : IntegerPoint) => { p with Time := opt.StartTime })).map
        IntegerPoint.timeValue).Sorted topOrder := by
      rw [List.Sorted, List.map_map, List.pairwise_map]
      refine hsorted1.imp ?_
      intro x y h
      have h' := (topKey_le_iff x y).mp h
      unfold topOrder IntegerPoint.timeValue at h' ⊢
      simp only [Function.comp] at h' ⊢
      omega
    have heq : ps2.map IntegerPoint.timeValue =
        (ps1.map (fun (p : IntegerPoint) => { p with Time := opt.StartTime })).map
          IntegerPoint.timeValue :=
      List.eq_of_perm_of_sorted (hperm2.map _) (sorted_map_timeValue ps2 hsorted2) hs1
    refine ⟨_, _, hres1, hres2, ?_⟩
    have hstamp : ∀ l : List IntegerPoint,
        (l.map (fun (p : IntegerPoint) => { p with Time := opt.StartTime })).map
          IntegerPoint.timeValue =
        (l.map IntegerPoint.timeValue).map (fun x => (opt.StartTime, x.2)) := by
      intro l
      rw [List.map_map, List.map_map]
      rfl
    rw [hstamp ps2, heq, hstamp ps1, List.map_map]
    rfl

theorem newIntegerTopReduceSliceFunc_idempotent_witness :
    ∃ out1 out2,
      NewIntegerTopReduceSliceFunc 2 none { Duration := 10 }
          [{ Time := 3, Value := 5 }, { Time := 4, Value := 9 }, { Time := 5, Value := 1 }]
          { StartTime := 0, EndTime := 10 } = some out1 ∧
      NewIntegerTopReduceSliceFunc 2 none { Duration := 10 } out1
          { StartTime := 0, EndTime := 10 } = some out2 ∧
      out2.map IntegerPoint.timeValue = out1.map IntegerPoint.timeValue :=
  newIntegerTopReduceSliceFunc_idempotent 2 { Duration := 10 }
    [{ Time := 3, Value := 5 }, { Time := 4, Value := 9 }, { Time := 5, Value := 1 }]
    { StartTime := 0, EndTime := 10 } (by decide)

/-! ## Association lists standing for Go maps -/

theorem assoc_lookup_none_iff {κ β : Type} [DecidableEq κ] (m : List (κ × β)) (k : κ) :
    m.lookup k = none ↔ k ∉ m.map Prod.fst := by
  rw [List.lookup_eq_none_iff]
  constructor
  · intro h hk
    obtain ⟨e, he, hek⟩ := List.mem_map.mp hk
    have := h e he
    rw [hek] at this
    simp at this
  · intro h e he
    have : k ≠ e.1 := fun hk => h (List.mem_map.mpr ⟨e, he, hk.symm⟩)
    simpa using this

theorem assoc_mem_of_lookup {κ β : Type} [DecidableEq κ] (m : List (κ × β)) (k : κ) (v : β)
    (h : m.lookup k = some v) : (k, v) ∈ m := by
  obtain ⟨l₁, l₂, rfl, _⟩ := List.lookup_eq_some_iff.mp h
  simp

theorem assoc_eq_of_nodup {κ β : Type} (m : List (κ × β)) (hnd : (m.map Prod.fst).Nodup)
    (e e' : κ × β) (he : e ∈ m) (he' : e' ∈ m) (hk : e.1 = e'.1) : e = e' :=
  List.inj_on_of_nodup_map hnd he he' hk

theorem assoc_replace_keys {κ β : Type} [DecidableEq κ] (m : List (κ × β)) (k : κ) (v : β) :
    (m.map (fun e => if e.1 = k then (k, v) else e)).map Prod.fst = m.map Prod.fst := by
  rw [List.map_map]
  apply List.map_congr_left
  intro e _
  by_cases h : e.1 = k
  · simp [h]
  · simp [h]

theorem assoc_mem_replace {κ β : Type} [DecidableEq κ] (m : List (κ × β)) (k : κ) (v : β)
    (e' : κ × β) :
    e' ∈ m.map (fun e => if e.1 = k then (k, v) else e) ↔
      (e' = (k, v) ∧ k ∈ m.map Prod.fst) ∨ (e' ∈ m ∧ e'.1 ≠ k) := by
  rw [List.mem_map]
  constructor
  · rintro ⟨e, he, rfl⟩
    by_cases h : e.1 = k
    · left
      simp only [h, if_true, true_and]
      exact List.mem_map.mpr ⟨e, he, h⟩
    · right
      simp only [h, if_false]
      exact ⟨he, h⟩
  · rintro (⟨rfl, hk⟩ | ⟨he, hne⟩)
    · obtain ⟨e, he, hek⟩ := List.mem_map.mp hk
      exact ⟨e, he, by simp [hek]⟩
    · exact ⟨e', he, by simp [hne]⟩

/-! ## filterIntegerByUniqueTags -/

theorem filterIntegerByUniqueTags_eq (a : List IntegerPoint) (tags : List Int)
    (cmpFunc : IntegerPoint → IntegerPoint → Bool) :
    filterIntegerByUniqueTags a tags cmpFunc =
      (a.foldlM (filterIntegerStep tags cmpFunc) []).map
        (fun pointMap => pointMap.map Prod.snd) := rfl

/-- The map built by `filterIntegerByUniqueTags` when every point has a key: its keys are
distinct, each entry holds a point of the slice under that point's key, and for every point
of the slice the entry of its key holds a point that the point does not beat. -/
theorem filterIntegerStep_fold (tags : List Int) (cmpFunc : IntegerPoint → IntegerPoint → Bool)
    (hirr : ∀ p, cmpFunc p p = false)
    (htrans : ∀ q cur p, cmpFunc cur q = false → cmpFunc cur p = true → cmpFunc p q = false)
    (a : List IntegerPoint) (hkeys : ∀ p ∈ a, (uniqueTagsKey tags p).isSome = true) :
    ∃ m, a.foldlM (filterIntegerStep tags cmpFunc) [] = some m ∧
      (m.map Prod.fst).Nodup ∧
      (∀ e ∈ m, e.2 ∈ a ∧ uniqueTagsKey tags e.2 = some e.1) ∧
      ∀ p ∈ a, ∀ k, uniqueTagsKey tags p = some k →
        ∃ e ∈ m, e.1 = k ∧ cmpFunc e.2 p = false := by
  induction a using List.reverseRecOn with
  | nil => exact ⟨[], rfl, by simp, by simp, by simp⟩
  | append_singleton l x ih =>
    obtain ⟨m, hm, hnd, hent, hbest⟩ := ih (fun p hp => hkeys p (by simp [hp]))
    obtain ⟨k, hk⟩ := Option.isSome_iff_exists.mp (hkeys x (by simp))
    rw [List.foldlM_append, hm]
    simp only [Option.bind_eq_bind, Option.some_bind, List.foldlM_cons, List.foldlM_nil,
      filterIntegerStep, hk, Option.map_some', Option.pure_def, Option.bind_some]
    cases hlk : m.lookup k with
    | none =>
      have hknot : k ∉ m.map Prod.fst := (assoc_lookup_none_iff m k).mp hlk
      refine ⟨_, rfl, ?_, ?_, ?_⟩
      · rw [List.map_append, List.nodup_append]
        refine ⟨hnd, by simp, ?_⟩
        intro v hv hv'
        have : v = k := by simpa using hv'
        exact hknot (this ▸ hv)
      · intro e he
        rcases List.mem_append.mp he with he | he
        · exact ⟨List.mem_append_left _ (hent e he).1, (hent e he).2⟩
        · have hee : e = (k, x) := by simpa using he
          subst hee
          exact ⟨by simp, hk⟩
      · intro p hp kp hkp
        rcases List.mem_append.mp hp with hp | hp
        · obtain ⟨e, he, hek, hcmp⟩ := hbest p hp kp hkp
          exact ⟨e, List.mem_append_left _ he, hek, hcmp⟩
        · have hpx : p = x := by simpa using hp
          subst hpx
          have hkk : kp = k := by
            rw [hk] at hkp
            exact (Option.some.inj hkp).symm
          exact ⟨(k, p), by simp, hkk.symm, hirr p⟩
    | some cur =>
      have hcur : (k, cur) ∈ m := assoc_mem_of_lookup m k cur hlk
      have hkin : k ∈ m.map Prod.fst := List.mem_map.mpr ⟨(k, cur), hcur, rfl⟩
      by_cases hc : cmpFunc cur x = true
      · simp only [hc, if_true]
        refine ⟨_, rfl, ?_, ?_, ?_⟩
        · rw [assoc_replace_keys]
          exact hnd
        · intro e he
          rcases (assoc_mem_replace m k x e).mp he with ⟨rfl, _⟩ | ⟨he, _⟩
          · exact ⟨by simp, hk⟩
          · exact ⟨List.mem_append_left _ (hent e he).1, (hent e he).2⟩
        · intro p hp kp hkp
          rcases List.mem_append.mp hp with hp | hp
          · obtain ⟨e, he, hek, hcmp⟩ := hbest p hp kp hkp
            by_cases hkk : kp = k
            · have hecur : e = (k, cur) :=
                assoc_eq_of_nodup m hnd e (k, cur) he hcur (hek.trans hkk)
              subst hecur
              refine ⟨(k, x), (assoc_mem_replace m k x _).mpr (Or.inl ⟨rfl, hkin⟩), hkk.symm, ?_⟩
              exact htrans p cur x hcmp hc
            · refine ⟨e, (assoc_mem_replace m k x e).mpr (Or.inr ⟨he, ?_⟩), hek, hcmp⟩
              rw [hek]
              exact hkk
          · have hpx : p = x := by simpa using hp
            subst hpx
            have hkk : kp = k := by
              rw [hk] at hkp
              exact (Option.some.inj hkp).symm
            exact ⟨(k, p), (assoc_mem_replace m k p _).mpr (Or.inl ⟨rfl, hkin⟩), hkk.symm,
              hirr p⟩
      · have hc' : cmpFunc cur x = false := by simpa using hc
        simp only [hc', Bool.false_eq_true, if_false]
        refine ⟨_, rfl, hnd, ?_, ?_⟩
        · intro e he
          exact ⟨List.mem_append_left _ (hent e he).1, (hent e he).2⟩
        · intro p hp kp hkp
          rcases List.mem_append.mp hp with hp | hp
          · exact hbest p hp kp hkp
          · have hpx : p = x := by simpa using hp
            subst hpx
            have hkk : kp = k := by
              rw [hk] at hkp
              exact (Option.some.inj hkp).symm
            exact ⟨(k, cur), hcur, hkk.symm, hc'⟩

/-- The result of `filterIntegerByUniqueTags` when every point has a key: one point of the
slice per key, and no point of the slice beats the point retained for its key. -/
theorem filterIntegerByUniqueTags_spec (tags : List Int)
    (cmpFunc : IntegerPoint → IntegerPoint → Bool) (hirr : ∀ p, cmpFunc p p = false)
    (htrans : ∀ q cur p, cmpFunc cur q = false → cmpFunc cur p = true → cmpFunc p q = false)
    (a : List IntegerPoint) (hkeys : ∀ p ∈ a, (uniqueTagsKey tags p).isSome = true) :
    ∃ out, filterIntegerByUniqueTags a tags cmpFunc = some out ∧
      (out.map (uniqueTagsKey tags)).Nodup ∧
      (∀ p ∈ a, ∃ q ∈ out, uniqueTagsKey tags q = uniqueTagsKey tags p) ∧
      ∀ q ∈ out, q ∈ a ∧
        ∀ p ∈ a, uniqueTagsKey tags p = uniqueTagsKey tags q → cmpFunc q p = false := by
  obtain ⟨m, hm, hnd, hent, hbest⟩ := filterIntegerStep_fold tags cmpFunc hirr htrans a hkeys
  have hkeymap : (m.map Prod.snd).map (uniqueTagsKey tags) = (m.map Prod.fst).map some := by
    rw [List.map_map, List.map_map]
    apply List.map_congr_left
    intro e he
    exact (hent e he).2
  have hnd' : ((m.map Prod.snd).map (uniqueTagsKey tags)).Nodup := by
    rw [hkeymap]
    exact hnd.map (Option.some_injective _)
  refine ⟨m.map Prod.snd, ?_, hnd', ?_, ?_⟩
  · rw [filterIntegerByUniqueTags_eq, hm]
    rfl
  · intro p hp
    obtain ⟨k, hk⟩ := Option.isSome_iff_exists.mp (hkeys p hp)
    obtain ⟨e, he, hek, _⟩ := hbest p hp k hk
    refine ⟨e.2, List.mem_map.mpr ⟨e, he, rfl⟩, ?_⟩
    rw [(hent e he).2, hk, hek]
  · intro q hq
    obtain ⟨e, he, rfl⟩ := List.mem_map.mp hq
    refine ⟨(hent e he).1, ?_⟩
    intro p hp hpk
    obtain ⟨k, hk⟩ := Option.isSome_iff_exists.mp (hkeys p hp)
    obtain ⟨e', he', hek', hcmp⟩ := hbest p hp k hk
    have hkk : e'.1 = e.1 := by
      have h1 := (hent e he).2
      rw [← hpk, hk] at h1
      rw [hek']
      exact Option.some.inj h1
    rw [assoc_eq_of_nodup m hnd e' e he' he hkk] at hcmp
    exact hcmp

theorem topCmpFunc_irrefl (p : IntegerPoint) : topCmpFunc p p = false := by
  simp [topCmpFunc]

theorem topCmpFunc_trans (q cur p : IntegerPoint) (h₁ : topCmpFunc cur q = false)
    (h₂ : topCmpFunc cur p = true) : topCmpFunc p q = false := by
  simp only [topCmpFunc, decide_eq_false_iff_not, decide_eq_true_eq] at h₁ h₂ ⊢
  omega

theorem bottomCmpFunc_irrefl (p : IntegerPoint) : bottomCmpFunc p p = false := by
  simp [bottomCmpFunc]

theorem bottomCmpFunc_trans (q cur p : IntegerPoint) (h₁ : bottomCmpFunc cur q = false)
    (h₂ : bottomCmpFunc cur p = true) : bottomCmpFunc p q = false := by
  simp only [bottomCmpFunc, decide_eq_false_iff_not, decide_eq_true_eq] at h₁ h₂ ⊢
  omega

/-- C25: on a slice whose points all have the `Aux` entries of `tags`,
`filterIntegerByUniqueTags` returns one point of the slice for every key and only one; with
the comparison of top the point retained for a key has the greatest `Value` among all input
points with that key and, among those with that `Value`, the earliest `Time`; with the
comparison of bottom it has the smallest `Value` and, among those, the earliest `Time`. -/
theorem filterIntegerByUniqueTags_retains_best (tags : List Int) (a : List IntegerPoint)
    (hkeys : ∀ p ∈ a, (uniqueTagsKey tags p).isSome = true) :
    (∃ out, filterIntegerByUniqueTags a tags topCmpFunc = some out ∧
      (out.map (uniqueTagsKey tags)).Nodup ∧
      (∀ p ∈ a, ∃ q ∈ out, uniqueTagsKey tags q = uniqueTagsKey tags p) ∧
      ∀ q ∈ out, q ∈ a ∧
        ∀ p ∈ a, uniqueTagsKey tags p = uniqueTagsKey tags q →
          p.Value ≤ q.Value ∧ (p.Value = q.Value → q.Time ≤ p.Time)) ∧
    (∃ out, filterIntegerByUniqueTags a tags bottomCmpFunc = some out ∧
      (out.map (uniqueTagsKey tags)).Nodup ∧
      (∀ p ∈ a, ∃ q ∈ out, uniqueTagsKey tags q = uniqueTagsKey tags p) ∧
      ∀ q ∈ out, q ∈ a ∧
        ∀ p ∈ a, uniqueTagsKey tags p = uniqueTagsKey tags q →
          q.Value ≤ p.Value ∧ (p.Value = q.Value → q.Time ≤ p.Time)) := by
  constructor
  · obtain ⟨out, hout, hnd, hall, hbest⟩ := filterIntegerByUniqueTags_spec tags topCmpFunc
      topCmpFunc_irrefl topCmpFunc_trans a hkeys
    refine ⟨out, hout, hnd, hall, ?_⟩
    intro q hq
    refine ⟨(hbest q hq).1, ?_⟩
    intro p hp hk
    have h := (hbest q hq).2 p hp hk
    simp only [topCmpFunc, decide_eq_false_iff_not] at h
    omega
  · obtain ⟨out, hout, hnd, hall, hbest⟩ := filterIntegerByUniqueTags_spec tags bottomCmpFunc
      bottomCmpFunc_irrefl bottomCmpFunc_trans a hkeys
    refine ⟨out, hout, hnd, hall, ?_⟩
    intro q hq
    refine ⟨(hbest q hq).1, ?_⟩
    intro p hp hk
    have h := (hbest q hq).2 p hp hk
    simp only [bottomCmpFunc, decide_eq_false_iff_not] at h
    omega

/-- The number of points `filterIntegerByUniqueTags` returns is the number of distinct keys,
the comma-joined texts, of the slice. -/
theorem filterIntegerByUniqueTags_length (tags : List Int)
    (cmpFunc : IntegerPoint → IntegerPoint → Bool) (hirr : ∀ p, cmpFunc p p = false)
    (htrans : ∀ q cur p, cmpFunc cur q = false → cmpFunc cur p = true → cmpFunc p q = false)
    (a : List IntegerPoint) (hkeys : ∀ p ∈ a, (uniqueTagsKey tags p).isSome = true) :
    ∃ out, filterIntegerByUniqueTags a tags cmpFunc = some out ∧
      out.length = ((a.map (uniqueTagsKey tags)).dedup).length := by
  obtain ⟨out, hout, hnd, hall, hbest⟩ :=
    filterIntegerByUniqueTags_spec tags cmpFunc hirr htrans a hkeys
  refine ⟨out, hout, ?_⟩
  have hperm : (out.map (uniqueTagsKey tags)).Perm ((a.map (uniqueTagsKey tags)).dedup) := by
    rw [List.perm_ext_iff_of_nodup hnd (List.nodup_dedup _)]
    intro k
    rw [List.mem_dedup]
    constructor
    · intro hk
      obtain ⟨q, hq, rfl⟩ := List.mem_map.mp hk
      exact List.mem_map.mpr ⟨q, (hbest q hq).1, rfl⟩
    · intro hk
      obtain ⟨p, hp, rfl⟩ := List.mem_map.mp hk
      obtain ⟨q, hq, hqk⟩ := hall p hp
      exact List.mem_map.mpr ⟨q, hq, hqk⟩
  rw [← hperm.length_eq, List.length_map]

/-- C24, evaluated at a failing input: with `tags = [0, 1]`, the points with `Aux`
("a,b", "c") and ("a", "b,c") carry two distinct tuples of tag values, yet both get the key
"a,b,c" and `filterIntegerByUniqueTags` returns one point for the two. -/
theorem filterIntegerByUniqueTags_collision :
    ([{ Time := 1, Value := 5, Aux := [.str "a,b", .str "c"] },
      { Time := 2, Value := 7, Aux := [.str "a", .str "b,c"] }] :
        List IntegerPoint).map (uniqueTagsTuple [0, 1]) =
      [some [.str "a,b", .str "c"], some [.str "a", .str "b,c"]] ∧
    (([{ Time := 1, Value := 5, Aux := [.str "a,b", .str "c"] },
      { Time := 2, Value := 7, Aux := [.str "a", .str "b,c"] }] :
        List IntegerPoint).map (uniqueTagsTuple [0, 1])).dedup.length = 2 ∧
    ([{ Time := 1, Value := 5, Aux := [.str "a,b", .str "c"] },
      { Time := 2, Value := 7, Aux := [.str "a", .str "b,c"] }] :
        List IntegerPoint).map (uniqueTagsKey [0, 1]) = [some "a,b,c", some "a,b,c"] ∧
    filterIntegerByUniqueTags
        [{ Time := 1, Value := 5, Aux := [.str "a,b", .str "c"] },
         { Time := 2, Value := 7, Aux := [.str "a", .str "b,c"] }] [0, 1] topCmpFunc =
      some [{ Time := 2, Value := 7, Aux := [.str "a", .str "b,c"] }] := by
  refine ⟨by decide, by decide, by decide, by decide⟩

/-! ## derivative -/

/-- C27: the derivative reducers return no points for an empty input slice, and for an input
slice of exactly one point they return exactly one point, with `Nil` set and with the
`Time` of that input point, in every state `prev` of the closure, which they leave
unchanged. -/
theorem derivativeReduceSliceFunc_short (interval : Interval) (isNonNegative : Bool)
    (prevI : IntegerPoint) (prevF : FloatPoint) (pI : IntegerPoint) (pF : FloatPoint)
    (opt : ReduceOptions) :
    NewIntegerDerivativeReduceSliceFunc interval isNonNegative prevI [] opt = ([], prevI) ∧
      NewIntegerDerivativeReduceSliceFunc interval isNonNegative prevI [pI] opt =
        ([{ Time := pI.Time, Nil := true }], prevI) ∧
      NewFloatDerivativeReduceSliceFunc interval isNonNegative prevF [] opt = ([], prevF) ∧
      NewFloatDerivativeReduceSliceFunc interval isNonNegative prevF [pF] opt =
        ([{ Time := pF.Time, Nil := true }], prevF) :=
  ⟨rfl, rfl, rfl, rfl⟩

/-- The loop of the integer derivative with `isNonNegative` set returns what the loop
without it returns, less the points whose raw difference is negative. -/
theorem integerDerivativeLoop_nonNegative (interval : Interval) (rest : List IntegerPoint) :
    ∀ prev : IntegerPoint,
      (integerDerivativeLoop interval false prev rest).1.length =
        (integerRawDifferences (prev :: rest)).length ∧
      (integerDerivativeLoop interval true prev rest).1 =
        (((integerDerivativeLoop interval false prev rest).1.zip
          (integerRawDifferences (prev :: rest))).filter
            (fun x => decide (¬ x.2 < 0))).map Prod.fst := by
  induction rest with
  | nil =>
    intro prev
    simp [integerDerivativeLoop, integerRawDifferences]
  | cons p rest ih =>
    intro prev
    obtain ⟨hlen, heq⟩ := ih p
    have hraw : integerRawDifferences (prev :: p :: rest) =
        wrapInt64 (p.Value - prev.Value) :: integerRawDifferences (p :: rest) := by
      simp [integerRawDifferences]
    constructor
    · rw [hraw]
      simp only [integerDerivativeLoop, Bool.false_and, Bool.false_eq_true, if_false,
        List.length_cons, hlen]
    · rw [hraw]
      by_cases hd : wrapInt64 (p.Value - prev.Value) < 0
      · simp only [integerDerivativeLoop, Bool.false_and, Bool.false_eq_true, if_false,
          Bool.true_and, hd, decide_True, if_true, List.zip_cons_cons, List.filter_cons,
          not_true_eq_false, decide_False]
        exact heq
      · simp only [integerDerivativeLoop, Bool.false_and, Bool.false_eq_true, if_false,
          Bool.true_and, hd, decide_False, List.zip_cons_cons, List.filter_cons,
          not_false_eq_true, decide_True, if_true, List.map_cons]
        rw [heq]

/-- The loop of the float derivative with `isNonNegative` set returns what the loop without
it returns, less the points whose raw difference is negative. -/
theorem floatDerivativeLoop_nonNegative (interval : Interval) (rest : List FloatPoint) :
    ∀ prev : FloatPoint,
      (floatDerivativeLoop interval false prev rest).1.length =
        (floatRawDifferences (prev :: rest)).length ∧
      (floatDerivativeLoop interval true prev rest).1 =
        (((floatDerivativeLoop interval false prev rest).1.zip
          (floatRawDifferences (prev :: rest))).filter
            (fun x => decide (¬ x.2 < 0))).map Prod.fst := by
  induction rest with
  | nil =>
    intro prev
    simp [floatDerivativeLoop, floatRawDifferences]
  | cons p rest ih =>
    intro prev
    obtain ⟨hlen, heq⟩ := ih p
    have hraw : floatRawDifferences (prev :: p :: rest) =
        (p.Value - prev.Value) :: floatRawDifferences (p :: rest) := by
      simp [floatRawDifferences]
    constructor
    · rw [hraw]
      simp only [floatDerivativeLoop, Bool.false_and, Bool.false_eq_true, if_false,
        List.length_cons, hlen]
    · rw [hraw]
      by_cases hd : p.Value - prev.Value < 0
      · simp only [floatDerivativeLoop, Bool.false_and, Bool.false_eq_true, if_false,
          Bool.true_and, hd, decide_True, if_true, List.zip_cons_cons, List.filter_cons,
          not_true_eq_false, decide_False]
        exact heq
      · simp only [floatDerivativeLoop, Bool.false_and, Bool.false_eq_true, if_false,
          Bool.true_and, hd, decide_False, List.zip_cons_cons, List.filter_cons,
          not_false_eq_true, decide_True, if_true, List.map_cons]
        rw [heq]

/-- C28: for every interval and every input slice, a fresh derivative closure created with
`isNonNegative = true` returns what a fresh closure created with `isNonNegative = false`
returns on the same input, less exactly the points whose raw difference
`p.Value - prev.Value` is negative; the remaining points are unchanged. On a slice of fewer
than two points, where no difference is formed, the two outputs are equal. This holds for
the integer and for the float closure. -/
theorem derivativeReduceSliceFunc_nonNegative (interval : Interval) (ai : List IntegerPoint)
    (af : List FloatPoint) (opt : ReduceOptions) :
    (ai.length < 2 →
      (NewIntegerDerivativeReduceSliceFunc interval true integerDerivativeFresh ai opt).1 =
        (NewIntegerDerivativeReduceSliceFunc interval false integerDerivativeFresh ai opt).1) ∧
    (2 ≤ ai.length →
      (NewIntegerDerivativeReduceSliceFunc interval false integerDerivativeFresh ai opt).1.length =
          (integerRawDifferences ai).length ∧
        (NewIntegerDerivativeReduceSliceFunc interval true integerDerivativeFresh ai opt).1 =
          (((NewIntegerDerivativeReduceSliceFunc interval false integerDerivativeFresh ai
              opt).1.zip (integerRawDifferences ai)).filter
            (fun x => decide (¬ x.2 < 0))).map Prod.fst) ∧
    (af.length < 2 →
      (NewFloatDerivativeReduceSliceFunc interval true floatDerivativeFresh af opt).1 =
        (NewFloatDerivativeReduceSliceFunc interval false floatDerivativeFresh af opt).1) ∧
    (2 ≤ af.length →
      (NewFloatDerivativeReduceSliceFunc interval false floatDerivativeFresh af opt).1.length =
          (floatRawDifferences af).length ∧
        (NewFloatDerivativeReduceSliceFunc interval true floatDerivativeFresh af opt).1 =
          (((NewFloatDerivativeReduceSliceFunc interval false floatDerivativeFresh af
              opt).1.zip (floatRawDifferences af)).filter
            (fun x => decide (¬ x.2 < 0))).map Prod.fst) := by
  refine ⟨?_, ?_, ?_, ?_⟩
  · intro h
    match ai, h with
    | [], _ => rfl
    | [_], _ => rfl
    | _ :: _ :: _, h => exact absurd h (by simp)
  · intro h
    match ai, h with
    | [], h => exact absurd h (by simp)
    | [_], h => exact absurd h (by simp)
    | p :: q :: rest, _ =>
      exact integerDerivativeLoop_nonNegative interval (q :: rest) p
  · intro h
    match af, h with
    | [], _ => rfl
    | [_], _ => rfl
    | _ :: _ :: _, h => exact absurd h (by simp)
  · intro h
    match af, h with
    | [], h => exact absurd h (by simp)
    | [_], h => exact absurd h (by simp)
    | p :: q :: rest, _ =>
      exact floatDerivativeLoop_nonNegative interval (q :: rest) p

/-- Witness of C25: two points with the key "a" and one with the key "b"; the hypothesis on
the `Aux` entries holds and the conclusion is that of the theorem at this input. -/
theorem filterIntegerByUniqueTags_retains_best_witness :
    (∀ p ∈ ([{ Time := 1, Value := 3, Aux := [.str "a"] },
        { Time := 2, Value := 7, Aux := [.str "a"] },
        { Time := 3, Value := 5, Aux := [.str "b"] }] : List IntegerPoint),
      (uniqueTagsKey [0] p).isSome = true) ∧
    filterIntegerByUniqueTags
      [{ Time := 1, Value := 3, Aux := [.str "a"] },
        { Time := 2, Value := 7, Aux := [.str "a"] },
        { Time := 3, Value := 5, Aux := [.str "b"] }] [0] topCmpFunc =
      some [{ Time := 2, Value := 7, Aux := [.str "a"] },
        { Time := 3, Value := 5, Aux := [.str "b"] }] ∧
    filterIntegerByUniqueTags
      [{ Time := 1, Value := 3, Aux := [.str "a"] },
        { Time := 2, Value := 7, Aux := [.str "a"] },
        { Time := 3, Value := 5, Aux := [.str "b"] }] [0] bottomCmpFunc =
      some [{ Time := 1, Value := 3, Aux := [.str "a"] },
        { Time := 3, Value := 5, Aux := [.str "b"] }] ∧
    ((∃ out, filterIntegerByUniqueTags
        [{ Time := 1, Value := 3, Aux := [.str "a"] },
          { Time := 2, Value := 7, Aux := [.str "a"] },
          { Time := 3, Value := 5, Aux := [.str "b"] }] [0] topCmpFunc = some out ∧
      (out.map (uniqueTagsKey [0])).Nodup ∧
      (∀ p ∈ ([{ Time := 1, Value := 3, Aux := [.str "a"] },
          { Time := 2, Value := 7, Aux := [.str "a"] },
          { Time := 3, Value := 5, Aux := [.str "b"] }] : List IntegerPoint),
        ∃ q ∈ out, uniqueTagsKey [0] q = uniqueTagsKey [0] p) ∧
      ∀ q ∈ out, q ∈ ([{ Time := 1, Value := 3, Aux := [.str "a"] },
          { Time := 2, Value := 7, Aux := [.str "a"] },
          { Time := 3, Value := 5, Aux := [.str "b"] }] : List IntegerPoint) ∧
        ∀ p ∈ ([{ Time := 1, Value := 3, Aux := [.str "a"] },
          { Time := 2, Value := 7, Aux := [.str "a"] },
          { Time := 3, Value := 5, Aux := [.str "b"] }] : List IntegerPoint),
          uniqueTagsKey [0] p = uniqueTagsKey [0] q →
            p.Value ≤ q.Value ∧ (p.Value = q.Value → q.Time ≤ p.Time)) ∧
    (∃ out, filterIntegerByUniqueTags
        [{ Time := 1, Value := 3, Aux := [.str "a"] },
          { Time := 2, Value := 7, Aux := [.str "a"] },
          { Time := 3, Value := 5, Aux := [.str "b"] }] [0] bottomCmpFunc = some out ∧
      (out.map (uniqueTagsKey [0])).Nodup ∧
      (∀ p ∈ ([{ Time := 1, Value := 3, Aux := [.str "a"] },
          { Time := 2, Value := 7, Aux := [.str "a"] },
          { Time := 3, Value := 5, Aux := [.str "b"] }] : List IntegerPoint),
        ∃ q ∈ out, uniqueTagsKey [0] q = uniqueTagsKey [0] p) ∧
      ∀ q ∈ out, q ∈ ([{ Time := 1, Value := 3, Aux := [.str "a"] },
          { Time := 2, Value := 7, Aux := [.str "a"] },
          { Time := 3, Value := 5, Aux := [.str "b"] }] : List IntegerPoint) ∧
        ∀ p ∈ ([{ Time := 1, Value := 3, Aux := [.str "a"] },
          { Time := 2, Value := 7, Aux := [.str "a"] },
          { Time := 3, Value := 5, Aux := [.str "b"] }] : List IntegerPoint),
          uniqueTagsKey [0] p = uniqueTagsKey [0] q →
            q.Value ≤ p.Value ∧ (p.Value = q.Value → q.Time ≤ p.Time))) :=
  ⟨by decide, by decide, by decide,
    filterIntegerByUniqueTags_retains_best [0]
      [{ Time := 1, Value := 3, Aux := [.str "a"] },
        { Time := 2, Value := 7, Aux := [.str "a"] },
        { Time := 3, Value := 5, Aux := [.str "b"] }] (by decide)⟩

/-- Witness of C28: on the values 10, 4, 6 at the times 0, 1, 2 the raw differences are -6
and 2; the closure with `isNonNegative` set returns the second point only. -/
theorem derivativeReduceSliceFunc_nonNegative_witness :
    2 ≤ ([{ Time := 0, Value := 10 }, { Time := 1, Value := 4 },
        { Time := 2, Value := 6 }] : List IntegerPoint).length ∧
    integerRawDifferences [{ Time := 0, Value := 10 }, { Time := 1, Value := 4 },
        { Time := 2, Value := 6 }] = [-6, 2] ∧
    (NewIntegerDerivativeReduceSliceFunc { Duration := 1 } true integerDerivativeFresh
        [{ Time := 0, Value := 10 }, { Time := 1, Value := 4 }, { Time := 2, Value := 6 }]
        { }).1 =
      (((NewIntegerDerivativeReduceSliceFunc { Duration := 1 } false integerDerivativeFresh
          [{ Time := 0, Value := 10 }, { Time := 1, Value := 4 }, { Time := 2, Value := 6 }]
          { }).1.zip
        (integerRawDifferences [{ Time := 0, Value := 10 }, { Time := 1, Value := 4 },
          { Time := 2, Value := 6 }])).filter (fun x => decide (¬ x.2 < 0))).map Prod.fst ∧
    2 ≤ ([{ Time := 0, Value := 10 }, { Time := 1, Value := 4 }] : List FloatPoint).length ∧
    (NewFloatDerivativeReduceSliceFunc { Duration := 1 } true floatDerivativeFresh
        [{ Time := 0, Value := 10 }, { Time := 1, Value := 4 }] { }).1 =
      (((NewFloatDerivativeReduceSliceFunc { Duration := 1 } false floatDerivativeFresh
          [{ Time := 0, Value := 10 }, { Time := 1, Value := 4 }] { }).1.zip
        (floatRawDifferences [{ Time := 0, Value := 10 }, { Time := 1, Value := 4 }])).filter
          (fun x => decide (¬ x.2 < 0))).map Prod.fst :=
  ⟨by decide, by decide,
    ((derivativeReduceSliceFunc_nonNegative { Duration := 1 }
      [{ Time := 0, Value := 10 }, { Time := 1, Value := 4 }, { Time := 2, Value := 6 }]
      [{ Time := 0, Value := 10 }, { Time := 1, Value := 4 }] { }).2.1 (by decide)).2,
    by decide,
    ((derivativeReduceSliceFunc_nonNegative { Duration := 1 }
      [{ Time := 0, Value := 10 }, { Time := 1, Value := 4 }, { Time := 2, Value := 6 }]
      [{ Time := 0, Value := 10 }, { Time := 1, Value := 4 }] { }).2.2.2 (by decide)).2⟩

/-- The loop of the integer derivative without `isNonNegative`, when neither the value
differences nor the time differences leave `int64`: one point for every pair of consecutive
points, the derivative between the two in exact arithmetic. -/
theorem integerDerivativeLoop_eq_reference (interval : Interval) (rest : List IntegerPoint) :
    ∀ prev : IntegerPoint,
      (∀ pc ∈ (prev :: rest).zip rest, isInt64 (pc.2.Value - pc.1.Value)) →
      (∀ pc ∈ (prev :: rest).zip rest, isInt64 (pc.2.Time - pc.1.Time)) →
      (integerDerivativeLoop interval false prev rest).1 =
        ((prev :: rest).zip rest).map fun pc => derivativeReference interval pc.1 pc.2 := by
  induction rest with
  | nil =>
    intro prev _ _
    simp [integerDerivativeLoop]
  | cons p rest ih =>
    intro prev hval htime
    have hv : isInt64 (p.Value - prev.Value) := hval (prev, p) (by simp)
    have ht : isInt64 (p.Time - prev.Time) := htime (prev, p) (by simp)
    have ih' := ih p (fun pc hpc => hval pc (by simp [hpc]))
      (fun pc hpc => htime pc (by simp [hpc]))
    have hgt : (p.Time - prev.Time > 0) ↔ p.Time > prev.Time := by
      constructor <;> intro h <;> omega
    simp only [integerDerivativeLoop, Bool.false_and, Bool.false_eq_true, if_false,
      wrapInt64_of_isInt64 hv, wrapInt64_of_isInt64 ht, List.zip_cons_cons, List.map_cons,
      ih', derivativeReference, hgt]

/-- C26, counterexample: the times -9223372036854775806 and 9223372036854775806 are
ascending and the value difference 1 fits `int64`, but the elapsed time overflows `int64`
(it wraps to -4), so the closure returns the value 0 where the claim gives
1 / 18446744073709551612. -/
theorem newIntegerDerivativeReduceSliceFunc_time_overflow :
    (0 : Int) < ({ Duration := 1 } : Interval).Duration ∧
    (-9223372036854775806 : Int) ≠ -1 ∧
    (9223372036854775806 : Int) > -9223372036854775806 ∧
    isInt64 (1 - 0) ∧
    wrapInt64 (9223372036854775806 - -9223372036854775806) = -4 ∧
    (NewIntegerDerivativeReduceSliceFunc { Duration := 1 } false integerDerivativeFresh
        [{ Time := -9223372036854775806, Value := 0 },
          { Time := 9223372036854775806, Value := 1 }] { }).1 =
      [{ Time := 9223372036854775806, Value := 0 }] ∧
    derivativeReference { Duration := 1 } { Time := -9223372036854775806, Value := 0 }
        { Time := 9223372036854775806, Value := 1 } =
      { Time := 9223372036854775806, Value := 1 / 18446744073709551612 } ∧
    (NewIntegerDerivativeReduceSliceFunc { Duration := 1 } false integerDerivativeFresh
        [{ Time := -9223372036854775806, Value := 0 },
          { Time := 9223372036854775806, Value := 1 }] { }).1 ≠
      [derivativeReference { Duration := 1 } { Time := -9223372036854775806, Value := 0 }
        { Time := 9223372036854775806, Value := 1 }] := by
  have hw : wrapInt64 (9223372036854775806 - -9223372036854775806) = -4 := by decide
  have hw0 : wrapInt64 18446744073709551612 = -4 := by decide
  have hw1 : wrapInt64 1 = 1 := by decide
  have hout : (NewIntegerDerivativeReduceSliceFunc { Duration := 1 } false
      integerDerivativeFresh
        [{ Time := -9223372036854775806, Value := 0 },
          { Time := 9223372036854775806, Value := 1 }] { }).1 =
      [{ Time := 9223372036854775806, Value := 0 }] := by
    simp [NewIntegerDerivativeReduceSliceFunc, integerDerivativeLoop, integerDerivativeFresh,
      hw0, hw1]
  have href : derivativeReference { Duration := 1 }
      { Time := -9223372036854775806, Value := 0 }
        { Time := 9223372036854775806, Value := 1 } =
      { Time := 9223372036854775806, Value := 1 / 18446744073709551612 } := by
    simp [derivativeReference]
  refine ⟨by decide, by decide, by decide, by decide, hw, hout, href, ?_⟩
  rw [hout, href]
  intro h
  have h2 := congrArg (fun l => l.map FloatPoint.Value) h
  simp at h2

/-- C26, amended: a fresh closure of `NewIntegerDerivativeReduceSliceFunc(interval, false)`
called once on a slice of `m ≥ 2` points whose value differences and whose time
differences both fit `int64` returns `m - 1` points; the `k`-th of them has the `Time` of
`a[k]` and the value `(a[k].Value - a[k-1].Value) / ((a[k].Time - a[k-1].Time) /
interval.Duration)` when `a[k].Time > a[k-1].Time`, and the value 0 otherwise. -/
theorem newIntegerDerivativeReduceSliceFunc_eq_reference (interval : Interval)
    (a : List IntegerPoint) (opt : ReduceOptions) (hlen : 2 ≤ a.length)
    (hval : ∀ pc ∈ a.zip a.tail, isInt64 (pc.2.Value - pc.1.Value))
    (htime : ∀ pc ∈ a.zip a.tail, isInt64 (pc.2.Time - pc.1.Time)) :
    (NewIntegerDerivativeReduceSliceFunc interval false integerDerivativeFresh a opt).1 =
        (a.zip a.tail).map (fun pc => derivativeReference interval pc.1 pc.2) ∧
      (NewIntegerDerivativeReduceSliceFunc interval false integerDerivativeFresh a
        opt).1.length = a.length - 1 ∧
      ∀ k (hk : k + 1 < a.length),
        (NewIntegerDerivativeReduceSliceFunc interval false integerDerivativeFresh a opt).1[k]? =
          some (derivativeReference interval (a.get ⟨k, Nat.lt_of_succ_lt hk⟩)
            (a.get ⟨k + 1, hk⟩)) := by
  have hmain : (NewIntegerDerivativeReduceSliceFunc interval false integerDerivativeFresh a
      opt).1 = (a.zip a.tail).map (fun pc => derivativeReference interval pc.1 pc.2) := by
    match a, hlen, hval, htime with
    | [], h, _, _ => exact absurd h (by simp)
    | [_], h, _, _ => exact absurd h (by simp)
    | p :: q :: rest, _, hval, htime =>
      exact integerDerivativeLoop_eq_reference interval (q :: rest) p hval htime
  refine ⟨hmain, ?_, ?_⟩
  · rw [hmain]
    simp only [List.length_map, List.length_zip, List.length_tail]
    omega
  · intro k hk
    rw [hmain]
    have hk0 : k < a.length := Nat.lt_of_succ_lt hk
    have h1 : a[k]? = some (a.get ⟨k, hk0⟩) := by
      simp [List.getElem?_eq_getElem hk0]
    have h2 : a.tail[k]? = some (a.get ⟨k + 1, hk⟩) := by
      rw [List.getElem?_tail]
      simp [List.getElem?_eq_getElem hk]
    have h3 : (a.zip a.tail)[k]? = some (a.get ⟨k, hk0⟩, a.get ⟨k + 1, hk⟩) :=
      List.getElem?_zip_eq_some.2 ⟨h1, h2⟩
    simp only [List.getElem?_map, h3, Option.map_some']

/-- Witness of C26: the example of the specification, interval 1s on `{t=0,v=10}`,
`{t=1e9,v=4}`, gives the single point `{t=1e9, v=-6}`. -/
theorem newIntegerDerivativeReduceSliceFunc_eq_reference_witness :
    (NewIntegerDerivativeReduceSliceFunc { Duration := 1000000000 } false
        integerDerivativeFresh
        [{ Time := 0, Value := 10 }, { Time := 1000000000, Value := 4 }] { }).1 =
      [{ Time := 1000000000, Value := -6 }] := by
  have h := (newIntegerDerivativeReduceSliceFunc_eq_reference { Duration := 1000000000 }
    [{ Time := 0, Value := 10 }, { Time := 1000000000, Value := 4 }] { } (by decide)
    (by decide) (by decide)).1
  rw [h]
  simp [derivativeReference]
  norm_num

/-- C29, evaluation: one closure called on the window A = `{t=0,v=0}`, `{t=1,v=1}` and then
on the window B = `{t=2,v=3}`, `{t=3,v=6}` (interval 1ns) returns `{t=1,v=1}` and then
`{t=3,v=5/2}`: the loop of the second call starts at `a[1]`, so no point is returned for
B's first point and the derivative at `t=3` is taken from A's last point. A fresh closure
called once on A ++ B returns `{t=1,v=1}`, `{t=2,v=2}`, `{t=3,v=3}`. -/
theorem newIntegerDerivativeReduceSliceFunc_windows_skip :
    (NewIntegerDerivativeReduceSliceFunc { Duration := 1 } false integerDerivativeFresh
        [{ Time := 0, Value := 0 }, { Time := 1, Value := 1 }] { }) =
      ([{ Time := 1, Value := 1 }], { Time := 1, Value := 1 }) ∧
    (NewIntegerDerivativeReduceSliceFunc { Duration := 1 } false
        (NewIntegerDerivativeReduceSliceFunc { Duration := 1 } false integerDerivativeFresh
          [{ Time := 0, Value := 0 }, { Time := 1, Value := 1 }] { }).2
        [{ Time := 2, Value := 3 }, { Time := 3, Value := 6 }] { }).1 =
      [{ Time := 3, Value := 5 / 2 }] ∧
    (NewIntegerDerivativeReduceSliceFunc { Duration := 1 } false integerDerivativeFresh
        ([{ Time := 0, Value := 0 }, { Time := 1, Value := 1 }] ++
          [{ Time := 2, Value := 3 }, { Time := 3, Value := 6 }]) { }).1 =
      [{ Time := 1, Value := 1 }, { Time := 2, Value := 2 }, { Time := 3, Value := 3 }] ∧
    (NewIntegerDerivativeReduceSliceFunc { Duration := 1 } false integerDerivativeFresh
        [{ Time := 0, Value := 0 }, { Time := 1, Value := 1 }] { }).1 ++
      (NewIntegerDerivativeReduceSliceFunc { Duration := 1 } false
        (NewIntegerDerivativeReduceSliceFunc { Duration := 1 } false integerDerivativeFresh
          [{ Time := 0, Value := 0 }, { Time := 1, Value := 1 }] { }).2
        [{ Time := 2, Value := 3 }, { Time := 3, Value := 6 }] { }).1 ≠
    (NewIntegerDerivativeReduceSliceFunc { Duration := 1 } false integerDerivativeFresh
        ([{ Time := 0, Value := 0 }, { Time := 1, Value := 1 }] ++
          [{ Time := 2, Value := 3 }, { Time := 3, Value := 6 }]) { }).1 := by
  have hw1 : wrapInt64 1 = 1 := by decide
  have hw2 : wrapInt64 2 = 2 := by decide
  have hw3 : wrapInt64 3 = 3 := by decide
  have hw5 : wrapInt64 5 = 5 := by decide
  have hA : (NewIntegerDerivativeReduceSliceFunc { Duration := 1 } false
      integerDerivativeFresh [{ Time := 0, Value := 0 }, { Time := 1, Value := 1 }] { }) =
      ([{ Time := 1, Value := 1 }], { Time := 1, Value := 1 }) := by
    simp [NewIntegerDerivativeReduceSliceFunc, integerDerivativeLoop, integerDerivativeFresh,
      hw1]
  have hB : (NewIntegerDerivativeReduceSliceFunc { Duration := 1 } false
      { Time := 1, Value := 1 }
        [{ Time := 2, Value := 3 }, { Time := 3, Value := 6 }] { }).1 =
      [{ Time := 3, Value := 5 / 2 }] := by
    simp [NewIntegerDerivativeReduceSliceFunc, integerDerivativeLoop, hw2, hw5]
  have hAB : (NewIntegerDerivativeReduceSliceFunc { Duration := 1 } false
      integerDerivativeFresh
        ([{ Time := 0, Value := 0 }, { Time := 1, Value := 1 }] ++
          [{ Time := 2, Value := 3 }, { Time := 3, Value := 6 }]) { }).1 =
      [{ Time := 1, Value := 1 }, { Time := 2, Value := 2 }, { Time := 3, Value := 3 }] := by
    simp [NewIntegerDerivativeReduceSliceFunc, integerDerivativeLoop, integerDerivativeFresh,
      hw1, hw2, hw3]
  rw [hA]
  refine ⟨rfl, hB, hAB, ?_⟩
  rw [hB, hAB]
  intro h
  have h2 := congrArg List.length h
  simp at h2

/-! ## The engine: `integerReduceFloatIterator.reduce` -/

/-- Looking up the keys of an association list with distinct keys, in their order, gives
its values. -/
theorem assoc_filterMap_lookup {κ β : Type} [DecidableEq κ] (m : List (κ × β))
    (hnd : (m.map Prod.fst).Nodup) :
    (m.map Prod.fst).filterMap (fun k => m.lookup k) = m.map Prod.snd := by
  induction m with
  | nil => rfl
  | cons e m ih =>
    obtain ⟨k, v⟩ := e
    rw [List.map_cons, List.nodup_cons] at hnd
    have hhead : List.lookup k ((k, v) :: m) = some v := by simp [List.lookup]
    have htail : List.filterMap (fun k' => List.lookup k' ((k, v) :: m)) (m.map Prod.fst) =
        List.filterMap (fun k' => m.lookup k') (m.map Prod.fst) := by
      apply List.filterMap_congr
      intro k' hk'
      have hne : k' ≠ k := fun h => hnd.1 (h ▸ hk')
      have hb : (k' == k) = false := by simpa using hne
      simp only [List.lookup, hb]
    rw [List.map_cons, List.filterMap_cons, hhead, htail, ih hnd.2]
    rfl

/-- A `Nil` point leaves the map of `integerReduceFloatIterator.reduce` as it is. -/
theorem integerReduceFloatMapStep_nil
    (fn : Option FloatPoint → IntegerPoint → ReduceOptions → FloatResult)
    (zeroTime : Int) (opt : ReduceOptions)
    (subset : List (String × String) → List (String × String))
    (tagsID : List (String × String) → String)
    (m : List (String × FloatPoint)) (curr : IntegerPoint) (hnil : curr.Nil = true) :
    integerReduceFloatMapStep fn zeroTime opt subset tagsID m curr = m := by
  simp [integerReduceFloatMapStep, hnil]

/-- A point of a group that has no accumulator yet adds one, with the name and the tag
subset of the point, when the reducer does not return `ZeroTime`. -/
theorem integerReduceFloatMapStep_new
    (fn : Option FloatPoint → IntegerPoint → ReduceOptions → FloatResult)
    (zeroTime : Int) (opt : ReduceOptions)
    (subset : List (String × String) → List (String × String))
    (tagsID : List (String × String) → String)
    (hfn : ∀ prev curr, (∀ p, prev = some p → p.Time ≠ zeroTime) →
      (fn prev curr opt).1 ≠ zeroTime)
    (m : List (String × FloatPoint)) (curr : IntegerPoint) (hnil : curr.Nil = false)
    (hlk : m.lookup (groupID subset tagsID curr) = none) :
    ∃ acc, integerReduceFloatMapStep fn zeroTime opt subset tagsID m curr =
        m ++ [(groupID subset tagsID curr, acc)] ∧
      acc.Name = curr.Name ∧ acc.Tags = subset curr.Tags ∧ acc.Time ≠ zeroTime := by
  have hne : (fn none curr opt).1 ≠ zeroTime := hfn none curr (by simp)
  unfold groupID at hlk
  simp only [integerReduceFloatMapStep, hnil, Bool.false_eq_true, if_false, hlk,
    integerReduceFloatStep, if_neg hne, groupID]
  exact ⟨_, rfl, rfl, rfl, hne⟩

/-- A point of a group that has an accumulator replaces it by one with the same name and
tags, when the reducer does not return `ZeroTime`. -/
theorem integerReduceFloatMapStep_old
    (fn : Option FloatPoint → IntegerPoint → ReduceOptions → FloatResult)
    (zeroTime : Int) (opt : ReduceOptions)
    (subset : List (String × String) → List (String × String))
    (tagsID : List (String × String) → String)
    (hfn : ∀ prev curr, (∀ p, prev = some p → p.Time ≠ zeroTime) →
      (fn prev curr opt).1 ≠ zeroTime)
    (m : List (String × FloatPoint)) (curr : IntegerPoint) (hnil : curr.Nil = false)
    (p0 : FloatPoint) (hlk : m.lookup (groupID subset tagsID curr) = some p0)
    (hp0 : p0.Time ≠ zeroTime) :
    ∃ acc, integerReduceFloatMapStep fn zeroTime opt subset tagsID m curr =
        m.map (fun e => if e.1 = groupID subset tagsID curr
          then (groupID subset tagsID curr, acc) else e) ∧
      acc.Name = p0.Name ∧ acc.Tags = p0.Tags ∧ acc.Time ≠ zeroTime := by
  have hne : (fn (some p0) curr opt).1 ≠ zeroTime :=
    hfn (some p0) curr (fun p hp => by rw [← Option.some.inj hp]; exact hp0)
  unfold groupID at hlk
  simp only [integerReduceFloatMapStep, hnil, Bool.false_eq_true, if_false, hlk,
    integerReduceFloatStep, if_neg hne, groupID]
  exact ⟨_, rfl, rfl, rfl, hne⟩

/-- The map `integerReduceFloatIterator.reduce` has built after the points `l`: its ids are
distinct, every accumulator carries the name and the tag subset of a non-`Nil` point of `l`
with that id and a time other than `ZeroTime`, and every non-`Nil` point of `l` has its id
in the map. The reducer is taken not to return `ZeroTime` when the accumulator it is given,
if any, has a time other than `ZeroTime`. -/
theorem integerReduceFloatMapStep_fold
    (fn : Option FloatPoint → IntegerPoint → ReduceOptions → FloatResult)
    (zeroTime : Int) (opt : ReduceOptions)
    (subset : List (String × String) → List (String × String))
    (tagsID : List (String × String) → String)
    (hfn : ∀ prev curr, (∀ p, prev = some p → p.Time ≠ zeroTime) →
      (fn prev curr opt).1 ≠ zeroTime) (l : List IntegerPoint) :
    ((l.foldl (integerReduceFloatMapStep fn zeroTime opt subset tagsID) []).map
        Prod.fst).Nodup ∧
      (∀ e ∈ l.foldl (integerReduceFloatMapStep fn zeroTime opt subset tagsID) [],
        e.2.Time ≠ zeroTime ∧
        ∃ p ∈ l, p.Nil = false ∧ groupID subset tagsID p = e.1 ∧ e.2.Name = p.Name ∧
          e.2.Tags = subset p.Tags) ∧
      ∀ p ∈ l, p.Nil = false →
        groupID subset tagsID p ∈
          (l.foldl (integerReduceFloatMapStep fn zeroTime opt subset tagsID) []).map
            Prod.fst := by
  induction l using List.reverseRecOn with
  | nil => exact ⟨by simp, by simp, by simp⟩
  | append_singleton l x ih =>
    obtain ⟨hnd, hent, hall⟩ := ih
    rw [List.foldl_append, List.foldl_cons, List.foldl_nil]
    generalize l.foldl (integerReduceFloatMapStep fn zeroTime opt subset tagsID) [] = m
      at hnd hent hall ⊢
    cases hnil : x.Nil with
    | true =>
      rw [integerReduceFloatMapStep_nil fn zeroTime opt subset tagsID m x hnil]
      refine ⟨hnd, ?_, ?_⟩
      · intro e he
        obtain ⟨ht0, p, hp, h⟩ := hent e he
        exact ⟨ht0, p, List.mem_append_left _ hp, h⟩
      · intro p hp hpn
        rcases List.mem_append.mp hp with hp | hp
        · exact hall p hp hpn
        · have hpx : p = x := by simpa using hp
          rw [hpx, hnil] at hpn
          exact absurd hpn (by simp)
    | false =>
      cases hlk : m.lookup (groupID subset tagsID x) with
      | none =>
        obtain ⟨acc, hstep, hname, htags, htime⟩ :=
          integerReduceFloatMapStep_new fn zeroTime opt subset tagsID hfn m x hnil hlk
        have hknot : groupID subset tagsID x ∉ m.map Prod.fst :=
          (assoc_lookup_none_iff m _).mp hlk
        rw [hstep]
        refine ⟨?_, ?_, ?_⟩
        · rw [List.map_append, List.nodup_append]
          refine ⟨hnd, by simp, ?_⟩
          intro v hv hv'
          have : v = groupID subset tagsID x := by simpa using hv'
          exact hknot (this ▸ hv)
        · intro e he
          rcases List.mem_append.mp he with he | he
          · obtain ⟨ht0, p, hp, h⟩ := hent e he
            exact ⟨ht0, p, List.mem_append_left _ hp, h⟩
          · have hee : e = (groupID subset tagsID x, acc) := by simpa using he
            subst hee
            exact ⟨htime, x, by simp, hnil, rfl, hname, htags⟩
        · intro p hp hpn
          rcases List.mem_append.mp hp with hp | hp
          · rw [List.map_append]
            exact List.mem_append_left _ (hall p hp hpn)
          · have hpx : p = x := by simpa using hp
            subst hpx
            simp
      | some p0 =>
        have hcur : (groupID subset tagsID x, p0) ∈ m := assoc_mem_of_lookup m _ p0 hlk
        obtain ⟨acc, hstep, hname, htags, htime⟩ :=
          integerReduceFloatMapStep_old fn zeroTime opt subset tagsID hfn m x hnil p0 hlk
            (hent _ hcur).1
        have hkin : groupID subset tagsID x ∈ m.map Prod.fst :=
          List.mem_map.mpr ⟨_, hcur, rfl⟩
        rw [hstep]
        refine ⟨?_, ?_, ?_⟩
        · rw [assoc_replace_keys]
          exact hnd
        · intro e he
          rcases (assoc_mem_replace m _ acc e).mp he with ⟨rfl, _⟩ | ⟨he, _⟩
          · obtain ⟨_, p, hp, hpn, hid, hn, ht⟩ := hent _ hcur
            exact ⟨htime, p, List.mem_append_left _ hp, hpn, hid, hname.trans hn,
              htags.trans ht⟩
          · obtain ⟨ht0, p, hp, h⟩ := hent e he
            exact ⟨ht0, p, List.mem_append_left _ hp, h⟩
        · intro p hp hpn
          rw [assoc_replace_keys]
          rcases List.mem_append.mp hp with hp | hp
          · exact hall p hp hpn
          · have hpx : p = x := by simpa using hp
            subst hpx
            exact hkin

/-- The `Nil` points of a window have no effect on the map of
`integerReduceFloatIterator.reduce`. -/
theorem integerReduceFloatMapStep_fold_filter
    (fn : Option FloatPoint → IntegerPoint → ReduceOptions → FloatResult)
    (zeroTime : Int) (opt : ReduceOptions)
    (subset : List (String × String) → List (String × String))
    (tagsID : List (String × String) → String) (l : List IntegerPoint) :
    ∀ m, l.foldl (integerReduceFloatMapStep fn zeroTime opt subset tagsID) m =
      (l.filter fun p => !p.Nil).foldl
        (integerReduceFloatMapStep fn zeroTime opt subset tagsID) m := by
  induction l with
  | nil => intro m; rfl
  | cons x l ih =>
    intro m
    cases hnil : x.Nil with
    | true =>
      rw [List.foldl_cons, integerReduceFloatMapStep_nil fn zeroTime opt subset tagsID m x hnil,
        List.filter_cons, hnil]
      exact ih m
    | false =>
      rw [List.foldl_cons, List.filter_cons, hnil]
      exact ih _

/-- The points `integerReduceFloatIterator.reduce` returns are, up to their order and their
time, the accumulators of its map. -/
theorem integerReduceFloatIterator_reduce_perm
    (fn : Option FloatPoint → IntegerPoint → ReduceOptions → FloatResult)
    (zeroTime : Int) (opt : ReduceOptions)
    (subset : List (String × String) → List (String × String))
    (tagsID : List (String × String) → String)
    (hfn : ∀ prev curr, (∀ p, prev = some p → p.Time ≠ zeroTime) →
      (fn prev curr opt).1 ≠ zeroTime) (points : List IntegerPoint) :
    ((integerReduceFloatIterator.reduce fn zeroTime opt subset tagsID points).map
        fun p => (p.Name, p.Tags)).Perm
      ((points.foldl (integerReduceFloatMapStep fn zeroTime opt subset tagsID) []).map
        fun e => (e.2.Name, e.2.Tags)) := by
  obtain ⟨hnd, _, _⟩ :=
    integerReduceFloatMapStep_fold fn zeroTime opt subset tagsID hfn points
  unfold integerReduceFloatIterator.reduce
  generalize points.foldl (integerReduceFloatMapStep fn zeroTime opt subset tagsID) [] = m
    at hnd ⊢
  have hkeys : (sortStable (fun (x y : String) => decide (y < x)) (m.map Prod.fst)).Perm
      (m.map Prod.fst) := List.perm_insertionSort _ _
  have ha : ((sortStable (fun (x y : String) => decide (y < x)) (m.map Prod.fst)).filterMap
      fun k => m.lookup k).Perm (m.map Prod.snd) := by
    rw [← assoc_filterMap_lookup m hnd]
    exact hkeys.filterMap _
  simp only [List.map_map]
  have hm : (m.map fun e => (e.2.Name, e.2.Tags)) =
      (m.map Prod.snd).map (fun (p : FloatPoint) => (p.Name, p.Tags)) := by
    rw [List.map_map]
    rfl
  rw [hm]
  exact ha.map _

/-- C30: for every window, `integerReduceFloatIterator.reduce`, with a reducer that never
returns `ZeroTime` as time (`hfn`: not when the accumulator it is given, if any, has a time
other than `ZeroTime`, which is so for every call of a run), returns exactly one point per distinct group key
`(Name, Tags.Subset(Dimensions))` occurring among the non-`Nil` points of the window: the
keys of the returned points are distinct, they are the keys of the non-`Nil` input points,
and there are as many returned points as distinct keys. Every returned point has `Time`
equal to the start of the window, and the `Nil` input points have no effect on the result.
`Tags.Subset` and `Tags.ID` are not in `call_iterator.go`; the group id
`Name + "\x00" + tags.ID()` is taken to determine the group key on the points of the
window (`hinj`). -/
theorem integerReduceFloatIterator_reduce_groups
    (fn : Option FloatPoint → IntegerPoint → ReduceOptions → FloatResult)
    (zeroTime : Int) (opt : ReduceOptions)
    (subset : List (String × String) → List (String × String))
    (tagsID : List (String × String) → String) (points : List IntegerPoint)
    (hfn : ∀ prev curr, (∀ p, prev = some p → p.Time ≠ zeroTime) →
      (fn prev curr opt).1 ≠ zeroTime)
    (hinj : ∀ p ∈ points, ∀ q ∈ points, p.Nil = false → q.Nil = false →
      groupID subset tagsID p = groupID subset tagsID q →
        p.Name = q.Name ∧ subset p.Tags = subset q.Tags) :
    ((integerReduceFloatIterator.reduce fn zeroTime opt subset tagsID points).map
        fun p => (p.Name, p.Tags)).Nodup ∧
      (∀ key, key ∈ (integerReduceFloatIterator.reduce fn zeroTime opt subset tagsID
          points).map (fun p => (p.Name, p.Tags)) ↔
        ∃ p ∈ points, p.Nil = false ∧ key = (p.Name, subset p.Tags)) ∧
      (integerReduceFloatIterator.reduce fn zeroTime opt subset tagsID points).length =
        (((points.filter fun p => !p.Nil).map
          fun p => (p.Name, subset p.Tags)).dedup).length ∧
      (∀ p ∈ integerReduceFloatIterator.reduce fn zeroTime opt subset tagsID points,
        p.Time = opt.StartTime) ∧
      integerReduceFloatIterator.reduce fn zeroTime opt subset tagsID points =
        integerReduceFloatIterator.reduce fn zeroTime opt subset tagsID
          (points.filter fun p => !p.Nil) := by
  have hperm := integerReduceFloatIterator_reduce_perm fn zeroTime opt subset tagsID hfn points
  obtain ⟨hnd, hent, hall⟩ :=
    integerReduceFloatMapStep_fold fn zeroTime opt subset tagsID hfn points
  have hid : ∀ e ∈ points.foldl (integerReduceFloatMapStep fn zeroTime opt subset tagsID) [],
      e.1 = e.2.Name ++ "\x00" ++ tagsID e.2.Tags := by
    intro e he
    obtain ⟨_, p, _, _, hpid, hn, ht⟩ := hent e he
    rw [← hpid, hn, ht]
    rfl
  have hnodup : ((integerReduceFloatIterator.reduce fn zeroTime opt subset tagsID points).map
      fun p => (p.Name, p.Tags)).Nodup := by
    rw [hperm.nodup_iff]
    have hmap : (points.foldl (integerReduceFloatMapStep fn zeroTime opt subset tagsID) []).map
        Prod.fst =
        ((points.foldl (integerReduceFloatMapStep fn zeroTime opt subset tagsID) []).map
          fun e => (e.2.Name, e.2.Tags)).map
            (fun (k : String × List (String × String)) => k.1 ++ "\x00" ++ tagsID k.2) := by
      rw [List.map_map]
      apply List.map_congr_left
      intro e he
      exact hid e he
    rw [hmap] at hnd
    exact List.Nodup.of_map _ hnd
  have hmem : ∀ key, key ∈ (integerReduceFloatIterator.reduce fn zeroTime opt subset tagsID
      points).map (fun p => (p.Name, p.Tags)) ↔
      ∃ p ∈ points, p.Nil = false ∧ key = (p.Name, subset p.Tags) := by
    intro key
    rw [hperm.mem_iff, List.mem_map]
    constructor
    · rintro ⟨e, he, rfl⟩
      obtain ⟨_, p, hp, hpn, _, hn, ht⟩ := hent e he
      exact ⟨p, hp, hpn, by rw [hn, ht]⟩
    · rintro ⟨p, hp, hpn, rfl⟩
      obtain ⟨e, he, hek⟩ := List.mem_map.mp (hall p hp hpn)
      obtain ⟨_, q, hq, hqn, hqid, hn, ht⟩ := hent e he
      have hpq := hinj q hq p hp hqn hpn (hqid.trans hek)
      exact ⟨e, he, by rw [hn, ht, hpq.1, hpq.2]⟩
  refine ⟨hnodup, hmem, ?_, ?_, ?_⟩
  · have hp2 : ((integerReduceFloatIterator.reduce fn zeroTime opt subset tagsID points).map
        fun p => (p.Name, p.Tags)).Perm
        (((points.filter fun p => !p.Nil).map fun p => (p.Name, subset p.Tags)).dedup) := by
      rw [List.perm_ext_iff_of_nodup hnodup (List.nodup_dedup _)]
      intro key
      rw [hmem key, List.mem_dedup, List.mem_map]
      constructor
      · rintro ⟨p, hp, hpn, rfl⟩
        exact ⟨p, List.mem_filter.mpr ⟨hp, by simp [hpn]⟩, rfl⟩
      · rintro ⟨p, hp, rfl⟩
        obtain ⟨hp1, hp2⟩ := List.mem_filter.mp hp
        exact ⟨p, hp1, by simpa using hp2, rfl⟩
    have := hp2.length_eq
    rwa [List.length_map] at this
  · intro p hp
    unfold integerReduceFloatIterator.reduce at hp
    obtain ⟨q, _, rfl⟩ := List.mem_map.mp hp
    rfl
  · unfold integerReduceFloatIterator.reduce
    rw [← integerReduceFloatMapStep_fold_filter fn zeroTime opt subset tagsID points []]

/-- Witness of C30: the mean reducer over a window with two points of the group
(cpu, host=a), one of the group (cpu, host=b) and one `Nil` point of a third group, the
dimension being `host` and the window starting at 0: two points are returned, one per
group, both at time 0. -/
theorem integerReduceFloatIterator_reduce_groups_witness :
    ((integerReduceFloatIterator.reduce IntegerMeanReduce (-6795364578871345152) { }
        (fun tags => tags.filter fun kv => kv.1 == "host")
        (fun tags => String.join (tags.map fun kv => kv.1 ++ "=" ++ kv.2))
        [{ Name := "cpu", Tags := [("host", "a"), ("dc", "x")], Time := 1, Value := 10 },
          { Name := "cpu", Tags := [("host", "b")], Time := 2, Value := 20 },
          { Name := "cpu", Tags := [("host", "a"), ("dc", "y")], Time := 3, Value := 30 },
          { Name := "cpu", Tags := [("host", "c")], Time := 4, Nil := true }]).map
        fun p => (p.Name, p.Tags)).Nodup ∧
      (integerReduceFloatIterator.reduce IntegerMeanReduce (-6795364578871345152) { }
        (fun tags => tags.filter fun kv => kv.1 == "host")
        (fun tags => String.join (tags.map fun kv => kv.1 ++ "=" ++ kv.2))
        [{ Name := "cpu", Tags := [("host", "a"), ("dc", "x")], Time := 1, Value := 10 },
          { Name := "cpu", Tags := [("host", "b")], Time := 2, Value := 20 },
          { Name := "cpu", Tags := [("host", "a"), ("dc", "y")], Time := 3, Value := 30 },
          { Name := "cpu", Tags := [("host", "c")], Time := 4, Nil := true }]).length = 2 ∧
      ∀ p ∈ integerReduceFloatIterator.reduce IntegerMeanReduce (-6795364578871345152) { }
        (fun tags => tags.filter fun kv => kv.1 == "host")
        (fun tags => String.join (tags.map fun kv => kv.1 ++ "=" ++ kv.2))
        [{ Name := "cpu", Tags := [("host", "a"), ("dc", "x")], Time := 1, Value := 10 },
          { Name := "cpu", Tags := [("host", "b")], Time := 2, Value := 20 },
          { Name := "cpu", Tags := [("host", "a"), ("dc", "y")], Time := 3, Value := 30 },
          { Name := "cpu", Tags := [("host", "c")], Time := 4, Nil := true }],
        p.Time = 0 := by
  have h := integerReduceFloatIterator_reduce_groups IntegerMeanReduce
    (-6795364578871345152) { }
    (fun tags => tags.filter fun kv => kv.1 == "host")
    (fun tags => String.join (tags.map fun kv => kv.1 ++ "=" ++ kv.2))
    [{ Name := "cpu", Tags := [("host", "a"), ("dc", "x")], Time := 1, Value := 10 },
      { Name := "cpu", Tags := [("host", "b")], Time := 2, Value := 20 },
      { Name := "cpu", Tags := [("host", "a"), ("dc", "y")], Time := 3, Value := 30 },
      { Name := "cpu", Tags := [("host", "c")], Time := 4, Nil := true }]
    (by
      intro prev curr hprev
      cases prev with
      | none => simp [IntegerMeanReduce]
      | some p =>
        simp only [IntegerMeanReduce]
        split <;> exact hprev p rfl)
    (by decide)
  exact ⟨h.1, h.2.2.1.trans (by decide), h.2.2.2.1⟩

/-! ## The constructors of the call iterators -/

/-- The seven constructors `NewCallIterator` dispatches to return an iterator exactly on a
`FloatIterator` or an `IntegerIterator`, and the iterator wraps the input unread. -/
theorem streamingConstructors_spec (input : Iterator) :
    ∀ c ∈ [newCountIterator, newMinIterator, newMaxIterator, newSumIterator, newFirstIterator,
        newLastIterator, newMeanIterator],
      isIterator (c input) = input.isNumeric ∧ ∀ itr, c input = .ok itr → itr.input = input := by
  intro c hc
  simp only [List.mem_cons, List.mem_singleton, List.not_mem_nil, or_false] at hc
  rcases hc with rfl | rfl | rfl | rfl | rfl | rfl | rfl <;>
    cases input <;>
    simp [newCountIterator, newMinIterator, newMaxIterator, newSumIterator, newFirstIterator,
      newLastIterator, newMeanIterator, isIterator, Iterator.isNumeric]

/-- C38: `NewCallIterator` returns an error and no iterator exactly when the name of the call
is not one of count, min, max, sum, first, last, mean, or the input is neither a
`FloatIterator` nor an `IntegerIterator`; an unknown name gives the error "unsupported
function call" whatever the input; in every other case it returns an iterator, which holds
the input as it was given, nothing having been read from it. -/
theorem newCallIterator_error_iff (name : String) (input : Iterator) :
    (isIterator (NewCallIterator name input) = false ↔
      (name ∉ ["count", "min", "max", "sum", "first", "last", "mean"] ∨
        input.isNumeric = false)) ∧
    (name ∉ ["count", "min", "max", "sum", "first", "last", "mean"] →
      NewCallIterator name input = .error (.unsupportedFunctionCall name)) ∧
    (∀ itr, NewCallIterator name input = .ok itr → itr.input = input) := by
  have hs := streamingConstructors_spec input
  simp only [List.mem_cons, List.mem_singleton, List.not_mem_nil, or_false, forall_eq_or_imp,
    forall_eq] at hs
  obtain ⟨h1, h2, h3, h4, h5, h6, h7⟩ := hs
  unfold NewCallIterator
  simp only [List.mem_cons, List.mem_singleton, List.not_mem_nil, or_false]
  by_cases n1 : name = "count"
  · subst n1
    simp only [if_true, h1.1, true_or, not_true_eq_false, false_or, false_implies, true_and]
    exact h1.2
  by_cases n2 : name = "min"
  · subst n2
    simp only [if_true, h2.1, n1, if_false, true_or, or_true, not_true_eq_false, false_or,
      false_implies, true_and]
    exact h2.2
  by_cases n3 : name = "max"
  · subst n3
    simp only [if_true, h3.1, n1, n2, if_false, true_or, or_true, not_true_eq_false, false_or,
      false_implies, true_and]
    exact h3.2
  by_cases n4 : name = "sum"
  · subst n4
    simp only [if_true, h4.1, n1, n2, n3, if_false, true_or, or_true, not_true_eq_false,
      false_or, false_implies, true_and]
    exact h4.2
  by_cases n5 : name = "first"
  · subst n5
    simp only [if_true, h5.1, n1, n2, n3, n4, if_false, true_or, or_true, not_true_eq_false,
      false_or, false_implies, true_and]
    exact h5.2
  by_cases n6 : name = "last"
  · subst n6
    simp only [if_true, h6.1, n1, n2, n3, n4, n5, if_false, true_or, or_true,
      not_true_eq_false, false_or, false_implies, true_and]
    exact h6.2
  by_cases n7 : name = "mean"
  · subst n7
    simp only [if_true, h7.1, n1, n2, n3, n4, n5, n6, if_false, true_or, or_true,
      not_true_eq_false, false_or, false_implies, true_and]
    exact h7.2
  simp [n1, n2, n3, n4, n5, n6, n7, isIterator]

/-- C40: each per-function constructor fails exactly on the input types it does not support.
`NewDistinctIterator` and `newStddevIterator` return an iterator (and a nil error) exactly
for a Float, an Integer or a String iterator; `newMedianIterator`, `newSpreadIterator`,
`newTopIterator`, `newBottomIterator`, `newPercentileIterator` and `newDerivativeIterator`
exactly for a Float or an Integer iterator; every one of them returns its "unsupported
iterator type" error for a Boolean iterator and for any other input. -/
theorem sliceConstructors_error_iff (input : Iterator) (n : Int) (tags : Option (List Int))
    (percentile : ℚ) (interval : Interval) (isNonNegative : Bool) :
    isIterator (NewDistinctIterator input) = input.isNumericOrString ∧
    isIterator (newStddevIterator input) = input.isNumericOrString ∧
    isIterator (newMedianIterator input) = input.isNumeric ∧
    isIterator (newSpreadIterator input) = input.isNumeric ∧
    isIterator (newTopIterator input n tags) = input.isNumeric ∧
    isIterator (newBottomIterator input n tags) = input.isNumeric ∧
    isIterator (newPercentileIterator input percentile) = input.isNumeric ∧
    isIterator (newDerivativeIterator input interval isNonNegative) = input.isNumeric ∧
    (input.isNumericOrString = false →
      NewDistinctIterator input = .error (.unsupportedIteratorType "distinct" input) ∧
      newStddevIterator input = .error (.unsupportedIteratorType "stddev" input)) ∧
    (input.isNumeric = false →
      newMedianIterator input = .error (.unsupportedIteratorType "median" input) ∧
      newSpreadIterator input = .error (.unsupportedIteratorType "spread" input) ∧
      newTopIterator input n tags = .error (.unsupportedIteratorType "top" input) ∧
      newBottomIterator input n tags = .error (.unsupportedIteratorType "bottom" input) ∧
      newPercentileIterator input percentile =
        .error (.unsupportedIteratorType "percentile" input) ∧
      newDerivativeIterator input interval isNonNegative =
        .error (.unsupportedIteratorType "derivative" input)) ∧
    (∀ values, (Iterator.BooleanIterator values).isNumericOrString = false ∧
      (Iterator.BooleanIterator values).isNumeric = false) ∧
    (∀ typeName, (Iterator.other typeName).isNumericOrString = false ∧
      (Iterator.other typeName).isNumeric = false) ∧
    (∀ values, (Iterator.StringIterator values).isNumericOrString = true ∧
      (Iterator.StringIterator values).isNumeric = false) := by
  cases input <;>
    simp [NewDistinctIterator, newStddevIterator, newMedianIterator, newSpreadIterator,
      newTopIterator, newBottomIterator, newPercentileIterator, newDerivativeIterator,
      isIterator, Iterator.isNumeric, Iterator.isNumericOrString]

/-! ## The engine of the slice reducers -/

/-- C32, evaluated at a failing input: two points of one window named "cpu" and "mem" with
the same tag subset host=a get the same id `tags.ID()` in
`integerReduceSliceFloatIterator.reduce`, so there is one group, named after the later
point, and both points are passed to the slice reducer in one slice; the id of the
streaming engine, `Name + "\x00" + tags.ID()`, separates them. -/
theorem integerReduceSliceFloatIterator_groups_ignore_name :
    integerReduceSliceFloatIterator.groups (fun tags => tags)
        (fun tags => String.join (tags.map fun kv => kv.1 ++ "=" ++ kv.2))
        [{ Name := "cpu", Tags := [("host", "a")], Time := 1, Value := 10 },
          { Name := "mem", Tags := [("host", "a")], Time := 2, Value := 20 }] =
      [("host=a",
        { name := "mem", tags := [("host", "a")],
          points := [{ Name := "cpu", Tags := [("host", "a")], Time := 1, Value := 10 },
            { Name := "mem", Tags := [("host", "a")], Time := 2, Value := 20 }] })] ∧
    integerReduceSliceFloatIterator.slices (fun tags => tags)
        (fun tags => String.join (tags.map fun kv => kv.1 ++ "=" ++ kv.2))
        [{ Name := "cpu", Tags := [("host", "a")], Time := 1, Value := 10 },
          { Name := "mem", Tags := [("host", "a")], Time := 2, Value := 20 }] =
      [[{ Name := "cpu", Tags := [("host", "a")], Time := 1, Value := 10 },
        { Name := "mem", Tags := [("host", "a")], Time := 2, Value := 20 }]] ∧
    groupID (fun tags => tags)
        (fun tags => String.join (tags.map fun kv => kv.1 ++ "=" ++ kv.2))
        { Name := "cpu", Tags := [("host", "a")], Time := 1, Value := 10 } ≠
      groupID (fun tags => tags)
        (fun tags => String.join (tags.map fun kv => kv.1 ++ "=" ++ kv.2))
        { Name := "mem", Tags := [("host", "a")], Time := 2, Value := 20 } := by
  refine ⟨by decide, by decide, by decide⟩

/-- The groups of `integerReduceSliceFloatIterator.reduce` hold at least one point each,
when the groups the loop starts from do. -/
theorem integerReduceSliceFloatGroupStep_fold_ne_nil
    (subset : List (String × String) → List (String × String))
    (tagsID : List (String × String) → String) (points : List IntegerPoint) :
    ∀ groups : List (String × SliceGroup), (∀ e ∈ groups, e.2.points ≠ []) →
      ∀ e ∈ points.foldl (integerReduceSliceFloatGroupStep subset tagsID) groups,
        e.2.points ≠ [] := by
  induction points with
  | nil => intro groups h; exact h
  | cons p rest ih =>
    intro groups h
    rw [List.foldl_cons]
    apply ih
    intro e he
    unfold integerReduceSliceFloatGroupStep at he
    cases hlk : groups.lookup (tagsID (subset p.Tags)) with
    | none =>
      simp only [hlk] at he
      rcases List.mem_append.mp he with he | he
      · exact h e he
      · have hee : e = (tagsID (subset p.Tags),
            { name := p.Name, tags := subset p.Tags, points := [p] }) := by simpa using he
        rw [hee]
        simp
    | some g =>
      simp only [hlk] at he
      rcases (assoc_mem_replace groups _ _ e).mp he with ⟨rfl, _⟩ | ⟨he, _⟩
      · simp
      · exact h e he

/-- `IntegerMedianReduceSlice` returns a result on every non-empty slice, whatever sort
meeting the contract of `sort.Sort` is used. -/
theorem integerMedianReduceSlice_isSome (sortFn : List IntegerPoint → List IntegerPoint)
    (hsort : IsSort integerPointsByValueLess sortFn) (a : List IntegerPoint)
    (opt : ReduceOptions) (ha : a ≠ []) :
    (IntegerMedianReduceSlice sortFn a opt).isSome = true := by
  have hpos : 0 < a.length := List.length_pos.mpr ha
  have hlen : (sortFn a).length = a.length := (hsort a).1.length_eq
  unfold IntegerMedianReduceSlice
  by_cases h1 : a.length = 1
  · have h0 : (0 : Nat) < a.length := hpos
    simp [h1, List.getElem?_eq_getElem h0]
  · simp only [h1, if_false]
    by_cases hev : (sortFn a).length % 2 = 0
    · have hhalf : ¬ (sortFn a).length / 2 < 1 := by omega
      have hlo : (sortFn a).length / 2 - 1 < (sortFn a).length := by omega
      have hhi : (sortFn a).length / 2 < (sortFn a).length := by omega
      simp [hev, hhalf, List.getElem?_eq_getElem hlo, List.getElem?_eq_getElem hhi]
    · have hhi : (sortFn a).length / 2 < (sortFn a).length := by omega
      simp [hev, List.getElem?_eq_getElem hhi]

/-- C34: `integerReduceSliceFloatIterator.reduce` invokes the slice reducer with non-empty
slices only: for every window, every slice passed to `fn` holds at least one point, so the
reducers that index `a[0]` return a result on it (`IntegerMedianReduceSlice`, which this
engine drives, with any sort meeting the contract of `sort.Sort`, and
`IntegerSpreadReduceSlice`). -/
theorem integerReduceSliceFloatIterator_slices_ne_nil
    (subset : List (String × String) → List (String × String))
    (tagsID : List (String × String) → String) (points : List IntegerPoint)
    (sortFn : List IntegerPoint → List IntegerPoint) (opt : ReduceOptions)
    (hsort : IsSort integerPointsByValueLess sortFn) :
    ∀ a ∈ integerReduceSliceFloatIterator.slices subset tagsID points,
      a ≠ [] ∧ (IntegerMedianReduceSlice sortFn a opt).isSome = true ∧
        (IntegerSpreadReduceSlice a opt).isSome = true := by
  intro a ha
  unfold integerReduceSliceFloatIterator.slices integerReduceSliceFloatIterator.groups at ha
  obtain ⟨e, he, rfl⟩ := List.mem_map.mp ha
  have hne : e.2.points ≠ [] :=
    integerReduceSliceFloatGroupStep_fold_ne_nil subset tagsID points [] (by simp) e he
  refine ⟨hne, integerMedianReduceSlice_isSome sortFn hsort _ opt hne, ?_⟩
  cases hp : e.2.points with
  | nil => exact absurd hp hne
  | cons p rest => rfl

/-- C35, evaluated at a failing input: a window holding a `Nil` point and a point of value
5 in one group. `integerReduceSliceFloatIterator.reduce` passes both to the slice reducer in
one slice; the streaming engine leaves its map as it is on the `Nil` point. -/
theorem integerReduceSliceFloatIterator_slices_nil_point :
    integerReduceSliceFloatIterator.slices (fun tags => tags)
        (fun tags => String.join (tags.map fun kv => kv.1 ++ "=" ++ kv.2))
        [{ Name := "cpu", Time := 1, Nil := true }, { Name := "cpu", Time := 2, Value := 5 }] =
      [[{ Name := "cpu", Time := 1, Nil := true }, { Name := "cpu", Time := 2, Value := 5 }]] ∧
    (∃ a ∈ integerReduceSliceFloatIterator.slices (fun tags => tags)
        (fun tags => String.join (tags.map fun kv => kv.1 ++ "=" ++ kv.2))
        [{ Name := "cpu", Time := 1, Nil := true }, { Name := "cpu", Time := 2, Value := 5 }],
      ∃ p ∈ a, p.Nil = true) ∧
    integerReduceFloatMapStep IntegerMeanReduce (-6795364578871345152) { } (fun tags => tags)
        (fun tags => String.join (tags.map fun kv => kv.1 ++ "=" ++ kv.2)) []
        { Name := "cpu", Time := 1, Nil := true } = [] := by
  refine ⟨by decide, by decide, by decide⟩

/-! ## The `Aggregated` count in the streaming engine -/

theorem assoc_lookup_append_new {κ β : Type} [DecidableEq κ] (m : List (κ × β)) (k : κ) (v : β)
    (h : m.lookup k = none) (k' : κ) :
    (m ++ [(k, v)]).lookup k' = if k' = k then some v else m.lookup k' := by
  induction m with
  | nil =>
    by_cases hk : k' = k
    · simp [List.lookup, hk]
    · have hb : (k' == k) = false := by simpa using hk
      simp [List.lookup, hk, hb]
  | cons e m ih =>
    obtain ⟨k0, v0⟩ := e
    by_cases h0 : k = k0
    · subst h0
      simp [List.lookup] at h
    · have hb0 : (k == k0) = false := by simpa using h0
      simp only [List.lookup, hb0] at h
      by_cases hk0 : k' = k0
      · subst hk0
        have hne : ¬ k' = k := fun hh => h0 hh.symm
        simp [List.lookup, hne]
      · have hb : (k' == k0) = false := by simpa using hk0
        simp only [List.cons_append, List.lookup, hb]
        exact ih h

theorem assoc_lookup_replace {κ β : Type} [DecidableEq κ] (m : List (κ × β)) (k : κ) (v : β)
    (h : k ∈ m.map Prod.fst) (k' : κ) :
    (m.map (fun e => if e.1 = k then (k, v) else e)).lookup k' =
      if k' = k then some v else m.lookup k' := by
  induction m with
  | nil => simp at h
  | cons e m ih =>
    obtain ⟨k0, v0⟩ := e
    rw [List.map_cons]
    by_cases h0 : k0 = k
    · rw [if_pos (show (k0, v0).1 = k from h0), List.lookup_cons]
      by_cases hk : k' = k
      · simp [hk]
      · have hb : (k' == k) = false := by simpa using hk
        have hb0 : (k' == k0) = false := by rw [h0]; exact hb
        rw [hb, List.lookup_cons, hb0, if_neg hk]
        by_cases hin : k ∈ m.map Prod.fst
        · rw [ih hin, if_neg hk]
        · have hsame : m.map (fun e => if e.1 = k then (k, v) else e) = m := by
            conv_rhs => rw [← List.map_id m]
            apply List.map_congr_left
            intro e he
            have : e.1 ≠ k := fun hh => hin (List.mem_map.mpr ⟨e, he, hh⟩)
            simp [this]
          rw [hsame]
    · have hin : k ∈ m.map Prod.fst := by
        rcases List.mem_map.mp h with ⟨e, he, hek⟩
        rcases List.mem_cons.mp he with rfl | he
        · exact absurd hek h0
        · exact List.mem_map.mpr ⟨e, he, hek⟩
      rw [if_neg (show ¬ (k0, v0).1 = k from h0), List.lookup_cons, List.lookup_cons, ih hin]
      by_cases hk0 : k' = k0
      · have hne : ¬ k' = k := fun hh => h0 (hk0 ▸ hh)
        simp [hk0, h0]
      · have hb : (k' == k0) = false := by simpa using hk0
        rw [hb]

/-- The accumulator added for a new group has `Aggregated = 1`. -/
theorem integerReduceFloatMapStep_new_aggregated
    (fn : Option FloatPoint → IntegerPoint → ReduceOptions → FloatResult)
    (zeroTime : Int) (opt : ReduceOptions)
    (subset : List (String × String) → List (String × String))
    (tagsID : List (String × String) → String)
    (hfn : ∀ prev curr, (∀ p, prev = some p → p.Time ≠ zeroTime) →
      (fn prev curr opt).1 ≠ zeroTime)
    (m : List (String × FloatPoint)) (curr : IntegerPoint) (hnil : curr.Nil = false)
    (hlk : m.lookup (groupID subset tagsID curr) = none) :
    ∃ acc, integerReduceFloatMapStep fn zeroTime opt subset tagsID m curr =
        m ++ [(groupID subset tagsID curr, acc)] ∧ acc.Aggregated = 1 := by
  have hne : (fn none curr opt).1 ≠ zeroTime := hfn none curr (by simp)
  unfold groupID at hlk
  simp only [integerReduceFloatMapStep, hnil, Bool.false_eq_true, if_false, hlk,
    integerReduceFloatStep, if_neg hne, groupID]
  exact ⟨_, rfl, rfl⟩

/-- The accumulator replacing that of a group has its `Aggregated` plus one. -/
theorem integerReduceFloatMapStep_old_aggregated
    (fn : Option FloatPoint → IntegerPoint → ReduceOptions → FloatResult)
    (zeroTime : Int) (opt : ReduceOptions)
    (subset : List (String × String) → List (String × String))
    (tagsID : List (String × String) → String)
    (hfn : ∀ prev curr, (∀ p, prev = some p → p.Time ≠ zeroTime) →
      (fn prev curr opt).1 ≠ zeroTime)
    (m : List (String × FloatPoint)) (curr : IntegerPoint) (hnil : curr.Nil = false)
    (p0 : FloatPoint) (hlk : m.lookup (groupID subset tagsID curr) = some p0)
    (hp0 : p0.Time ≠ zeroTime) :
    ∃ acc, integerReduceFloatMapStep fn zeroTime opt subset tagsID m curr =
        m.map (fun e => if e.1 = groupID subset tagsID curr
          then (groupID subset tagsID curr, acc) else e) ∧
      acc.Aggregated = p0.Aggregated + 1 := by
  have hne : (fn (some p0) curr opt).1 ≠ zeroTime :=
    hfn (some p0) curr (fun p hp => by rw [← Option.some.inj hp]; exact hp0)
  unfold groupID at hlk
  simp only [integerReduceFloatMapStep, hnil, Bool.false_eq_true, if_false, hlk,
    integerReduceFloatStep, if_neg hne, groupID]
  exact ⟨_, rfl, rfl⟩

/-- One more point of the window: the `Aggregated` count of a group grows by one when the
point is a non-`Nil` point of the group and is unchanged otherwise. -/
theorem groupAggregated_step
    (fn : Option FloatPoint → IntegerPoint → ReduceOptions → FloatResult)
    (zeroTime : Int) (opt : ReduceOptions)
    (subset : List (String × String) → List (String × String))
    (tagsID : List (String × String) → String)
    (hfn : ∀ prev curr, (∀ p, prev = some p → p.Time ≠ zeroTime) →
      (fn prev curr opt).1 ≠ zeroTime)
    (l : List IntegerPoint) (x : IntegerPoint) (id : String) :
    groupAggregated
        ((l ++ [x]).foldl (integerReduceFloatMapStep fn zeroTime opt subset tagsID) []) id =
      groupAggregated (l.foldl (integerReduceFloatMapStep fn zeroTime opt subset tagsID) []) id +
        (if x.Nil = false ∧ groupID subset tagsID x = id then 1 else 0) := by
  obtain ⟨_, hent, _⟩ := integerReduceFloatMapStep_fold fn zeroTime opt subset tagsID hfn l
  rw [List.foldl_append, List.foldl_cons, List.foldl_nil]
  generalize l.foldl (integerReduceFloatMapStep fn zeroTime opt subset tagsID) [] = m at hent ⊢
  cases hnil : x.Nil with
  | true =>
    rw [integerReduceFloatMapStep_nil fn zeroTime opt subset tagsID m x hnil]
    simp
  | false =>
    cases hlk : m.lookup (groupID subset tagsID x) with
    | none =>
      obtain ⟨acc, hstep, hagg⟩ :=
        integerReduceFloatMapStep_new_aggregated fn zeroTime opt subset tagsID hfn m x hnil hlk
      rw [hstep]
      unfold groupAggregated
      rw [assoc_lookup_append_new m _ acc hlk id]
      by_cases hid : id = groupID subset tagsID x
      · subst hid
        simp [hlk, hagg]
      · have hid' : ¬ groupID subset tagsID x = id := fun h => hid h.symm
        simp [hid, hid']
    | some p0 =>
      have hcur : (groupID subset tagsID x, p0) ∈ m := assoc_mem_of_lookup m _ p0 hlk
      have hkin : groupID subset tagsID x ∈ m.map Prod.fst :=
        List.mem_map.mpr ⟨_, hcur, rfl⟩
      obtain ⟨acc, hstep, hagg⟩ :=
        integerReduceFloatMapStep_old_aggregated fn zeroTime opt subset tagsID hfn m x hnil p0
          hlk (hent _ hcur).1
      rw [hstep]
      unfold groupAggregated
      rw [assoc_lookup_replace m _ acc hkin id]
      by_cases hid : id = groupID subset tagsID x
      · subst hid
        simp [hlk, hagg]
      · have hid' : ¬ groupID subset tagsID x = id := fun h => hid h.symm
        simp [hid, hid']

/-- After the points `l`, the `Aggregated` count of a group is the number of non-`Nil`
points of `l` with the id of the group. -/
theorem groupAggregated_fold
    (fn : Option FloatPoint → IntegerPoint → ReduceOptions → FloatResult)
    (zeroTime : Int) (opt : ReduceOptions)
    (subset : List (String × String) → List (String × String))
    (tagsID : List (String × String) → String)
    (hfn : ∀ prev curr, (∀ p, prev = some p → p.Time ≠ zeroTime) →
      (fn prev curr opt).1 ≠ zeroTime)
    (l : List IntegerPoint) (id : String) :
    groupAggregated (l.foldl (integerReduceFloatMapStep fn zeroTime opt subset tagsID) []) id =
      (l.filter fun q => !q.Nil && decide (groupID subset tagsID q = id)).length := by
  induction l using List.reverseRecOn with
  | nil => rfl
  | append_singleton l x ih =>
    rw [groupAggregated_step fn zeroTime opt subset tagsID hfn l x id, ih, List.filter_append,
      List.length_append]
    congr 1
    cases hnil : x.Nil <;> by_cases hid : groupID subset tagsID x = id <;>
      simp [List.filter_cons, hnil, hid]

/-- C36: within one pass of `integerReduceFloatIterator.reduce`, with a reducer that never
returns `ZeroTime` (`hfn`), the `Aggregated` count of the accumulator of a group never
decreases: one more point leaves it unchanged, or adds exactly one to it when the point is
a non-`Nil` point of the group (folded into it). So the `Aggregated` of each emitted point
is the number of non-`Nil` input points of the window with its group key
`(Name, Tags.Subset(Dimensions))`; `hinj` says the group id determines the group key. -/
theorem integerReduceFloatIterator_reduce_aggregated
    (fn : Option FloatPoint → IntegerPoint → ReduceOptions → FloatResult)
    (zeroTime : Int) (opt : ReduceOptions)
    (subset : List (String × String) → List (String × String))
    (tagsID : List (String × String) → String) (points : List IntegerPoint)
    (hfn : ∀ prev curr, (∀ p, prev = some p → p.Time ≠ zeroTime) →
      (fn prev curr opt).1 ≠ zeroTime)
    (hinj : ∀ p ∈ points, ∀ q ∈ points, p.Nil = false → q.Nil = false →
      groupID subset tagsID p = groupID subset tagsID q →
        p.Name = q.Name ∧ subset p.Tags = subset q.Tags) :
    (∀ (l : List IntegerPoint) (x : IntegerPoint) (id : String),
      groupAggregated
          ((l ++ [x]).foldl (integerReduceFloatMapStep fn zeroTime opt subset tagsID) []) id =
        groupAggregated
            (l.foldl (integerReduceFloatMapStep fn zeroTime opt subset tagsID) []) id +
          (if x.Nil = false ∧ groupID subset tagsID x = id then 1 else 0)) ∧
    ∀ p ∈ integerReduceFloatIterator.reduce fn zeroTime opt subset tagsID points,
      p.Aggregated =
        (points.filter fun q =>
          !q.Nil && decide (q.Name = p.Name) && decide (subset q.Tags = p.Tags)).length := by
  refine ⟨groupAggregated_step fn zeroTime opt subset tagsID hfn, ?_⟩
  intro p hp
  obtain ⟨_, hent, _⟩ := integerReduceFloatMapStep_fold fn zeroTime opt subset tagsID hfn points
  unfold integerReduceFloatIterator.reduce at hp
  obtain ⟨acc, hacc, rfl⟩ := List.mem_map.mp hp
  obtain ⟨k, _, hlk⟩ := List.mem_filterMap.mp hacc
  have hmem := assoc_mem_of_lookup _ k acc hlk
  obtain ⟨_, q0, hq0, hq0n, hq0id', hname', htags'⟩ := hent _ hmem
  have hq0id : groupID subset tagsID q0 = k := hq0id'
  have hname : acc.Name = q0.Name := hname'
  have htags : acc.Tags = subset q0.Tags := htags'
  have hcount := groupAggregated_fold fn zeroTime opt subset tagsID hfn points k
  unfold groupAggregated at hcount
  rw [hlk] at hcount
  have hcount' : acc.Aggregated =
      (points.filter fun q => !q.Nil && decide (groupID subset tagsID q = k)).length := hcount
  show acc.Aggregated = _
  rw [hcount']
  congr 1
  apply List.filter_congr
  intro q hq
  cases hqn : q.Nil with
  | true => simp
  | false =>
    simp only [Bool.not_false, Bool.true_and]
    by_cases hid : groupID subset tagsID q = k
    · have hqq := hinj q hq q0 hq0 hqn hq0n (hid.trans hq0id.symm)
      have h1 : q.Name = acc.Name := hqq.1.trans hname.symm
      have h2 : subset q.Tags = acc.Tags := hqq.2.trans htags.symm
      simp [hid, h1, h2]
    · have hne : ¬ (q.Name = acc.Name ∧ subset q.Tags = acc.Tags) := by
        rintro ⟨h1, h2⟩
        apply hid
        rw [← hq0id]
        unfold groupID
        rw [h1, h2, hname, htags]
      by_cases h1 : q.Name = acc.Name
      · have h2 : ¬ subset q.Tags = acc.Tags := fun h2 => hne ⟨h1, h2⟩
        simp [hid, h1, h2]
      · simp [hid, h1]

/-- Witness of C36: the mean reducer over two points of the group (cpu, host=a), one of
the group (cpu, host=b) and a `Nil` point. The second point of (cpu, host=a) adds one to
the count of its group, and every emitted point has the count of its group. -/
theorem integerReduceFloatIterator_reduce_aggregated_witness :
    (groupAggregated
        ((([{ Name := "cpu", Tags := [("host", "a"), ("dc", "x")], Time := 1, Value := 10 },
            { Name := "cpu", Tags := [("host", "b")], Time := 2, Value := 20 }] :
              List IntegerPoint) ++
            ([{ Name := "cpu", Tags := [("host", "a"), ("dc", "y")], Time := 3,
                Value := 30 }] : List IntegerPoint)).foldl
          (integerReduceFloatMapStep IntegerMeanReduce (-6795364578871345152)
            ({ } : ReduceOptions)
            (fun (tags : List (String × String)) => tags.filter fun kv => kv.1 == "host")
            (fun (tags : List (String × String)) =>
              String.join (tags.map fun kv => kv.1 ++ "=" ++ kv.2))) [])
        "cpu\x00host=a" =
      groupAggregated
          (([{ Name := "cpu", Tags := [("host", "a"), ("dc", "x")], Time := 1, Value := 10 },
            { Name := "cpu", Tags := [("host", "b")], Time := 2, Value := 20 }] :
              List IntegerPoint).foldl
            (integerReduceFloatMapStep IntegerMeanReduce (-6795364578871345152)
              ({ } : ReduceOptions)
              (fun (tags : List (String × String)) => tags.filter fun kv => kv.1 == "host")
              (fun (tags : List (String × String)) =>
                String.join (tags.map fun kv => kv.1 ++ "=" ++ kv.2))) [])
          "cpu\x00host=a" + 1) ∧
    ∀ p ∈ integerReduceFloatIterator.reduce IntegerMeanReduce (-6795364578871345152) { }
        (fun tags => tags.filter fun kv => kv.1 == "host")
        (fun tags => String.join (tags.map fun kv => kv.1 ++ "=" ++ kv.2))
        [{ Name := "cpu", Tags := [("host", "a"), ("dc", "x")], Time := 1, Value := 10 },
          { Name := "cpu", Tags := [("host", "b")], Time := 2, Value := 20 },
          { Name := "cpu", Tags := [("host", "a"), ("dc", "y")], Time := 3, Value := 30 },
          { Name := "cpu", Tags := [("host", "c")], Time := 4, Nil := true }],
      p.Aggregated =
        (([{ Name := "cpu", Tags := [("host", "a"), ("dc", "x")], Time := 1, Value := 10 },
          { Name := "cpu", Tags := [("host", "b")], Time := 2, Value := 20 },
          { Name := "cpu", Tags := [("host", "a"), ("dc", "y")], Time := 3, Value := 30 },
          { Name := "cpu", Tags := [("host", "c")], Time := 4, Nil := true }] :
            List IntegerPoint).filter fun q =>
          !q.Nil && decide (q.Name = p.Name) &&
            decide ((q.Tags.filter fun kv => kv.1 == "host") = p.Tags)).length := by
  have h := integerReduceFloatIterator_reduce_aggregated IntegerMeanReduce
    (-6795364578871345152) { }
    (fun tags => tags.filter fun kv => kv.1 == "host")
    (fun tags => String.join (tags.map fun kv => kv.1 ++ "=" ++ kv.2))
    [{ Name := "cpu", Tags := [("host", "a"), ("dc", "x")], Time := 1, Value := 10 },
      { Name := "cpu", Tags := [("host", "b")], Time := 2, Value := 20 },
      { Name := "cpu", Tags := [("host", "a"), ("dc", "y")], Time := 3, Value := 30 },
      { Name := "cpu", Tags := [("host", "c")], Time := 4, Nil := true }]
    (by
      intro prev curr hprev
      cases prev with
      | none => simp [IntegerMeanReduce]
      | some p =>
        simp only [IntegerMeanReduce]
        split <;> exact hprev p rfl)
    (by decide)
  refine ⟨?_, fun p hp => h.2 p hp⟩
  have h1 := h.1
    [{ Name := "cpu", Tags := [("host", "a"), ("dc", "x")], Time := 1, Value := 10 },
      { Name := "cpu", Tags := [("host", "b")], Time := 2, Value := 20 }]
    { Name := "cpu", Tags := [("host", "a"), ("dc", "y")], Time := 3, Value := 30 }
    "cpu\x00host=a"
  rw [h1]
  decide

/-! ## The order in which `Next` hands out the points of a window -/

/-- Popping a stack of points: as many calls of `Next` as the stack holds points return
them from the last to the first, without reading the input. -/
theorem nextN_pop (reduce : List IntegerPoint → List FloatPoint × List IntegerPoint)
    (input : List IntegerPoint) (ps : List FloatPoint) :
    nextN (ReduceIterator.Next reduce) ps.length { input := input, points := ps } =
      (ps.reverse.map some, { input := input, points := [] }) := by
  induction ps using List.reverseRecOn with
  | nil => rfl
  | append_singleton ps x ih =>
    have hlen : (ps ++ [x]).length = ps.length + 1 := by simp
    have hnext : ReduceIterator.Next reduce { input := input, points := ps ++ [x] } =
        (some x, { input := input, points := ps }) := by
      simp [ReduceIterator.Next]
    rw [hlen]
    simp only [nextN, hnext, ih, List.reverse_append, List.reverse_cons, List.reverse_nil,
      List.nil_append, List.singleton_append, List.map_cons]

/-- The calls of `Next` for one window: on an empty stack, when `reduce` gives the points
`a` for the next window, as many calls of `Next` as `a` holds points hand out the points of
`a` from the last to the first, and leave the input as `reduce` left it. -/
theorem nextN_window (reduce : List IntegerPoint → List FloatPoint × List IntegerPoint)
    (input : List IntegerPoint) :
    (nextN (ReduceIterator.Next reduce) (reduce input).1.length
        { input := input, points := [] }).1 = (reduce input).1.reverse.map some ∧
      ((reduce input).1 ≠ [] →
        (nextN (ReduceIterator.Next reduce) (reduce input).1.length
          { input := input, points := [] }).2 = { input := (reduce input).2, points := [] }) := by
  cases ha : (reduce input).1 with
  | nil => exact ⟨rfl, fun h => absurd rfl h⟩
  | cons p ps =>
    have hfirst : ReduceIterator.Next reduce { input := input, points := [] } =
        ReduceIterator.Next reduce { input := (reduce input).2, points := p :: ps } := by
      simp [ReduceIterator.Next, ha]
    have hpop := nextN_pop reduce (reduce input).2 (p :: ps)
    have hstep : nextN (ReduceIterator.Next reduce) (p :: ps).length
        { input := input, points := [] } =
        nextN (ReduceIterator.Next reduce) (p :: ps).length
          { input := (reduce input).2, points := p :: ps } := by
      simp only [List.length_cons, nextN, hfirst]
    rw [hstep, hpop]
    exact ⟨rfl, fun _ => rfl⟩

/-- What one point does to the map of `integerReduceFloatIterator.reduce`, whatever the
reducer returns: nothing, or a new accumulator with the name and tag subset of the point,
or an accumulator in place of that of the group with the same name and tags. -/
theorem integerReduceFloatMapStep_cases
    (fn : Option FloatPoint → IntegerPoint → ReduceOptions → FloatResult)
    (zeroTime : Int) (opt : ReduceOptions)
    (subset : List (String × String) → List (String × String))
    (tagsID : List (String × String) → String)
    (m : List (String × FloatPoint)) (curr : IntegerPoint) :
    integerReduceFloatMapStep fn zeroTime opt subset tagsID m curr = m ∨
      (∃ acc, m.lookup (groupID subset tagsID curr) = none ∧
        integerReduceFloatMapStep fn zeroTime opt subset tagsID m curr =
          m ++ [(groupID subset tagsID curr, acc)] ∧
        acc.Name = curr.Name ∧ acc.Tags = subset curr.Tags) ∨
      (∃ acc p0, m.lookup (groupID subset tagsID curr) = some p0 ∧
        integerReduceFloatMapStep fn zeroTime opt subset tagsID m curr =
          m.map (fun e => if e.1 = groupID subset tagsID curr
            then (groupID subset tagsID curr, acc) else e) ∧
        acc.Name = p0.Name ∧ acc.Tags = p0.Tags) := by
  cases hnil : curr.Nil with
  | true => exact Or.inl (integerReduceFloatMapStep_nil fn zeroTime opt subset tagsID m curr hnil)
  | false =>
    cases hlk : m.lookup (groupID subset tagsID curr) with
    | none =>
      unfold groupID at hlk
      by_cases hz : (fn none curr opt).1 = zeroTime
      · left
        simp only [integerReduceFloatMapStep, hnil, Bool.false_eq_true, if_false, hlk,
          integerReduceFloatStep, hz, if_true]
      · right; left
        simp only [integerReduceFloatMapStep, hnil, Bool.false_eq_true, if_false, hlk,
          integerReduceFloatStep, if_neg hz, groupID]
        exact ⟨_, trivial, rfl, rfl, rfl⟩
    | some p0 =>
      unfold groupID at hlk
      right; right
      by_cases hz : (fn (some p0) curr opt).1 = zeroTime
      · simp only [integerReduceFloatMapStep, hnil, Bool.false_eq_true, if_false, hlk,
          integerReduceFloatStep, hz, if_true, groupID]
        exact ⟨p0, p0, rfl, rfl, rfl, rfl⟩
      · simp only [integerReduceFloatMapStep, hnil, Bool.false_eq_true, if_false, hlk,
          integerReduceFloatStep, if_neg hz, groupID]
        exact ⟨_, p0, rfl, rfl, rfl, rfl⟩

/-- The map of `integerReduceFloatIterator.reduce` after the points `l`, whatever the
reducer: its ids are distinct and each is the group key of its accumulator. -/
theorem integerReduceFloatMapStep_fold_keys
    (fn : Option FloatPoint → IntegerPoint → ReduceOptions → FloatResult)
    (zeroTime : Int) (opt : ReduceOptions)
    (subset : List (String × String) → List (String × String))
    (tagsID : List (String × String) → String) (l : List IntegerPoint) :
    ((l.foldl (integerReduceFloatMapStep fn zeroTime opt subset tagsID) []).map
        Prod.fst).Nodup ∧
      ∀ e ∈ l.foldl (integerReduceFloatMapStep fn zeroTime opt subset tagsID) [],
        e.1 = floatGroupKey tagsID e.2 := by
  induction l using List.reverseRecOn with
  | nil => exact ⟨by simp, by simp⟩
  | append_singleton l x ih =>
    obtain ⟨hnd, hent⟩ := ih
    rw [List.foldl_append, List.foldl_cons, List.foldl_nil]
    generalize l.foldl (integerReduceFloatMapStep fn zeroTime opt subset tagsID) [] = m
      at hnd hent ⊢
    rcases integerReduceFloatMapStep_cases fn zeroTime opt subset tagsID m x with
      h | ⟨acc, hlk, hstep, hname, htags⟩ | ⟨acc, p0, hlk, hstep, hname, htags⟩
    · rw [h]
      exact ⟨hnd, hent⟩
    · have hknot : groupID subset tagsID x ∉ m.map Prod.fst :=
        (assoc_lookup_none_iff m _).mp hlk
      rw [hstep]
      refine ⟨?_, ?_⟩
      · rw [List.map_append, List.nodup_append]
        refine ⟨hnd, by simp, ?_⟩
        intro v hv hv'
        have : v = groupID subset tagsID x := by simpa using hv'
        exact hknot (this ▸ hv)
      · intro e he
        rcases List.mem_append.mp he with he | he
        · exact hent e he
        · have hee : e = (groupID subset tagsID x, acc) := by simpa using he
          subst hee
          show groupID subset tagsID x = floatGroupKey tagsID acc
          unfold groupID floatGroupKey
          rw [hname, htags]
    · have hcur : (groupID subset tagsID x, p0) ∈ m := assoc_mem_of_lookup m _ p0 hlk
      rw [hstep]
      refine ⟨?_, ?_⟩
      · rw [assoc_replace_keys]
        exact hnd
      · intro e he
        rcases (assoc_mem_replace m _ acc e).mp he with ⟨rfl, _⟩ | ⟨he, _⟩
        · have h0 : groupID subset tagsID x = floatGroupKey tagsID p0 := hent _ hcur
          show groupID subset tagsID x = floatGroupKey tagsID acc
          rw [h0]
          unfold floatGroupKey
          rw [hname, htags]
        · exact hent e he

/-- Looking up keys of an association list whose keys are a function `g` of the values
gives values with these keys. -/
theorem assoc_map_filterMap_lookup {κ β : Type} [DecidableEq κ] (m : List (κ × β)) (g : β → κ)
    (hg : ∀ e ∈ m, e.1 = g e.2) (ks : List κ) (hks : ∀ k ∈ ks, k ∈ m.map Prod.fst) :
    (ks.filterMap fun k => m.lookup k).map g = ks := by
  induction ks with
  | nil => rfl
  | cons k ks ih =>
    have hk : k ∈ m.map Prod.fst := hks k (by simp)
    cases hlk : m.lookup k with
    | none => exact absurd hk ((assoc_lookup_none_iff m k).mp hlk)
    | some v =>
      have hmem := assoc_mem_of_lookup m k v hlk
      have hgv : k = g v := hg _ hmem
      rw [List.filterMap_cons, hlk, List.map_cons, ← hgv,
        ih (fun k' hk' => hks k' (by simp [hk']))]

/-- Sorting distinct strings with `sort.Sort(sort.Reverse(sort.StringSlice(keys)))` gives
them in strictly descending order. -/
theorem sortStable_reverse_strings (keys : List String) (hnd : keys.Nodup) :
    (sortStable (fun (x y : String) => decide (y < x)) keys).Pairwise (fun x y => y < x) := by
  have hr : ∀ x y : String, (decide (x < y) = false) ↔ y ≤ x := by
    intro x y
    rw [decide_eq_false_iff_not, not_lt]
  have htot : IsTotal String (fun x y => decide (x < y) = false) :=
    ⟨fun x y => by simp only [hr]; exact le_total _ _⟩
  have htrans : IsTrans String (fun x y => decide (x < y) = false) :=
    ⟨fun x y z hxy hyz => by
      simp only [hr] at hxy hyz ⊢
      exact le_trans hyz hxy⟩
  have hsorted : (sortStable (fun (x y : String) => decide (y < x)) keys).Pairwise
      (fun x y => decide (x < y) = false) := List.sorted_insertionSort _ keys
  have hnd' : (sortStable (fun (x y : String) => decide (y < x)) keys).Nodup :=
    (List.perm_insertionSort _ keys).nodup_iff.mpr hnd
  have hboth := hsorted.and hnd'
  refine hboth.imp ?_
  intro x y hxy
  have hle : y ≤ x := (hr x y).mp hxy.1
  exact lt_of_le_of_ne hle (fun h => hxy.2 h.symm)

/-- The group keys of the points `integerReduceFloatIterator.reduce` returns are in strictly
descending order. -/
theorem integerReduceFloatIterator_reduce_descending
    (fn : Option FloatPoint → IntegerPoint → ReduceOptions → FloatResult)
    (zeroTime : Int) (opt : ReduceOptions)
    (subset : List (String × String) → List (String × String))
    (tagsID : List (String × String) → String) (points : List IntegerPoint) :
    ((integerReduceFloatIterator.reduce fn zeroTime opt subset tagsID points).map
      (floatGroupKey tagsID)).Pairwise (fun x y => y < x) := by
  obtain ⟨hnd, hent⟩ := integerReduceFloatMapStep_fold_keys fn zeroTime opt subset tagsID points
  unfold integerReduceFloatIterator.reduce
  generalize points.foldl (integerReduceFloatMapStep fn zeroTime opt subset tagsID) [] = m
    at hnd hent ⊢
  have hkeys : ∀ k ∈ sortStable (fun (x y : String) => decide (y < x)) (m.map Prod.fst),
      k ∈ m.map Prod.fst := fun k hk => (List.perm_insertionSort _ _).mem_iff.mp hk
  have hmap := assoc_map_filterMap_lookup m (floatGroupKey tagsID) hent _ hkeys
  have hstamp : ∀ l : List FloatPoint,
      (l.map fun (p : FloatPoint) => { p with Time := opt.StartTime }).map
        (floatGroupKey tagsID) = l.map (floatGroupKey tagsID) := by
    intro l
    rw [List.map_map]
    rfl
  simp only [hstamp, hmap]
  exact sortStable_reverse_strings _ hnd

/-- C31, counterexample: a window holding one point of the group "a" and one of the group
"b". `reduce` returns the point of "b" before that of "a" (reverse order of the keys), and
`Next`, which pops the last point off the stack, hands out the point of "a" first and the
point of "b" second: the keys of the points handed out ascend. -/
theorem integerReduceFloatIterator_next_not_descending :
    (integerReduceFloatIterator.reduceNextWindow IntegerMeanReduce (-6795364578871345152)
        (fun _ => (0, 10)) (fun tags => tags)
        (fun tags => String.join (tags.map fun kv => kv.1 ++ "=" ++ kv.2))
        [{ Name := "a", Time := 1, Value := 1 }, { Name := "b", Time := 2, Value := 2 }]).1 =
      [{ Name := "b", Time := 0, Value := 2, Aggregated := 1 },
        { Name := "a", Time := 0, Value := 1, Aggregated := 1 }] ∧
    (nextN (integerReduceFloatIterator.Next IntegerMeanReduce (-6795364578871345152)
        (fun _ => (0, 10)) (fun tags => tags)
        (fun tags => String.join (tags.map fun kv => kv.1 ++ "=" ++ kv.2))) 2
        { input := [{ Name := "a", Time := 1, Value := 1 },
            { Name := "b", Time := 2, Value := 2 }],
          points := [] }).1 =
      [some { Name := "a", Time := 0, Value := 1, Aggregated := 1 },
        some { Name := "b", Time := 0, Value := 2, Aggregated := 1 }] ∧
    floatGroupKey (fun tags => String.join (tags.map fun kv => kv.1 ++ "=" ++ kv.2))
        { Name := "a", Time := 0, Value := 1, Aggregated := 1 } <
      floatGroupKey (fun tags => String.join (tags.map fun kv => kv.1 ++ "=" ++ kv.2))
        { Name := "b", Time := 0, Value := 2, Aggregated := 1 } := by
  have hread : readWindow 0 10
      [{ Name := "a", Time := 1, Value := 1 }, { Name := "b", Time := 2, Value := 2 }] =
      ([{ Name := "a", Time := 1, Value := 1 }, { Name := "b", Time := 2, Value := 2 }], []) := by
    decide
  have hm : ([{ Name := "a", Time := 1, Value := 1 }, { Name := "b", Time := 2, Value := 2 }] :
        List IntegerPoint).foldl
      (integerReduceFloatMapStep IntegerMeanReduce (-6795364578871345152)
        { StartTime := 0, EndTime := 10 } (fun tags => tags)
        (fun tags => String.join (tags.map fun kv => kv.1 ++ "=" ++ kv.2))) [] =
      [("a\x00", { Name := "a", Time := 0, Value := 1, Aggregated := 1 }),
        ("b\x00", { Name := "b", Time := 0, Value := 2, Aggregated := 1 })] := by
    decide
  have hlt : decide ("a\x00" < "b\x00") = true := by
    rw [decide_eq_true_iff, String.lt_iff_toList_lt]
    decide
  have hsort : sortStable (fun (x y : String) => decide (y < x)) ["a\x00", "b\x00"] =
      ["b\x00", "a\x00"] := by
    simp only [sortStable, List.insertionSort, List.orderedInsert, hlt]
    simp
  have hred : integerReduceFloatIterator.reduceNextWindow IntegerMeanReduce
      (-6795364578871345152) (fun _ => (0, 10)) (fun tags => tags)
      (fun tags => String.join (tags.map fun kv => kv.1 ++ "=" ++ kv.2))
      [{ Name := "a", Time := 1, Value := 1 }, { Name := "b", Time := 2, Value := 2 }] =
      ([{ Name := "b", Time := 0, Value := 2, Aggregated := 1 },
        { Name := "a", Time := 0, Value := 1, Aggregated := 1 }], []) := by
    simp only [integerReduceFloatIterator.reduceNextWindow, hread,
      integerReduceFloatIterator.reduce, hm, List.map_cons, List.map_nil, hsort]
    decide
  have hw := (nextN_window (integerReduceFloatIterator.reduceNextWindow IntegerMeanReduce
      (-6795364578871345152) (fun _ => (0, 10)) (fun tags => tags)
      (fun tags => String.join (tags.map fun kv => kv.1 ++ "=" ++ kv.2)))
      [{ Name := "a", Time := 1, Value := 1 }, { Name := "b", Time := 2, Value := 2 }]).1
  rw [hred] at hw
  refine ⟨by rw [hred], hw, ?_⟩
  rw [String.lt_iff_toList_lt]
  decide

/-- C31, amended: for every window, the points handed out by the successive calls of `Next`
of `integerReduceFloatIterator` for that window are the points of `reduce` from the last to
the first, and their group keys `Name + "\x00" + Tags.ID()` are in strictly ascending
lexicographic order. -/
theorem integerReduceFloatIterator_next_ascending
    (fn : Option FloatPoint → IntegerPoint → ReduceOptions → FloatResult)
    (zeroTime : Int) (window : Int → Int × Int)
    (subset : List (String × String) → List (String × String))
    (tagsID : List (String × String) → String) (input : List IntegerPoint) :
    (nextN (integerReduceFloatIterator.Next fn zeroTime window subset tagsID)
        (integerReduceFloatIterator.reduceNextWindow fn zeroTime window subset tagsID
          input).1.length { input := input, points := [] }).1 =
      (integerReduceFloatIterator.reduceNextWindow fn zeroTime window subset tagsID
        input).1.reverse.map some ∧
    ((integerReduceFloatIterator.reduceNextWindow fn zeroTime window subset tagsID
        input).1.reverse.map (floatGroupKey tagsID)).Pairwise (fun x y => x < y) := by
  refine ⟨(nextN_window
    (integerReduceFloatIterator.reduceNextWindow fn zeroTime window subset tagsID) input).1, ?_⟩
  rw [List.map_reverse, List.pairwise_reverse]
  exact integerReduceFloatIterator_reduce_descending fn zeroTime _ subset tagsID _

/-- C37, evaluated at a failing input: windows of width 10, a `Nil` point at time 5 and a
point of value 7 at time 15. The first `Next` reduces the window [0, 10), which holds the
`Nil` point only, gets no points and returns `nil`, so draining ends with no result, the
point at time 15 still unread; the (window, group) pair ([10, 20), cpu) holds a non-`Nil`
point and the next call of `Next` would return its mean. -/
theorem integerReduceFloatIterator_drain_stops_at_nil_window :
    (integerReduceFloatIterator.Next IntegerMeanReduce (-6795364578871345152)
        (fun t => (t - t % 10, t - t % 10 + 10)) (fun tags => tags)
        (fun tags => String.join (tags.map fun kv => kv.1 ++ "=" ++ kv.2))
        { input := [{ Name := "cpu", Time := 5, Nil := true },
            { Name := "cpu", Time := 15, Value := 7 }],
          points := [] }) =
      (none, { input := [{ Name := "cpu", Time := 15, Value := 7 }], points := [] }) ∧
    (∀ fuel, drain (integerReduceFloatIterator.Next IntegerMeanReduce (-6795364578871345152)
        (fun t => (t - t % 10, t - t % 10 + 10)) (fun tags => tags)
        (fun tags => String.join (tags.map fun kv => kv.1 ++ "=" ++ kv.2))) fuel
        { input := [{ Name := "cpu", Time := 5, Nil := true },
            { Name := "cpu", Time := 15, Value := 7 }],
          points := [] } = []) ∧
    (integerReduceFloatIterator.Next IntegerMeanReduce (-6795364578871345152)
        (fun t => (t - t % 10, t - t % 10 + 10)) (fun tags => tags)
        (fun tags => String.join (tags.map fun kv => kv.1 ++ "=" ++ kv.2))
        { input := [{ Name := "cpu", Time := 15, Value := 7 }], points := [] }) =
      (some { Name := "cpu", Time := 10, Value := 7, Aggregated := 1 },
        { input := [], points := [] }) := by
  have h1 : (integerReduceFloatIterator.Next IntegerMeanReduce (-6795364578871345152)
        (fun t => (t - t % 10, t - t % 10 + 10)) (fun tags => tags)
        (fun tags => String.join (tags.map fun kv => kv.1 ++ "=" ++ kv.2))
        { input := [{ Name := "cpu", Time := 5, Nil := true },
            { Name := "cpu", Time := 15, Value := 7 }],
          points := [] }) =
      (none, { input := [{ Name := "cpu", Time := 15, Value := 7 }], points := [] }) := by
    decide
  refine ⟨h1, ?_, by decide⟩
  intro fuel
  cases fuel with
  | zero => rfl
  | succ n =>
    unfold drain
    rw [h1]

/-! ## The slice engine: groups, results and the order of emission -/

/-- The map `groups` of `integerReduceSliceFloatIterator.reduce` after the points `l`: its
ids are distinct; each group holds the points of `l` with its id, in their order, and has
the name and the tag subset of the last of them; every point of `l` has its id in the
map. -/
theorem integerReduceSliceFloatGroupStep_fold
    (subset : List (String × String) → List (String × String))
    (tagsID : List (String × String) → String) (l : List IntegerPoint) :
    ((l.foldl (integerReduceSliceFloatGroupStep subset tagsID) []).map Prod.fst).Nodup ∧
      (∀ e ∈ l.foldl (integerReduceSliceFloatGroupStep subset tagsID) [],
        e.2.points = l.filter (fun p => decide (sliceGroupID subset tagsID p = e.1)) ∧
          ∃ last, e.2.points.getLast? = some last ∧ e.2.name = last.Name ∧
            e.2.tags = subset last.Tags) ∧
      ∀ p ∈ l, sliceGroupID subset tagsID p ∈
        (l.foldl (integerReduceSliceFloatGroupStep subset tagsID) []).map Prod.fst := by
  induction l using List.reverseRecOn with
  | nil => exact ⟨by simp, by simp, by simp⟩
  | append_singleton l x ih =>
    obtain ⟨hnd, hent, hall⟩ := ih
    rw [List.foldl_append, List.foldl_cons, List.foldl_nil]
    generalize l.foldl (integerReduceSliceFloatGroupStep subset tagsID) [] = groups
      at hnd hent hall ⊢
    have hfilter_ne : ∀ k, k ≠ sliceGroupID subset tagsID x →
        (l ++ [x]).filter (fun p => decide (sliceGroupID subset tagsID p = k)) =
          l.filter (fun p => decide (sliceGroupID subset tagsID p = k)) := by
      intro k hk
      have : ¬ sliceGroupID subset tagsID x = k := fun h => hk h.symm
      simp [List.filter_append, List.filter_cons, this]
    have hfilter_eq : (l ++ [x]).filter
        (fun p => decide (sliceGroupID subset tagsID p = sliceGroupID subset tagsID x)) =
          l.filter (fun p =>
            decide (sliceGroupID subset tagsID p = sliceGroupID subset tagsID x)) ++ [x] := by
      simp [List.filter_append, List.filter_cons]
    cases hlk : groups.lookup (sliceGroupID subset tagsID x) with
    | none =>
      have hstep : integerReduceSliceFloatGroupStep subset tagsID groups x =
          groups ++ [(sliceGroupID subset tagsID x,
            { name := x.Name, tags := subset x.Tags, points := [x] })] := by
        unfold sliceGroupID at hlk
        simp only [integerReduceSliceFloatGroupStep, hlk, sliceGroupID]
      have hknot : sliceGroupID subset tagsID x ∉ groups.map Prod.fst :=
        (assoc_lookup_none_iff groups _).mp hlk
      rw [hstep]
      refine ⟨?_, ?_, ?_⟩
      · rw [List.map_append, List.nodup_append]
        refine ⟨hnd, by simp, ?_⟩
        intro v hv hv'
        have : v = sliceGroupID subset tagsID x := by simpa using hv'
        exact hknot (this ▸ hv)
      · intro e he
        rcases List.mem_append.mp he with he | he
        · have hne : e.1 ≠ sliceGroupID subset tagsID x :=
            fun h => hknot (h ▸ List.mem_map.mpr ⟨e, he, rfl⟩)
          rw [hfilter_ne e.1 hne]
          exact hent e he
        · have hee : e = (sliceGroupID subset tagsID x,
              { name := x.Name, tags := subset x.Tags, points := [x] }) := by simpa using he
          subst hee
          refine ⟨?_, x, rfl, rfl, rfl⟩
          show [x] = _
          rw [hfilter_eq]
          have hnone : l.filter (fun p =>
              decide (sliceGroupID subset tagsID p = sliceGroupID subset tagsID x)) = [] := by
            rw [List.filter_eq_nil_iff]
            intro p hp hpid
            have hpid' : sliceGroupID subset tagsID p = sliceGroupID subset tagsID x := by
              simpa using hpid
            exact hknot (hpid' ▸ hall p hp)
          rw [hnone]
          rfl
      · intro p hp
        rw [List.map_append]
        rcases List.mem_append.mp hp with hp | hp
        · exact List.mem_append_left _ (hall p hp)
        · have hpx : p = x := by simpa using hp
          subst hpx
          simp
    | some g =>
      have hstep : integerReduceSliceFloatGroupStep subset tagsID groups x =
          groups.map (fun e => if e.1 = sliceGroupID subset tagsID x then
            (sliceGroupID subset tagsID x,
              { name := x.Name, tags := subset x.Tags, points := g.points ++ [x] }) else e) := by
        unfold sliceGroupID at hlk
        simp only [integerReduceSliceFloatGroupStep, hlk, sliceGroupID]
      have hcur : (sliceGroupID subset tagsID x, g) ∈ groups := assoc_mem_of_lookup groups _ g hlk
      have hkin : sliceGroupID subset tagsID x ∈ groups.map Prod.fst :=
        List.mem_map.mpr ⟨_, hcur, rfl⟩
      rw [hstep]
      refine ⟨?_, ?_, ?_⟩
      · rw [assoc_replace_keys]
        exact hnd
      · intro e he
        rcases (assoc_mem_replace groups _ _ e).mp he with ⟨rfl, _⟩ | ⟨he, hne⟩
        · refine ⟨?_, x, by simp, rfl, rfl⟩
          show g.points ++ [x] = _
          rw [hfilter_eq, (hent _ hcur).1]
        · rw [hfilter_ne e.1 hne]
          exact hent e he
      · intro p hp
        rw [assoc_replace_keys]
        rcases List.mem_append.mp hp with hp | hp
        · exact hall p hp
        · have hpx : p = x := by simpa using hp
          subst hpx
          exact hkin

/-- In an association list with distinct keys, an entry is what `lookup` finds. -/
theorem assoc_lookup_of_mem {κ β : Type} [DecidableEq κ] (m : List (κ × β))
    (hnd : (m.map Prod.fst).Nodup) (k : κ) (v : β) (h : (k, v) ∈ m) : m.lookup k = some v := by
  cases hlk : m.lookup k with
  | none =>
    exact absurd (List.mem_map.mpr ⟨(k, v), h, rfl⟩) ((assoc_lookup_none_iff m k).mp hlk)
  | some v' =>
    have hmem := assoc_mem_of_lookup m k v' hlk
    have := assoc_eq_of_nodup m hnd (k, v') (k, v) hmem h rfl
    rw [(Prod.mk.inj this).2]

/-- The keys of `results` are keys of `groups`, in the same order. -/
theorem sliceResults_keys_sublist (fn : List IntegerPoint → ReduceOptions → List FloatPoint)
    (opt : ReduceOptions) (groups : List (String × SliceGroup)) :
    List.Sublist ((integerReduceSliceFloatIterator.results fn opt groups).map Prod.fst)
      (groups.map Prod.fst) := by
  induction groups with
  | nil => exact List.Sublist.slnil
  | cons e groups ih =>
    unfold integerReduceSliceFloatIterator.results at ih ⊢
    rw [List.filterMap_cons]
    by_cases h : (fn e.2.points opt).length = 0
    · simp only [h, if_true, List.map_cons]
      exact ih.cons _
    · simp only [h, if_false, List.map_cons]
      exact ih.cons₂ _

/-- The entries of `results`: for a group of `groups` with a non-empty result of `fn`,
that result with the name and tags of the group. -/
theorem sliceResults_mem (fn : List IntegerPoint → ReduceOptions → List FloatPoint)
    (opt : ReduceOptions) (groups : List (String × SliceGroup)) (k : String)
    (r : List FloatPoint) :
    (k, r) ∈ integerReduceSliceFloatIterator.results fn opt groups ↔
      ∃ g, (k, g) ∈ groups ∧ fn g.points opt ≠ [] ∧
        r = (fn g.points opt).map
          fun (q : FloatPoint) => { q with Name := g.name, Tags := g.tags } := by
  unfold integerReduceSliceFloatIterator.results
  rw [List.mem_filterMap]
  constructor
  · rintro ⟨e, he, h⟩
    by_cases hlen : (fn e.2.points opt).length = 0
    · simp [hlen] at h
    · simp only [hlen, if_false, Option.some.injEq, Prod.mk.injEq] at h
      obtain ⟨h1, h2⟩ := h
      refine ⟨e.2, ?_, ?_, h2.symm⟩
      · rw [← h1]
        exact he
      · intro h0
        exact hlen (by rw [h0]; rfl)
  · rintro ⟨g, hg, hne, rfl⟩
    refine ⟨(k, g), hg, ?_⟩
    have hlen : ¬ (fn g.points opt).length = 0 := fun h => hne (List.length_eq_zero.mp h)
    simp only [hlen, if_false]

/-- The reverse of what `integerReduceSliceFloatIterator.reduce` returns: over the keys of
`results` in ascending order, the points of each key in the order of `results`. -/
theorem integerReduceSliceFloatIterator_reduce_reverse
    (fn : List IntegerPoint → ReduceOptions → List FloatPoint) (opt : ReduceOptions)
    (subset : List (String × String) → List (String × String))
    (tagsID : List (String × String) → String) (points : List IntegerPoint) :
    (integerReduceSliceFloatIterator.reduce fn opt subset tagsID points).reverse =
      (sortStable (fun (x y : String) => decide (y < x))
        ((integerReduceSliceFloatIterator.results fn opt
          (integerReduceSliceFloatIterator.groups subset tagsID points)).map
            Prod.fst)).reverse.flatMap
        fun k => ((integerReduceSliceFloatIterator.results fn opt
          (integerReduceSliceFloatIterator.groups subset tagsID points)).lookup k).getD [] := by
  unfold integerReduceSliceFloatIterator.reduce
  simp only [List.reverse_flatMap]
  apply List.flatMap_congr
  intro k _
  simp

/-- The keys of `results` are distinct. -/
theorem sliceResults_keys_nodup (fn : List IntegerPoint → ReduceOptions → List FloatPoint)
    (opt : ReduceOptions) (subset : List (String × String) → List (String × String))
    (tagsID : List (String × String) → String) (points : List IntegerPoint) :
    ((integerReduceSliceFloatIterator.results fn opt
      (integerReduceSliceFloatIterator.groups subset tagsID points)).map Prod.fst).Nodup :=
  (sliceResults_keys_sublist fn opt _).nodup
    (integerReduceSliceFloatGroupStep_fold subset tagsID points).1

/-- The result of a group of `groups`, said with the points of the window. -/
theorem sliceGroupResult_of_mem (fn : List IntegerPoint → ReduceOptions → List FloatPoint)
    (opt : ReduceOptions) (subset : List (String × String) → List (String × String))
    (tagsID : List (String × String) → String) (points : List IntegerPoint)
    (k : String) (g : SliceGroup)
    (h : (k, g) ∈ integerReduceSliceFloatIterator.groups subset tagsID points) :
    sliceGroupResult fn opt subset tagsID points k =
      (fn g.points opt).map fun (q : FloatPoint) => { q with Name := g.name, Tags := g.tags } := by
  obtain ⟨hpts, last, hlast, hname, htags⟩ :=
    (integerReduceSliceFloatGroupStep_fold subset tagsID points).2.1 (k, g) h
  have hpts' : g.points = points.filter fun p => decide (sliceGroupID subset tagsID p = k) := hpts
  have hlast' : g.points.getLast? = some last := hlast
  have hname' : g.name = last.Name := hname
  have htags' : g.tags = subset last.Tags := htags
  unfold sliceGroupResult
  rw [← hpts', hlast', hname', htags']

/-- The ids of the points of the window are the keys of `groups`. -/
theorem sliceGroups_keys_mem (subset : List (String × String) → List (String × String))
    (tagsID : List (String × String) → String) (points : List IntegerPoint) (k : String) :
    k ∈ (integerReduceSliceFloatIterator.groups subset tagsID points).map Prod.fst ↔
      k ∈ points.map (sliceGroupID subset tagsID) := by
  obtain ⟨_, hent, hall⟩ := integerReduceSliceFloatGroupStep_fold subset tagsID points
  constructor
  · intro hk
    obtain ⟨e, he, rfl⟩ := List.mem_map.mp hk
    obtain ⟨hpts, last, hlast, _, _⟩ := hent e he
    have hmem : last ∈ e.2.points := List.mem_of_getLast?_eq_some hlast
    rw [hpts, List.mem_filter] at hmem
    exact List.mem_map.mpr ⟨last, hmem.1, by simpa using hmem.2⟩
  · intro hk
    obtain ⟨p, hp, rfl⟩ := List.mem_map.mp hk
    exact hall p hp

/-- The keys of `results` are the ids of the window whose group has a non-empty result. -/
theorem sliceResults_keys_mem (fn : List IntegerPoint → ReduceOptions → List FloatPoint)
    (opt : ReduceOptions) (subset : List (String × String) → List (String × String))
    (tagsID : List (String × String) → String) (points : List IntegerPoint) (k : String) :
    k ∈ (integerReduceSliceFloatIterator.results fn opt
        (integerReduceSliceFloatIterator.groups subset tagsID points)).map Prod.fst ↔
      k ∈ points.map (sliceGroupID subset tagsID) ∧
        sliceGroupResult fn opt subset tagsID points k ≠ [] := by
  constructor
  · intro hk
    obtain ⟨e, he, rfl⟩ := List.mem_map.mp hk
    obtain ⟨g, hg, hne, _⟩ := (sliceResults_mem fn opt _ e.1 e.2).mp he
    refine ⟨(sliceGroups_keys_mem subset tagsID points e.1).mp
      (List.mem_map.mpr ⟨_, hg, rfl⟩), ?_⟩
    rw [sliceGroupResult_of_mem fn opt subset tagsID points e.1 g hg]
    intro h0
    exact hne (List.map_eq_nil_iff.mp h0)
  · rintro ⟨hk, hne⟩
    obtain ⟨e, he, rfl⟩ :=
      List.mem_map.mp ((sliceGroups_keys_mem subset tagsID points k).mpr hk)
    rw [sliceGroupResult_of_mem fn opt subset tagsID points e.1 e.2 he] at hne
    have hne' : fn e.2.points opt ≠ [] := fun h0 => hne (by rw [h0]; rfl)
    exact List.mem_map.mpr ⟨(e.1, _),
      (sliceResults_mem fn opt _ e.1 _).mpr ⟨e.2, he, hne', rfl⟩, rfl⟩

/-- What `results` holds for one of its keys is the result of the group. -/
theorem sliceResults_lookup (fn : List IntegerPoint → ReduceOptions → List FloatPoint)
    (opt : ReduceOptions) (subset : List (String × String) → List (String × String))
    (tagsID : List (String × String) → String) (points : List IntegerPoint) (k : String)
    (hk : k ∈ (integerReduceSliceFloatIterator.results fn opt
      (integerReduceSliceFloatIterator.groups subset tagsID points)).map Prod.fst) :
    (integerReduceSliceFloatIterator.results fn opt
      (integerReduceSliceFloatIterator.groups subset tagsID points)).lookup k =
        some (sliceGroupResult fn opt subset tagsID points k) := by
  obtain ⟨e, he, rfl⟩ := List.mem_map.mp hk
  obtain ⟨g, hg, _, hr⟩ := (sliceResults_mem fn opt _ e.1 e.2).mp he
  rw [sliceGroupResult_of_mem fn opt subset tagsID points e.1 g hg, ← hr]
  exact assoc_lookup_of_mem _ (sliceResults_keys_nodup fn opt subset tagsID points) e.1 e.2 he

/-- The keys of `results` in ascending order are the distinct ids of the window in ascending
order, less those whose group has an empty result. -/
theorem sliceResults_keys_ascending (fn : List IntegerPoint → ReduceOptions → List FloatPoint)
    (opt : ReduceOptions) (subset : List (String × String) → List (String × String))
    (tagsID : List (String × String) → String) (points : List IntegerPoint) :
    (sortStable (fun (x y : String) => decide (y < x))
        ((integerReduceSliceFloatIterator.results fn opt
          (integerReduceSliceFloatIterator.groups subset tagsID points)).map Prod.fst)).reverse =
      (((points.map (sliceGroupID subset tagsID)).dedup).insertionSort (fun x y => x ≤ y)).filter
        fun k => decide (sliceGroupResult fn opt subset tagsID points k ≠ []) := by
  have hnd := sliceResults_keys_nodup fn opt subset tagsID points
  have hdesc := sortStable_reverse_strings _ hnd
  have hasc : ((sortStable (fun (x y : String) => decide (y < x))
      ((integerReduceSliceFloatIterator.results fn opt
        (integerReduceSliceFloatIterator.groups subset tagsID points)).map
          Prod.fst)).reverse).Pairwise (fun x y => x < y) := List.pairwise_reverse.mpr hdesc
  have hnd1 : ((sortStable (fun (x y : String) => decide (y < x))
      ((integerReduceSliceFloatIterator.results fn opt
        (integerReduceSliceFloatIterator.groups subset tagsID points)).map
          Prod.fst)).reverse).Nodup :=
    List.nodup_reverse.mpr ((List.perm_insertionSort _ _).nodup_iff.mpr hnd)
  have hnd2 : ((((points.map (sliceGroupID subset tagsID)).dedup).insertionSort
      (fun x y => x ≤ y)).filter
        fun k => decide (sliceGroupResult fn opt subset tagsID points k ≠ [])).Nodup :=
    List.Nodup.filter _ ((List.perm_insertionSort _ _).nodup_iff.mpr (List.nodup_dedup _))
  have hsorted2 : ((((points.map (sliceGroupID subset tagsID)).dedup).insertionSort
      (fun x y => x ≤ y)).filter
        fun k => decide (sliceGroupResult fn opt subset tagsID points k ≠ [])).Pairwise
          (fun x y => x ≤ y) :=
    List.Pairwise.sublist (List.filter_sublist _) (List.sorted_insertionSort (fun x y => x ≤ y) _)
  refine List.eq_of_perm_of_sorted ?_ (hasc.imp (fun h => le_of_lt h)) hsorted2
  rw [List.perm_ext_iff_of_nodup hnd1 hnd2]
  intro k
  have h1 : k ∈ sortStable (fun (x y : String) => decide (y < x))
      ((integerReduceSliceFloatIterator.results fn opt
        (integerReduceSliceFloatIterator.groups subset tagsID points)).map Prod.fst) ↔
      k ∈ (integerReduceSliceFloatIterator.results fn opt
        (integerReduceSliceFloatIterator.groups subset tagsID points)).map Prod.fst :=
    (List.perm_insertionSort _ _).mem_iff
  rw [List.mem_reverse, h1, sliceResults_keys_mem fn opt subset tagsID points k,
    List.mem_filter, (List.perm_insertionSort _ _).mem_iff, List.mem_dedup]
  simp

/-- The sequence the slice engine hands out for a window, as the reference says it. -/
theorem integerReduceSliceFloatIterator_reduce_reverse_eq_reference
    (fn : List IntegerPoint → ReduceOptions → List FloatPoint) (opt : ReduceOptions)
    (subset : List (String × String) → List (String × String))
    (tagsID : List (String × String) → String) (points : List IntegerPoint) :
    (integerReduceSliceFloatIterator.reduce fn opt subset tagsID points).reverse =
      sliceNextReference fn opt subset tagsID points := by
  rw [integerReduceSliceFloatIterator_reduce_reverse, sliceResults_keys_ascending]
  unfold sliceNextReference
  apply List.flatMap_congr
  intro k hk
  have hk' := (List.mem_filter.mp hk)
  have hkin : k ∈ (integerReduceSliceFloatIterator.results fn opt
      (integerReduceSliceFloatIterator.groups subset tagsID points)).map Prod.fst := by
    rw [sliceResults_keys_mem]
    refine ⟨?_, by simpa using hk'.2⟩
    have := (List.perm_insertionSort _ _).mem_iff.mp hk'.1
    exact List.mem_dedup.mp this
  rw [sliceResults_lookup fn opt subset tagsID points k hkin]
  rfl

/-- C33, counterexample: a window with the points 1 and 3 of the group host=a and the
point 2 of the group host=b, the reducer returning the points it is given. `reduce` returns
the point of host=b and then the points 3 and 1 of host=a; `Next`, which pops the last
point off the stack, hands out the points 1 and 3 of host=a and then the point of host=b:
the groups come in ascending order of their key. -/
theorem integerReduceSliceFloatIterator_next_not_descending :
    (integerReduceSliceFloatIterator.reduceNextWindow
        (fun a _ => a.map fun p => { Time := p.Time, Value := (p.Value : ℚ) })
        (-6795364578871345152) (fun _ => (0, 10)) (fun tags => tags)
        (fun tags => String.join (tags.map fun kv => kv.1 ++ "=" ++ kv.2))
        [{ Name := "cpu", Tags := [("host", "a")], Time := 1, Value := 1 },
          { Name := "cpu", Tags := [("host", "b")], Time := 2, Value := 2 },
          { Name := "cpu", Tags := [("host", "a")], Time := 3, Value := 3 }]).1 =
      [{ Name := "cpu", Tags := [("host", "b")], Time := 2, Value := 2 },
        { Name := "cpu", Tags := [("host", "a")], Time := 3, Value := 3 },
        { Name := "cpu", Tags := [("host", "a")], Time := 1, Value := 1 }] ∧
    (nextN (integerReduceSliceFloatIterator.Next
        (fun a _ => a.map fun p => { Time := p.Time, Value := (p.Value : ℚ) })
        (-6795364578871345152) (fun _ => (0, 10)) (fun tags => tags)
        (fun tags => String.join (tags.map fun kv => kv.1 ++ "=" ++ kv.2))) 3
        { input := [{ Name := "cpu", Tags := [("host", "a")], Time := 1, Value := 1 },
            { Name := "cpu", Tags := [("host", "b")], Time := 2, Value := 2 },
            { Name := "cpu", Tags := [("host", "a")], Time := 3, Value := 3 }],
          points := [] }).1 =
      [some { Name := "cpu", Tags := [("host", "a")], Time := 1, Value := 1 },
        some { Name := "cpu", Tags := [("host", "a")], Time := 3, Value := 3 },
        some { Name := "cpu", Tags := [("host", "b")], Time := 2, Value := 2 }] ∧
    ("host=a" : String) < "host=b" := by
  have hread : readWindow 0 10
      [{ Name := "cpu", Tags := [("host", "a")], Time := 1, Value := 1 },
        { Name := "cpu", Tags := [("host", "b")], Time := 2, Value := 2 },
        { Name := "cpu", Tags := [("host", "a")], Time := 3, Value := 3 }] =
      ([{ Name := "cpu", Tags := [("host", "a")], Time := 1, Value := 1 },
        { Name := "cpu", Tags := [("host", "b")], Time := 2, Value := 2 },
        { Name := "cpu", Tags := [("host", "a")], Time := 3, Value := 3 }], []) := by
    decide
  have hres : integerReduceSliceFloatIterator.results
      (fun a _ => a.map fun p => { Time := p.Time, Value := (p.Value : ℚ) })
      { StartTime := 0, EndTime := 10 }
      (integerReduceSliceFloatIterator.groups (fun tags => tags)
        (fun tags => String.join (tags.map fun kv => kv.1 ++ "=" ++ kv.2))
        [{ Name := "cpu", Tags := [("host", "a")], Time := 1, Value := 1 },
          { Name := "cpu", Tags := [("host", "b")], Time := 2, Value := 2 },
          { Name := "cpu", Tags := [("host", "a")], Time := 3, Value := 3 }]) =
      [("host=a", [{ Name := "cpu", Tags := [("host", "a")], Time := 1, Value := 1 },
          { Name := "cpu", Tags := [("host", "a")], Time := 3, Value := 3 }]),
        ("host=b", [{ Name := "cpu", Tags := [("host", "b")], Time := 2, Value := 2 }])] := by
    decide
  have hlt : ("host=a" : String) < "host=b" := by
    rw [String.lt_iff_toList_lt]
    decide
  have hsort : sortStable (fun (x y : String) => decide (y < x)) ["host=a", "host=b"] =
      ["host=b", "host=a"] := by
    simp only [sortStable, List.insertionSort, List.orderedInsert, decide_eq_true hlt]
    simp
  have hred : integerReduceSliceFloatIterator.reduceNextWindow
      (fun a _ => a.map fun p => { Time := p.Time, Value := (p.Value : ℚ) })
      (-6795364578871345152) (fun _ => (0, 10)) (fun tags => tags)
      (fun tags => String.join (tags.map fun kv => kv.1 ++ "=" ++ kv.2))
      [{ Name := "cpu", Tags := [("host", "a")], Time := 1, Value := 1 },
        { Name := "cpu", Tags := [("host", "b")], Time := 2, Value := 2 },
        { Name := "cpu", Tags := [("host", "a")], Time := 3, Value := 3 }] =
      ([{ Name := "cpu", Tags := [("host", "b")], Time := 2, Value := 2 },
        { Name := "cpu", Tags := [("host", "a")], Time := 3, Value := 3 },
        { Name := "cpu", Tags := [("host", "a")], Time := 1, Value := 1 }], []) := by
    simp only [integerReduceSliceFloatIterator.reduceNextWindow, hread,
      integerReduceSliceFloatIterator.reduce, hres, List.map_cons, List.map_nil, hsort]
    decide
  have hw := (nextN_window (integerReduceSliceFloatIterator.reduceNextWindow
      (fun a _ => a.map fun p => { Time := p.Time, Value := (p.Value : ℚ) })
      (-6795364578871345152) (fun _ => (0, 10)) (fun tags => tags)
      (fun tags => String.join (tags.map fun kv => kv.1 ++ "=" ++ kv.2)))
      [{ Name := "cpu", Tags := [("host", "a")], Time := 1, Value := 1 },
        { Name := "cpu", Tags := [("host", "b")], Time := 2, Value := 2 },
        { Name := "cpu", Tags := [("host", "a")], Time := 3, Value := 3 }]).1
  rw [hred] at hw
  exact ⟨by rw [hred], hw, hlt⟩

/-- C33, amended: for every window processed by `integerReduceSliceFloatIterator`, the
points handed out by the successive calls of `Next` are the points of `reduce` from the
last to the first; in that order the groups appear in strictly ascending lexicographic
order of their key, and the points of each group appear in the order in which the slice
reducer returned them (with the name and tags of the group). -/
theorem integerReduceSliceFloatIterator_next_order
    (fn : List IntegerPoint → ReduceOptions → List FloatPoint)
    (zeroTime : Int) (window : Int → Int × Int)
    (subset : List (String × String) → List (String × String))
    (tagsID : List (String × String) → String) (input : List IntegerPoint)
    (opt : ReduceOptions) (points : List IntegerPoint) :
    (nextN (integerReduceSliceFloatIterator.Next fn zeroTime window subset tagsID)
        (integerReduceSliceFloatIterator.reduceNextWindow fn zeroTime window subset tagsID
          input).1.length { input := input, points := [] }).1 =
      (integerReduceSliceFloatIterator.reduceNextWindow fn zeroTime window subset tagsID
        input).1.reverse.map some ∧
    (integerReduceSliceFloatIterator.reduce fn opt subset tagsID points).reverse =
      (sortStable (fun (x y : String) => decide (y < x))
        ((integerReduceSliceFloatIterator.results fn opt
          (integerReduceSliceFloatIterator.groups subset tagsID points)).map
            Prod.fst)).reverse.flatMap
        (fun k => ((integerReduceSliceFloatIterator.results fn opt
          (integerReduceSliceFloatIterator.groups subset tagsID points)).lookup k).getD []) ∧
    ((sortStable (fun (x y : String) => decide (y < x))
        ((integerReduceSliceFloatIterator.results fn opt
          (integerReduceSliceFloatIterator.groups subset tagsID points)).map
            Prod.fst)).reverse).Pairwise (fun x y => x < y) ∧
    ∀ k ∈ (sortStable (fun (x y : String) => decide (y < x))
        ((integerReduceSliceFloatIterator.results fn opt
          (integerReduceSliceFloatIterator.groups subset tagsID points)).map
            Prod.fst)).reverse,
      ∃ g, (k, g) ∈ integerReduceSliceFloatIterator.groups subset tagsID points ∧
        fn g.points opt ≠ [] ∧
        ((integerReduceSliceFloatIterator.results fn opt
          (integerReduceSliceFloatIterator.groups subset tagsID points)).lookup k).getD [] =
          (fn g.points opt).map
            fun (q : FloatPoint) => { q with Name := g.name, Tags := g.tags } := by
  have hnd := sliceResults_keys_nodup fn opt subset tagsID points
  refine ⟨(nextN_window
      (integerReduceSliceFloatIterator.reduceNextWindow fn zeroTime window subset tagsID)
      input).1,
    integerReduceSliceFloatIterator_reduce_reverse fn opt subset tagsID points,
    List.pairwise_reverse.mpr (sortStable_reverse_strings _ hnd), ?_⟩
  intro k hk
  have hk1 : k ∈ sortStable (fun (x y : String) => decide (y < x))
      ((integerReduceSliceFloatIterator.results fn opt
        (integerReduceSliceFloatIterator.groups subset tagsID points)).map Prod.fst) :=
    List.mem_reverse.mp hk
  have hk2 : k ∈ (integerReduceSliceFloatIterator.results fn opt
      (integerReduceSliceFloatIterator.groups subset tagsID points)).map Prod.fst :=
    (List.perm_insertionSort _ _).mem_iff.mp hk1
  obtain ⟨e, he, rfl⟩ := List.mem_map.mp hk2
  obtain ⟨g, hg, hne, hr⟩ := (sliceResults_mem fn opt _ e.1 e.2).mp he
  refine ⟨g, hg, hne, ?_⟩
  rw [assoc_lookup_of_mem _ hnd e.1 e.2 he, ← hr]
  rfl

/-- C39: for every window, the sequence of points that the successive calls of `Next` of
`integerReduceSliceFloatIterator` hand out, the reverse of the slice `reduce` returns, is
the concatenation, over the groups with a non-empty reducer result taken in ascending
lexicographic order of their key, of `fn` applied to the points of the group in their
arrival order, each point with the name and tags of the group. The groups and their key
are those of `reduce`: the points with one id `tags.ID()`. -/
theorem integerReduceSliceFloatIterator_next_eq_reference
    (fn : List IntegerPoint → ReduceOptions → List FloatPoint)
    (zeroTime : Int) (window : Int → Int × Int)
    (subset : List (String × String) → List (String × String))
    (tagsID : List (String × String) → String) (input : List IntegerPoint)
    (opt : ReduceOptions) (points : List IntegerPoint) :
    (nextN (integerReduceSliceFloatIterator.Next fn zeroTime window subset tagsID)
        (sliceNextReference fn
          { StartTime := (window (bufIntegerIterator.peekTime zeroTime input)).1,
            EndTime := (window (bufIntegerIterator.peekTime zeroTime input)).2 } subset tagsID
          (readWindow (window (bufIntegerIterator.peekTime zeroTime input)).1
            (window (bufIntegerIterator.peekTime zeroTime input)).2 input).1).length
        { input := input, points := [] }).1 =
      (sliceNextReference fn
        { StartTime := (window (bufIntegerIterator.peekTime zeroTime input)).1,
          EndTime := (window (bufIntegerIterator.peekTime zeroTime input)).2 } subset tagsID
        (readWindow (window (bufIntegerIterator.peekTime zeroTime input)).1
          (window (bufIntegerIterator.peekTime zeroTime input)).2 input).1).map some ∧
    (integerReduceSliceFloatIterator.reduce fn opt subset tagsID points).reverse =
      sliceNextReference fn opt subset tagsID points := by
  refine ⟨?_, integerReduceSliceFloatIterator_reduce_reverse_eq_reference fn opt subset tagsID
    points⟩
  have hw := (nextN_window
    (integerReduceSliceFloatIterator.reduceNextWindow fn zeroTime window subset tagsID) input).1
  have hred : (integerReduceSliceFloatIterator.reduceNextWindow fn zeroTime window subset tagsID
      input).1 = integerReduceSliceFloatIterator.reduce fn
        { StartTime := (window (bufIntegerIterator.peekTime zeroTime input)).1,
          EndTime := (window (bufIntegerIterator.peekTime zeroTime input)).2 } subset tagsID
        (readWindow (window (bufIntegerIterator.peekTime zeroTime input)).1
          (window (bufIntegerIterator.peekTime zeroTime input)).2 input).1 := rfl
  rw [hred, integerReduceSliceFloatIterator_reduce_reverse_eq_reference] at hw
  rw [← integerReduceSliceFloatIterator_reduce_reverse_eq_reference, List.length_reverse]
  rw [← integerReduceSliceFloatIterator_reduce_reverse_eq_reference] at hw
  exact hw

/-- Witness of C34: a window with two points of the group host=a and one of the group
host=b, the slices sorted with the stable sort: every slice passed to the reducer is
non-empty, and median and spread return a result on it. -/
theorem integerReduceSliceFloatIterator_slices_ne_nil_witness :
    IsSort integerPointsByValueLess (sortStable integerPointsByValueLess) ∧
    integerReduceSliceFloatIterator.slices (fun tags => tags)
        (fun tags => String.join (tags.map fun kv => kv.1 ++ "=" ++ kv.2))
        [{ Name := "cpu", Tags := [("host", "a")], Time := 1, Value := 1 },
          { Name := "cpu", Tags := [("host", "b")], Time := 2, Value := 2 },
          { Name := "cpu", Tags := [("host", "a")], Time := 3, Value := 3 }] =
      [[{ Name := "cpu", Tags := [("host", "a")], Time := 1, Value := 1 },
          { Name := "cpu", Tags := [("host", "a")], Time := 3, Value := 3 }],
        [{ Name := "cpu", Tags := [("host", "b")], Time := 2, Value := 2 }]] ∧
    ∀ a ∈ integerReduceSliceFloatIterator.slices (fun tags => tags)
        (fun tags => String.join (tags.map fun kv => kv.1 ++ "=" ++ kv.2))
        [{ Name := "cpu", Tags := [("host", "a")], Time := 1, Value := 1 },
          { Name := "cpu", Tags := [("host", "b")], Time := 2, Value := 2 },
          { Name := "cpu", Tags := [("host", "a")], Time := 3, Value := 3 }],
      a ≠ [] ∧
        (IntegerMedianReduceSlice (sortStable integerPointsByValueLess) a { }).isSome = true ∧
        (IntegerSpreadReduceSlice a { }).isSome = true :=
  ⟨isSort_sortStable integerPointsByValueLess (fun p => p.Value) integerPointsByValueLess_iff,
    by decide,
    integerReduceSliceFloatIterator_slices_ne_nil (fun tags => tags)
      (fun tags => String.join (tags.map fun kv => kv.1 ++ "=" ++ kv.2))
      [{ Name := "cpu", Tags := [("host", "a")], Time := 1, Value := 1 },
        { Name := "cpu", Tags := [("host", "b")], Time := 2, Value := 2 },
        { Name := "cpu", Tags := [("host", "a")], Time := 3, Value := 3 }]
      (sortStable integerPointsByValueLess) { }
      (isSort_sortStable integerPointsByValueLess (fun p => p.Value)
        integerPointsByValueLess_iff)⟩

/-- Witness of C38: `NewCallIterator` on the name "mean" and an integer input returns the
iterator of the mean, holding the input unread; on the name "median", which it does not
dispatch, and on a string input it returns its errors. -/
theorem newCallIterator_error_iff_witness :
    NewCallIterator "mean" (.IntegerIterator [{ Time := 1, Value := 2 }]) =
      .ok { kind := "integerReduceFloatIterator", fn := "IntegerMeanReduce",
            input := .IntegerIterator [{ Time := 1, Value := 2 }] } ∧
    NewCallIterator "median" (.IntegerIterator [{ Time := 1, Value := 2 }]) =
      .error (.unsupportedFunctionCall "median") ∧
    NewCallIterator "mean" (.StringIterator ["x"]) =
      .error (.unsupportedIteratorType "mean" (.StringIterator ["x"])) ∧
    (isIterator (NewCallIterator "mean" (.StringIterator ["x"])) = false ↔
      ("mean" ∉ ["count", "min", "max", "sum", "first", "last", "mean"] ∨
        (Iterator.StringIterator ["x"]).isNumeric = false)) :=
  ⟨by rfl,
    (newCallIterator_error_iff "median" (.IntegerIterator [{ Time := 1, Value := 2 }])).2.1
      (by decide),
    by rfl,
    (newCallIterator_error_iff "mean" (.StringIterator ["x"])).1⟩

/-- Witness of C40: a Boolean input is refused by the constructor of the median and by
that of distinct; a string input is taken by `NewDistinctIterator`. -/
theorem sliceConstructors_error_iff_witness :
    newMedianIterator (.BooleanIterator [true]) =
      .error (.unsupportedIteratorType "median" (.BooleanIterator [true])) ∧
    NewDistinctIterator (.BooleanIterator [true]) =
      .error (.unsupportedIteratorType "distinct" (.BooleanIterator [true])) ∧
    isIterator (NewDistinctIterator (.StringIterator ["x"])) = true :=
  ⟨((sliceConstructors_error_iff (.BooleanIterator [true]) 0 none 0 { } false).2.2.2.2.2.2.2.2.2.1
      (by decide)).1,
    ((sliceConstructors_error_iff (.BooleanIterator [true]) 0 none 0 { } false).2.2.2.2.2.2.2.2.1
      (by decide)).1,
    by decide⟩

/-! ## The percentile index in `float64` arithmetic -/

/-- The binade of a positive rational. -/
theorem int_log_two_eq (x : ℚ) (e : ℤ) (hx : 0 < x) (h1 : (2 : ℚ) ^ e ≤ x)
    (h2 : x < (2 : ℚ) ^ (e + 1)) : Int.log 2 x = e := by
  apply le_antisymm
  · have := (Int.lt_zpow_iff_log_lt (b := 2) (by norm_num) hx).mp (by exact_mod_cast h2)
    omega
  · exact (Int.zpow_le_iff_le_log (b := 2) (by norm_num) hx).mp (by exact_mod_cast h1)

/-- Rounding to the nearest integer, given the floor and the side of the half. -/
theorem roundHalfEven_eval (q : ℚ) (f r : ℤ) (hf1 : (f : ℚ) ≤ q) (hf2 : q < (f : ℚ) + 1)
    (hr : (q - f < 1 / 2 ∧ r = f) ∨ (1 / 2 < q - f ∧ r = f + 1) ∨
      (q - f = 1 / 2 ∧ f % 2 = 0 ∧ r = f) ∨ (q - f = 1 / 2 ∧ f % 2 = 1 ∧ r = f + 1)) :
    roundHalfEven q = r := by
  have hfloor : ⌊q⌋ = f := Int.floor_eq_iff.mpr ⟨hf1, hf2⟩
  unfold roundHalfEven
  rw [hfloor]
  rcases hr with ⟨h, hr⟩ | ⟨h, hr⟩ | ⟨h, h2, hr⟩ | ⟨h, h2, hr⟩
  · rw [if_pos h, hr]
  · have hn : ¬ q - f < 1 / 2 := by linarith
    rw [if_neg hn, if_pos h, hr]
  · have hn : ¬ q - f < 1 / 2 := by linarith
    have hn2 : ¬ (1 / 2 < q - f) := by linarith
    rw [if_neg hn, if_neg hn2, if_pos h2, hr]
  · have hn : ¬ q - f < 1 / 2 := by linarith
    have hn2 : ¬ (1 / 2 < q - f) := by linarith
    have h3 : ¬ f % 2 = 0 := by omega
    rw [if_neg hn, if_neg hn2, if_neg h3, hr]

/-- The `float64` nearest to a non-zero rational of the binade `e` of the normal range,
given the rounded multiple of `2^(e-52)`. -/
theorem float64Round_eval (x : ℚ) (e r : ℤ) (hx : x ≠ 0) (h1 : (2 : ℚ) ^ e ≤ |x|)
    (h2 : |x| < (2 : ℚ) ^ (e + 1)) (he : -1022 ≤ e)
    (hr : roundHalfEven (x / 2 ^ (e - 52)) = r)
    (hfin : |(r : ℚ) * 2 ^ (e - 52)| < 2 ^ 1024) :
    float64Round x = some ((r : ℚ) * 2 ^ (e - 52)) := by
  have hlog : Int.log 2 |x| = e := int_log_two_eq |x| e (abs_pos.mpr hx) h1 h2
  unfold float64Round
  simp only [hx, if_false, hlog, max_eq_left he, hr, hfin, if_true]

/-- A rational of the normal range that is a multiple of `2^(e-52)` of its binade `e` is a
`float64`: it is its own rounding. -/
theorem float64Round_exact (x : ℚ) (e r : ℤ) (hx : x ≠ 0) (h1 : (2 : ℚ) ^ e ≤ |x|)
    (h2 : |x| < (2 : ℚ) ^ (e + 1)) (he : -1022 ≤ e) (he2 : e ≤ 1023)
    (hxr : x = (r : ℚ) * 2 ^ (e - 52)) : float64Round x = some x := by
  have hpos : (0 : ℚ) < 2 ^ (e - 52) := zpow_pos (by norm_num) _
  have hq : x / 2 ^ (e - 52) = (r : ℚ) := by
    rw [hxr]
    field_simp
  have hr : roundHalfEven (x / 2 ^ (e - 52)) = r := by
    rw [hq]
    exact roundHalfEven_eval _ r r le_rfl (by linarith) (Or.inl ⟨by norm_num, rfl⟩)
  have hfin : |(r : ℚ) * 2 ^ (e - 52)| < 2 ^ 1024 := by
    rw [← hxr]
    refine lt_of_lt_of_le h2 ?_
    have h3 : (2 : ℚ) ^ (e + 1) ≤ 2 ^ (1024 : ℤ) := zpow_le_zpow_right₀ (by norm_num) (by omega)
    rw [zpow_ofNat] at h3
    exact h3
  rw [float64Round_eval x e r hx h1 h2 he hr hfin, ← hxr]

/-- The rounding lemma for a positive rational. -/
theorem float64Round_eval_pos (x : ℚ) (e r : ℤ) (hx : 0 < x) (h1 : (2 : ℚ) ^ e ≤ x)
    (h2 : x < (2 : ℚ) ^ (e + 1)) (he : -1022 ≤ e)
    (hr : roundHalfEven (x / 2 ^ (e - 52)) = r) (hr0 : 0 ≤ r)
    (hfin : (r : ℚ) * 2 ^ (e - 52) < 2 ^ 1024) :
    float64Round x = some ((r : ℚ) * 2 ^ (e - 52)) := by
  have hnn : (0 : ℚ) ≤ (r : ℚ) * 2 ^ (e - 52) :=
    mul_nonneg (by exact_mod_cast hr0) (le_of_lt (zpow_pos (by norm_num) _))
  exact float64Round_eval x e r (ne_of_gt hx) (by rw [abs_of_pos hx]; exact h1)
    (by rw [abs_of_pos hx]; exact h2) he hr (by rw [abs_of_nonneg hnn]; exact hfin)

/-- A positive `float64` is its own rounding. -/
theorem float64Round_exact_pos (x : ℚ) (e r : ℤ) (hx : 0 < x) (h1 : (2 : ℚ) ^ e ≤ x)
    (h2 : x < (2 : ℚ) ^ (e + 1)) (he : -1022 ≤ e) (he2 : e ≤ 1023)
    (hxr : x = (r : ℚ) * 2 ^ (e - 52)) : float64Round x = some x :=
  float64Round_exact x e r (ne_of_gt hx) (by rw [abs_of_pos hx]; exact h1)
    (by rw [abs_of_pos hx]; exact h2) he he2 hxr

/-- The `float64` index of 5 points at the percentile 80 is 3; no operation rounds. -/
theorem percentileIndex_float64_five_eighty : IEEE754.percentileIndex 5 80 = some 3 := by
  have h1 : float64Round ((5 : ℕ) : ℚ) = some 5 := by
    rw [Nat.cast_ofNat]
    exact float64Round_exact_pos 5 2 5629499534213120 (by norm_num) (by norm_num) (by norm_num)
      (by norm_num) (by norm_num) (by norm_num)
  have h2 : float64Round ((5 : ℚ) * 80) = some 400 := by
    rw [show (5 : ℚ) * 80 = 400 by norm_num]
    exact float64Round_exact_pos 400 8 7036874417766400 (by norm_num) (by norm_num)
      (by norm_num) (by norm_num) (by norm_num) (by norm_num)
  have h3 : float64Round ((400 : ℚ) / 100) = some 4 := by
    rw [show (400 : ℚ) / 100 = 4 by norm_num]
    exact float64Round_exact_pos 4 2 4503599627370496 (by norm_num) (by norm_num) (by norm_num)
      (by norm_num) (by norm_num) (by norm_num)
  have h4 : float64Round ((4 : ℚ) + 1 / 2) = some (9 / 2) := by
    rw [show (4 : ℚ) + 1 / 2 = 9 / 2 by norm_num]
    exact float64Round_exact_pos (9 / 2) 2 5066549580791808 (by norm_num) (by norm_num)
      (by norm_num) (by norm_num) (by norm_num) (by norm_num)
  have hfl : ⌊(9 / 2 : ℚ)⌋ = 4 := by
    rw [Int.floor_eq_iff]
    norm_num
  unfold IEEE754.percentileIndex
  rw [h1, Option.some_bind, h2, Option.some_bind, h3, Option.some_bind, h4, Option.some_bind, hfl]
  decide

/-- The `float64` index of 2 points at the percentile 12.5 is -1; no operation rounds. -/
theorem percentileIndex_float64_two_twelve_half :
    IEEE754.percentileIndex 2 (25 / 2) = some (-1) := by
  have h1 : float64Round ((2 : ℕ) : ℚ) = some 2 := by
    rw [Nat.cast_ofNat]
    exact float64Round_exact_pos 2 1 4503599627370496 (by norm_num) (by norm_num) (by norm_num)
      (by norm_num) (by norm_num) (by norm_num)
  have h2 : float64Round ((2 : ℚ) * (25 / 2)) = some 25 := by
    rw [show (2 : ℚ) * (25 / 2) = 25 by norm_num]
    exact float64Round_exact_pos 25 4 7036874417766400 (by norm_num) (by norm_num)
      (by norm_num) (by norm_num) (by norm_num) (by norm_num)
  have h3 : float64Round ((25 : ℚ) / 100) = some (1 / 4) := by
    rw [show (25 : ℚ) / 100 = 1 / 4 by norm_num]
    exact float64Round_exact_pos (1 / 4) (-2) 4503599627370496 (by norm_num) (by norm_num)
      (by norm_num) (by norm_num) (by norm_num) (by norm_num)
  have h4 : float64Round ((1 / 4 : ℚ) + 1 / 2) = some (3 / 4) := by
    rw [show (1 / 4 : ℚ) + 1 / 2 = 3 / 4 by norm_num]
    exact float64Round_exact_pos (3 / 4) (-1) 6755399441055744 (by norm_num) (by norm_num)
      (by norm_num) (by norm_num) (by norm_num) (by norm_num)
  have hfl : ⌊(3 / 4 : ℚ)⌋ = 0 := by
    rw [Int.floor_eq_iff]
    norm_num
  unfold IEEE754.percentileIndex
  rw [h1, Option.some_bind, h2, Option.some_bind, h3, Option.some_bind, h4, Option.some_bind, hfl]
  decide

/-- The `float64` index of 3 points at the percentile 83.33333333333333 (the `float64`
5864062014805333 / 2^46) is 2: the product 3 * p lies halfway between two `float64` values
and rounds to 250, so that the sum is 3. -/
theorem percentileIndex_float64_three :
    IEEE754.percentileIndex 3 (5864062014805333 / 70368744177664) = some 2 := by
  have h1 : float64Round ((3 : ℕ) : ℚ) = some 3 := by
    rw [Nat.cast_ofNat]
    exact float64Round_exact_pos 3 1 6755399441055744 (by norm_num) (by norm_num) (by norm_num)
      (by norm_num) (by norm_num) (by norm_num)
  have h2 : float64Round ((3 : ℚ) * (5864062014805333 / 70368744177664)) = some 250 := by
    have h := float64Round_eval_pos ((3 : ℚ) * (5864062014805333 / 70368744177664)) 7
      8796093022208000 (by norm_num) (by norm_num) (by norm_num) (by norm_num)
      (roundHalfEven_eval _ 8796093022207999 _ (by norm_num) (by norm_num)
        (Or.inr (Or.inr (Or.inr ⟨by norm_num, by decide, by decide⟩))))
      (by decide) (by norm_num)
    rw [h]
    norm_num
  have h3 : float64Round ((250 : ℚ) / 100) = some (5 / 2) := by
    rw [show (250 : ℚ) / 100 = 5 / 2 by norm_num]
    exact float64Round_exact_pos (5 / 2) 1 5629499534213120 (by norm_num) (by norm_num)
      (by norm_num) (by norm_num) (by norm_num) (by norm_num)
  have h4 : float64Round ((5 / 2 : ℚ) + 1 / 2) = some 3 := by
    rw [show (5 / 2 : ℚ) + 1 / 2 = 3 by norm_num]
    exact float64Round_exact_pos 3 1 6755399441055744 (by norm_num) (by norm_num) (by norm_num)
      (by norm_num) (by norm_num) (by norm_num)
  have hfl : ⌊(3 : ℚ)⌋ = 3 := by
    rw [Int.floor_eq_iff]
    norm_num
  unfold IEEE754.percentileIndex
  rw [h1, Option.some_bind, h2, Option.some_bind, h3, Option.some_bind, h4, Option.some_bind, hfl]
  decide

/-- The `float64` index of 1 point at the percentile 49.99999999999999 (the `float64`
7036874417766399 / 2^47) is 0: the quotient p / 100 rounds to 0.49999999999999994 and the
sum with 0.5 lies halfway between two `float64` values and rounds to 1. -/
theorem percentileIndex_float64_one :
    IEEE754.percentileIndex 1 (7036874417766399 / 140737488355328) = some 0 := by
  have h1 : float64Round ((1 : ℕ) : ℚ) = some 1 := by
    rw [Nat.cast_one]
    exact float64Round_exact_pos 1 0 4503599627370496 (by norm_num) (by norm_num) (by norm_num)
      (by norm_num) (by norm_num) (by norm_num)
  have h2 : float64Round ((1 : ℚ) * (7036874417766399 / 140737488355328)) =
      some (7036874417766399 / 140737488355328) := by
    rw [one_mul]
    exact float64Round_exact_pos _ 5 7036874417766399 (by norm_num) (by norm_num)
      (by norm_num) (by norm_num) (by norm_num) (by norm_num)
  have h3 : float64Round ((7036874417766399 / 140737488355328 : ℚ) / 100) =
      some (9007199254740991 / 18014398509481984) := by
    have h := float64Round_eval_pos ((7036874417766399 / 140737488355328 : ℚ) / 100) (-2)
      9007199254740991 (by norm_num) (by norm_num) (by norm_num) (by norm_num)
      (roundHalfEven_eval _ 9007199254740990 _ (by norm_num) (by norm_num)
        (Or.inr (Or.inl ⟨by norm_num, by decide⟩)))
      (by decide) (by norm_num)
    rw [h]
    norm_num
  have h4 : float64Round ((9007199254740991 / 18014398509481984 : ℚ) + 1 / 2) = some 1 := by
    have h := float64Round_eval_pos ((9007199254740991 / 18014398509481984 : ℚ) + 1 / 2) (-1)
      9007199254740992 (by norm_num) (by norm_num) (by norm_num) (by norm_num)
      (roundHalfEven_eval _ 9007199254740991 _ (by norm_num) (by norm_num)
        (Or.inr (Or.inr (Or.inr ⟨by norm_num, by decide, by decide⟩))))
      (by decide) (by norm_num)
    rw [h]
    norm_num
  have hfl : ⌊(1 : ℚ)⌋ = 1 := by
    rw [Int.floor_eq_iff]
    norm_num
  unfold IEEE754.percentileIndex
  rw [h1, Option.some_bind, h2, Option.some_bind, h3, Option.some_bind, h4, Option.some_bind, hfl]
  decide

/-- C13, counterexample: three points of values 30, 10, 20 and the percentile
83.33333333333333, a `float64`. In exact arithmetic the index
floor(3 * p / 100 + 0.5) - 1 is 1, within [0, 3), and the element at index 1 of the sorted
values is 20; the code evaluates the index in `float64` arithmetic, gets 2, and returns the
value 30. -/
theorem newIntegerPercentileReduceSliceFunc_float64_rounds_up :
    float64Round (5864062014805333 / 70368744177664) =
      some (5864062014805333 / 70368744177664) ∧
    percentileIndex 3 (5864062014805333 / 70368744177664) = 1 ∧
    (([{ Time := 1, Value := 30 }, { Time := 2, Value := 10 }, { Time := 3, Value := 20 }] :
      List IntegerPoint).map (·.Value)).insertionSort (· ≤ ·) = [10, 20, 30] ∧
    IEEE754.percentileIndex 3 (5864062014805333 / 70368744177664) = some 2 ∧
    IEEE754.NewIntegerPercentileReduceSliceFunc (sortStable integerPointsByValueLess)
        (5864062014805333 / 70368744177664)
        [{ Time := 1, Value := 30 }, { Time := 2, Value := 10 }, { Time := 3, Value := 20 }]
        { StartTime := 0, EndTime := 10 } = some [{ Time := 0, Value := 30 }] := by
  refine ⟨?_, ?_, by decide, percentileIndex_float64_three, ?_⟩
  · exact float64Round_exact_pos _ 6 5864062014805333 (by norm_num) (by norm_num)
      (by norm_num) (by norm_num) (by norm_num) (by norm_num)
  · unfold percentileIndex
    norm_num [Int.floor_eq_iff]
  · unfold IEEE754.NewIntegerPercentileReduceSliceFunc
    have hlen : ([{ Time := 1, Value := 30 }, { Time := 2, Value := 10 },
        { Time := 3, Value := 20 }] : List IntegerPoint).length = 3 := rfl
    simp only [hlen, percentileIndex_float64_three, Option.some_bind]
    decide

/-- C13, amended: for every slice `a` of n integer points and every percentile p for which
the index i = int(math.Floor(float64(n)*p/100.0+0.5)) - 1, evaluated in `float64`
arithmetic as the code does, satisfies 0 <= i < n, the function returned by
`NewIntegerPercentileReduceSliceFunc(p)` returns exactly one point, with
`Time = opt.StartTime` and with `Value` the element at index i (0-based) of the values of
`a` sorted ascending. This holds for every sorting function meeting the contract of
`sort.Sort`. -/
theorem newIntegerPercentileReduceSliceFunc_float64_in_range
    (sortFn : List IntegerPoint → List IntegerPoint)
    (hsort : IsSort integerPointsByValueLess sortFn) (percentile : ℚ) (a : List IntegerPoint)
    (opt : ReduceOptions) (i : Int)
    (hidx : IEEE754.percentileIndex a.length percentile = some i)
    (hlo : 0 ≤ i) (hhi : i < (a.length : Int)) :
    ∃ v, ((a.map (·.Value)).insertionSort (· ≤ ·))[i.toNat]? = some v ∧
      IEEE754.NewIntegerPercentileReduceSliceFunc sortFn percentile a opt =
        some [{ Time := opt.StartTime, Value := v }] := by
  have hvals := map_key_of_isSort integerPointsByValueLess (·.Value)
    integerPointsByValueLess_iff sortFn hsort a
  have hlen : (sortFn a).length = a.length := (hsort a).1.length_eq
  have hi : i.toNat < (sortFn a).length := by
    rw [hlen]
    omega
  refine ⟨((sortFn a)[i.toNat]).Value, ?_, ?_⟩
  · rw [← hvals, List.getElem?_map, List.getElem?_eq_getElem hi]
    rfl
  · unfold IEEE754.NewIntegerPercentileReduceSliceFunc
    have hcond : ¬ (i < 0 ∨ i ≥ (a.length : Int)) := by omega
    simp only [hidx, Option.some_bind, hcond, if_false, List.getElem?_eq_getElem hi,
      Option.map_some']

/-- Witness of C13: five points at the percentile 80; the index is 3 and the value returned
is 40, the element at index 3 of the sorted values 10, 20, 30, 40, 50. -/
theorem newIntegerPercentileReduceSliceFunc_float64_in_range_witness :
    IEEE754.percentileIndex 5 80 = some 3 ∧
      ∃ v, ((([{ Time := 1, Value := 50 }, { Time := 2, Value := 10 }, { Time := 3, Value := 40 },
                { Time := 4, Value := 20 }, { Time := 5, Value := 30 }] :
              List IntegerPoint).map (·.Value)).insertionSort (· ≤ ·))[(3 : Int).toNat]? =
            some v ∧
        IEEE754.NewIntegerPercentileReduceSliceFunc (sortStable integerPointsByValueLess) 80
            [{ Time := 1, Value := 50 }, { Time := 2, Value := 10 }, { Time := 3, Value := 40 },
             { Time := 4, Value := 20 }, { Time := 5, Value := 30 }]
            { StartTime := 0, EndTime := 10 } =
          some [{ Time := 0, Value := v }] :=
  ⟨percentileIndex_float64_five_eighty,
    newIntegerPercentileReduceSliceFunc_float64_in_range (sortStable integerPointsByValueLess)
      (isSort_sortStable _ (·.Value) integerPointsByValueLess_iff) 80
      [{ Time := 1, Value := 50 }, { Time := 2, Value := 10 }, { Time := 3, Value := 40 },
       { Time := 4, Value := 20 }, { Time := 5, Value := 30 }]
      { StartTime := 0, EndTime := 10 } 3 percentileIndex_float64_five_eighty (by decide)
      (by decide)⟩

/-- C14, counterexample: one point of value 7 and the percentile 49.99999999999999, a
`float64`. In exact arithmetic the index floor(1 * p / 100 + 0.5) - 1 is -1, outside
[0, 1); the code evaluates the index in `float64` arithmetic, gets 0, and both reducers
return the point's value instead of a `Nil` point and of no points. -/
theorem percentileReduceSliceFunc_float64_in_range_below_half :
    float64Round (7036874417766399 / 140737488355328) =
      some (7036874417766399 / 140737488355328) ∧
    percentileIndex 1 (7036874417766399 / 140737488355328) = -1 ∧
    IEEE754.percentileIndex 1 (7036874417766399 / 140737488355328) = some 0 ∧
    IEEE754.NewFloatPercentileReduceSliceFunc (sortStable floatPointsByValueLess)
        (7036874417766399 / 140737488355328) [{ Time := 1, Value := 7 }]
        { StartTime := 0, EndTime := 10 } = some [{ Time := 0, Value := 7 }] ∧
    IEEE754.NewIntegerPercentileReduceSliceFunc (sortStable integerPointsByValueLess)
        (7036874417766399 / 140737488355328) [{ Time := 1, Value := 7 }]
        { StartTime := 0, EndTime := 10 } = some [{ Time := 0, Value := 7 }] := by
  refine ⟨?_, ?_, percentileIndex_float64_one, ?_, ?_⟩
  · exact float64Round_exact_pos _ 5 7036874417766399 (by norm_num) (by norm_num)
      (by norm_num) (by norm_num) (by norm_num) (by norm_num)
  · unfold percentileIndex
    norm_num [Int.floor_eq_iff]
  · unfold IEEE754.NewFloatPercentileReduceSliceFunc
    have hlen : ([{ Time := 1, Value := 7 }] : List FloatPoint).length = 1 := rfl
    simp only [hlen, percentileIndex_float64_one, Option.some_bind]
    decide
  · unfold IEEE754.NewIntegerPercentileReduceSliceFunc
    have hlen : ([{ Time := 1, Value := 7 }] : List IntegerPoint).length = 1 := rfl
    simp only [hlen, percentileIndex_float64_one, Option.some_bind]
    decide

/-- C14, amended: for every slice of length n and percentile p whose index
int(math.Floor(float64(n)*p/100.0+0.5)) - 1, evaluated in `float64` arithmetic as the code
does, lies outside [0, n), the float percentile reducer returns exactly one point, with
`Nil` set and `Time = opt.StartTime`, whereas the integer percentile reducer returns no
points at all. -/
theorem percentileReduceSliceFunc_float64_out_of_range
    (sortF : List FloatPoint → List FloatPoint) (sortI : List IntegerPoint → List IntegerPoint)
    (percentile : ℚ) (af : List FloatPoint) (ai : List IntegerPoint) (opt : ReduceOptions)
    (jf ji : Int)
    (hjf : IEEE754.percentileIndex af.length percentile = some jf)
    (hji : IEEE754.percentileIndex ai.length percentile = some ji)
    (hf : jf < 0 ∨ (af.length : Int) ≤ jf) (hi : ji < 0 ∨ (ai.length : Int) ≤ ji) :
    IEEE754.NewFloatPercentileReduceSliceFunc sortF percentile af opt =
        some [{ Time := opt.StartTime, Nil := true }] ∧
      IEEE754.NewIntegerPercentileReduceSliceFunc sortI percentile ai opt = some [] := by
  constructor
  · unfold IEEE754.NewFloatPercentileReduceSliceFunc
    have hcond : jf < 0 ∨ jf ≥ (af.length : Int) := hf
    simp only [hjf, Option.some_bind, hcond, if_true]
  · unfold IEEE754.NewIntegerPercentileReduceSliceFunc
    have hcond : ji < 0 ∨ ji ≥ (ai.length : Int) := hi
    simp only [hji, Option.some_bind, hcond, if_true]

/-- Witness of C14: two points at the percentile 12.5; the index is -1, the float reducer
returns a `Nil` point and the integer reducer returns no points. -/
theorem percentileReduceSliceFunc_float64_out_of_range_witness :
    IEEE754.percentileIndex 2 (25 / 2) = some (-1) ∧
      IEEE754.NewFloatPercentileReduceSliceFunc (sortStable floatPointsByValueLess) (25 / 2)
          [{ Time := 1, Value := 5 }, { Time := 2, Value := 7 }]
          { StartTime := 0, EndTime := 10 } =
        some [{ Time := 0, Nil := true }] ∧
      IEEE754.NewIntegerPercentileReduceSliceFunc (sortStable integerPointsByValueLess) (25 / 2)
          [{ Time := 1, Value := 5 }, { Time := 2, Value := 7 }]
          { StartTime := 0, EndTime := 10 } = some [] :=
  ⟨percentileIndex_float64_two_twelve_half,
    percentileReduceSliceFunc_float64_out_of_range (sortStable floatPointsByValueLess)
      (sortStable integerPointsByValueLess) (25 / 2)
      [{ Time := 1, Value := 5 }, { Time := 2, Value := 7 }]
      [{ Time := 1, Value := 5 }, { Time := 2, Value := 7 }]
      { StartTime := 0, EndTime := 10 } (-1) (-1) percentileIndex_float64_two_twelve_half
      percentileIndex_float64_two_twelve_half (Or.inl (by decide)) (Or.inl (by decide))⟩

/-- Where the `float64` evaluation of the index gives the index of exact arithmetic, the
reducers with the `float64` index return what the reducers with the exact index return. -/
theorem percentileReduceSliceFunc_float64_eq_exact
    (sortF : List FloatPoint → List FloatPoint) (sortI : List IntegerPoint → List IntegerPoint)
    (percentile : ℚ) (af : List FloatPoint) (ai : List IntegerPoint) (opt : ReduceOptions) :
    (IEEE754.percentileIndex af.length percentile = some (percentileIndex af.length percentile) →
      IEEE754.NewFloatPercentileReduceSliceFunc sortF percentile af opt =
        NewFloatPercentileReduceSliceFunc sortF percentile af opt) ∧
    (IEEE754.percentileIndex ai.length percentile = some (percentileIndex ai.length percentile) →
      IEEE754.NewIntegerPercentileReduceSliceFunc sortI percentile ai opt =
        NewIntegerPercentileReduceSliceFunc sortI percentile ai opt) := by
  constructor
  · intro h
    unfold IEEE754.NewFloatPercentileReduceSliceFunc NewFloatPercentileReduceSliceFunc
    simp only [h, Option.some_bind]
  · intro h
    unfold IEEE754.NewIntegerPercentileReduceSliceFunc NewIntegerPercentileReduceSliceFunc
    simp only [h, Option.some_bind]

end Influxql
